import Mathlib

/-!
Verification of the K&R-style dynamic memory allocator (mm_kr_heap.c).

The heap segment is modelled as a list of header-sized cells.  Each cell
carries the two fields of the C Header union: the free-list pointer and
the block size (counted in header units).  Pointers are unit indices into
the segment; the C null pointer is Option.none.  The byte size of one
header record (sizeof(Header)) is kept abstract as the state field hsize.
Payload bytes live in a separate total map, since header/footer metadata
and payload never alias in the states the theorems speak about.

The segment provider (memlib) is external to the repository; it is
modelled by the segment-provider contract of the specification: the heap
is a contiguous region growing from index 0, mem_sbrk extends it and
fails once a fixed capacity (maxUnits, in units) would be exceeded, and
mem_heapsize is the current byte count.  Dereferencing a null pointer is
undefined behaviour in C; in the model those writes fall back to leaving
the state unchanged, and every theorem is stated on states where the
source would not dereference null.  A failed runtime assertion is
modelled by the value none (the program terminates).
-/

/-- One header-sized cell: the s.ptr and s.size fields of the Header union. -/
structure Cell where
  ptr  : Option Nat
  size : Nat
deriving Repr, DecidableEq, Inhabited

/-- Allocator plus segment-provider state.  heap is the segment (one entry
per header unit), freep the roving free-list head, data the payload byte
store, errno whether ENOMEM has been raised, maxUnits the capacity of the
segment in units, pagesize and hsize the provider page size and
sizeof(Header) in bytes. -/
structure MM where
  heap     : List Cell
  freep    : Option Nat
  data     : Nat → Nat
  errno    : Bool
  maxUnits : Nat
  pagesize : Nat
  hsize    : Nat

/-- Read a cell of the segment (out of range reads give a zero cell). -/
def hGet (h : List Cell) (i : Nat) : Cell := h.getD i ⟨none, 0⟩

/-- mm_units: allocation units for nbytes bytes. -/
def mm_units (hsize nbytes : Nat) : Nat := (nbytes + 2 * hsize - 1) / hsize + 1

/-- mm_bytes: allocation bytes for nunits allocation units. -/
def mm_bytes (hsize nunits : Nat) : Nat := nunits * hsize

/-- mem_heapsize of the modelled segment provider, in bytes. -/
def mem_heapsize (s : MM) : Nat := s.heap.length * s.hsize

/-- mm_payload: pointer to the payload of the block at bp. -/
def mm_payload (bp : Nat) : Nat := bp + 1

/-- mm_block: pointer to the block of payload ap. -/
def mm_block (ap : Nat) : Nat := ap - 1

/-- mm_size: size of the block at bp in header units. -/
def mm_size (s : MM) (bp : Nat) : Nat := (hGet s.heap bp).size

/-- mm_footer: pointer to the footer of the block at bp. -/
def mm_footer (s : MM) (bp : Nat) : Nat := bp + mm_size s bp - 1

/-- mm_header: pointer to the header of the block with footer fp. -/
def mm_header (s : MM) (fp : Nat) : Nat := fp + 1 - (hGet s.heap fp).size

/-- The heap effect of mm_setSize: write the size at the header, then at
the footer, whose position is computed from the freshly written header
size, exactly as the source does. -/
def setSizeList (h : List Cell) (bp n : Nat) : List Cell :=
  let h1 := h.set bp { hGet h bp with size := n }
  let f := bp + (hGet h1 bp).size - 1
  h1.set f { hGet h1 f with size := n }

/-- mm_setSize: set the size of the block at bp in header and footer. -/
def mm_setSize (s : MM) (bp n : Nat) : MM := { s with heap := setSizeList s.heap bp n }

/-- mm_next: next block of bp on the free list. -/
def mm_next (s : MM) (bp : Nat) : Option Nat := (hGet s.heap bp).ptr

/-- mm_setNext: set the next block of bp on the free list. -/
def mm_setNext (s : MM) (bp : Nat) (next : Option Nat) : MM :=
  { s with heap := s.heap.set bp { hGet s.heap bp with ptr := next } }

/-- mm_prev: previous block of bp on the free list (stored in the footer). -/
def mm_prev (s : MM) (bp : Nat) : Option Nat := (hGet s.heap (mm_footer s bp)).ptr

/-- mm_setPrev: set the previous block of bp on the free list. -/
def mm_setPrev (s : MM) (bp : Nat) (prev : Option Nat) : MM :=
  { s with heap := s.heap.set (mm_footer s bp) { hGet s.heap (mm_footer s bp) with ptr := prev } }

/-- Write through a possibly null block pointer: the source never reaches
these helpers with a null pointer in a consistent state (doing so would
be undefined behaviour), so the null case leaves the state unchanged. -/
def osetNext (s : MM) (bp : Option Nat) (next : Option Nat) : MM :=
  match bp with
  | none => s
  | some b => mm_setNext s b next

/-- Write the footer pointer through a possibly null block pointer. -/
def osetPrev (s : MM) (bp : Option Nat) (prev : Option Nat) : MM :=
  match bp with
  | none => s
  | some b => mm_setPrev s b prev

/-- mm_before: block physically before bp in memory (null at the low
watermark), reconstructed from the footer just below bp. -/
def mm_before (s : MM) (bp : Nat) : Option Nat :=
  if bp = 0 then none else some (mm_header s (bp - 1))

/-- mm_after: block physically after bp in memory (null past the high
watermark). -/
def mm_after (s : MM) (bp : Nat) : Option Nat :=
  if s.heap.length ≤ bp + mm_size s bp then none else some (bp + mm_size s bp)

/-- mm_unlink: unlink the block at bp from the free list. -/
def mm_unlink (s : MM) (bp : Nat) : MM :=
  if mm_next s bp = some bp then
    let s1 := mm_setNext s bp none
    let s2 := mm_setPrev s1 bp none
    { s2 with freep := none }
  else
    let prev := mm_prev s bp
    let next := mm_next s bp
    let s1 := osetNext s prev next
    let s2 := osetPrev s1 next prev
    let s3 := mm_setNext s2 bp none
    mm_setPrev s3 bp none

/-- mm_link: link the block at bp into the free list just before pos
(bp becomes a singleton cycle when pos is null). -/
def mm_link (s : MM) (bp : Nat) (pos : Option Nat) : MM :=
  match pos with
  | none =>
    let s1 := mm_setNext s bp (some bp)
    let s2 := mm_setPrev s1 bp (some bp)
    { s2 with freep := some bp }
  | some p =>
    let prev := mm_prev s p
    let s1 := osetNext s prev (some bp)
    let s2 := mm_setPrev s1 bp prev
    let s3 := mm_setNext s2 bp (some p)
    mm_setPrev s3 p (some bp)

/-- mm_free: deallocate the payload ap.  A null ap is a no-op.  The
result none models the program terminating in the assert that validates
the size field of the freed block. -/
def mm_free (s : MM) (ap : Option Nat) : Option MM :=
  match ap with
  | none => some s
  | some a =>
    let bp := mm_block a
    if ¬ (0 < mm_size s bp ∧ mm_bytes s.hsize (mm_size s bp) ≤ mem_heapsize s) then
      none
    else if s.freep = none then
      let s1 := mm_setNext s bp (some bp)
      let s2 := mm_setPrev s1 bp (some bp)
      some { s2 with freep := some bp }
    else
      let s2 :=
        match mm_after s bp with
        | none => s
        | some pnext =>
          if (hGet s.heap pnext).ptr ≠ none then
            let sa := if s.freep = some pnext then { s with freep := mm_prev s pnext } else s
            let sb := mm_unlink sa pnext
            let sc := mm_setSize sb bp (mm_size sb bp + mm_size sb pnext)
            let sd := mm_setNext sc bp none
            mm_setPrev sd bp none
          else s
      let s4p :=
        match mm_before s2 bp with
        | none => (s2, bp)
        | some p =>
          if (hGet s2.heap p).ptr ≠ none then
            let sa := if s2.freep = some p then { s2 with freep := mm_prev s2 p } else s2
            let sb := mm_unlink sa p
            let sc := mm_setSize sb p (mm_size sb p + mm_size sb bp)
            let sd := mm_setNext sc bp none
            let se := mm_setPrev sd bp none
            let sf := mm_setNext se p none
            let sg := mm_setPrev sf p none
            (sg, p)
          else (s2, bp)
      let s5 := mm_link s4p.1 s4p.2 s4p.1.freep
      some { s5 with freep := mm_prev s5 s4p.2 }

/-- morecore: request nu more units from the segment provider, install
them as one block, and release that block into the free list.  The
result is none only when the release asserts (never in a consistent
state); the inner option is the returned block pointer, null when
mem_sbrk refuses to grow the segment. -/
def morecore (s : MM) (nu0 : Nat) : Option (MM × Option Nat) :=
  let nalloc := s.pagesize / s.hsize
  let nu := if nu0 < nalloc then nalloc else nu0
  if s.maxUnits < s.heap.length + nu then some (s, none)
  else
    let b := s.heap.length
    let s1 : MM := { s with heap := s.heap ++ List.replicate nu (⟨none, 0⟩ : Cell) }
    let s2 := mm_setSize s1 b nu
    match mm_free s2 (some (mm_payload b)) with
    | none => none
    | some s3 => some (s3, s3.freep)

/-- The circular first-fit traversal of mm_malloc, at current candidate
p, with explicit fuel.  The result none models a run the source never
completes (null dereference, assert inside morecore, or exhausted fuel);
otherwise the pair is the final state and the returned payload pointer
(null on OUT_OF_MEMORY, with errno set). -/
def mallocLoop (nunits : Nat) : Nat → MM → Nat → Option (MM × Option Nat)
  | 0, _, _ => none
  | fuel + 1, s, p =>
    if nunits ≤ mm_size s p then
      if mm_size s p = nunits ∨ mm_size s p = nunits + 1 then
        let s1 := if s.freep = some p then { s with freep := mm_prev s p } else s
        let s2 := mm_unlink s1 p
        some (s2, some (mm_payload p))
      else
        let prev := mm_prev s p
        let next := mm_next s p
        let s1 := mm_setSize s p (mm_size s p - nunits)
        let s2 := mm_setPrev s1 p prev
        let s3 := mm_setNext s2 p next
        let p2 := p + mm_size s3 p
        let s4 := mm_setSize s3 p2 nunits
        let s5 := mm_setNext s4 p2 none
        let s6 := mm_setPrev s5 p2 none
        some ({ s6 with freep := prev }, some (mm_payload p2))
    else if s.freep = some p then
      match morecore s nunits with
      | none => none
      | some (s1, none) => some ({ s1 with errno := true }, none)
      | some (s1, some np) =>
        let s2 := { s1 with freep := mm_prev s1 np }
        match mm_next s2 np with
        | none => none
        | some q => mallocLoop nunits fuel s2 q
    else
      match mm_next s p with
      | none => none
      | some q => mallocLoop nunits fuel s q

/-- Fuel that is ample for every traversal mm_malloc performs on a
consistent state (the free list has at most maxUnits members and growth
succeeds at most once per call). -/
def mallocFuel (s : MM) : Nat := s.maxUnits + s.heap.length + 4

/-- mm_malloc: allocate nbytes bytes; the inner option is the returned
payload pointer, null on OUT_OF_MEMORY with errno set. -/
def mm_malloc (s : MM) (nbytes : Nat) : Option (MM × Option Nat) :=
  let nunits := mm_units s.hsize nbytes
  match s.freep with
  | none =>
    match morecore s nunits with
    | none => none
    | some (s1, none) => some ({ s1 with errno := true }, none)
    | some (s1, some p) =>
      let s2 := { s1 with freep := some p }
      match mm_next s2 p with
      | none => none
      | some q => mallocLoop nunits (mallocFuel s2) s2 q
  | some f =>
    match mm_next s f with
    | none => none
    | some q => mallocLoop nunits (mallocFuel s) s q

/-- Zero n bytes of the payload store starting at byte address a. -/
def memsetZero (d : Nat → Nat) (a n : Nat) : Nat → Nat :=
  fun b => if a ≤ b ∧ b < a + n then 0 else d b

/-- Copy n payload bytes from byte address src to byte address dst. -/
def memcpyData (d : Nat → Nat) (dst src n : Nat) : Nat → Nat :=
  fun b => if dst ≤ b ∧ b < dst + n then d (src + (b - dst)) else d b

/-- The word size of size_t: count times size overflows exactly when the
mathematical product reaches 2 to the 64. -/
def USIZE : Nat := 2 ^ 64

/-- The unit count exactly as the C computes it: the expression
(nbytes + 2 * sizeof(Header) - 1) / sizeof(Header) + 1 evaluated in
wrapping size_t arithmetic (the numerator and the final increment both
reduce modulo 2^64). -/
def mm_units_c (hsize nbytes : Nat) : Nat :=
  ((nbytes + 2 * hsize - 1) % USIZE / hsize + 1) % USIZE

/-- The byte count nunits * sizeof(Header) exactly as the C computes
it: a size_t product, wrapping modulo 2^64. -/
def mm_bytes_c (hsize nunits : Nat) : Nat := (nunits * hsize) % USIZE

/-- mm_calloc: allocate count * size zeroed bytes; null on multiplication
overflow (detected before asking for memory) or on allocation failure. -/
def mm_calloc (s : MM) (count size : Nat) : Option (MM × Option Nat) :=
  if USIZE ≤ count * size then some (s, none)
  else
    let nbytes := count * size
    match mm_malloc s nbytes with
    | none => none
    | some (s1, none) => some (s1, none)
    | some (s1, some p) =>
      some ({ s1 with data := memsetZero s1.data (p * s1.hsize) nbytes }, some p)

/-- mm_realloc: grow or shrink the allocation at ap to newsize bytes. -/
def mm_realloc (s : MM) (ap : Option Nat) (newsize : Nat) : Option (MM × Option Nat) :=
  match ap with
  | none => mm_malloc s newsize
  | some a =>
    let bp := mm_block a
    if 0 < newsize ∧ mm_units s.hsize newsize ≤ mm_size s bp then some (s, some a)
    else
      match mm_malloc s newsize with
      | none => none
      | some (s1, none) => some (s1, none)
      | some (s1, some na) =>
        let oldsize := mm_bytes s1.hsize (mm_size s1 bp - 1)
        let cpy := if oldsize < newsize then oldsize else newsize
        let s2 := { s1 with data := memcpyData s1.data (na * s1.hsize) (a * s1.hsize) cpy }
        match mm_free s2 (some a) with
        | none => none
        | some s3 => some (s3, some na)

/-- Pointer comparison of the getfree scan: the C expression
tmp-next greater than tmp, with a null next comparing below every block. -/
def ptrGt (p : Option Nat) (i : Nat) : Bool :=
  match p with
  | none => false
  | some j => i < j

/-- The scan of mm_getfree: follow next pointers while they strictly
increase, accumulating sizes. -/
def getfreeLoop (s : MM) : Nat → Nat → Nat → Nat
  | 0, _, res => res
  | fuel + 1, tmp, res =>
    if ptrGt (mm_next s tmp) tmp then
      match mm_next s tmp with
      | none => res
      | some t2 => getfreeLoop s fuel t2 (res + mm_size s t2)
    else res

/-- mm_getfree: the total free memory reported by the allocator, in
bytes (0 when the free list is empty). -/
def mm_getfree (s : MM) : Nat :=
  match s.freep with
  | none => 0
  | some f => mm_bytes s.hsize (getfreeLoop s (s.heap.length + 1) f (mm_size s f))

/-- mm_init with the given provider parameters: empty segment, empty
free list, arbitrary memory contents d. -/
def mm_init (hsize pagesize maxUnits : Nat) (d : Nat → Nat) : MM :=
  { heap := [], freep := none, data := d, errno := false,
    maxUnits := maxUnits, pagesize := pagesize, hsize := hsize }

/-- An external call to the allocator: an allocation request of n bytes,
or the release of payload pointer a. -/
inductive Op where
  | alloc : Nat → Op
  | release : Nat → Op
deriving Repr, DecidableEq

/-- Run a sequence of external calls, tracking the list of live payload
pointers.  A release must name a live pointer (releasing anything else,
including a double release, is undefined behaviour per the
specification); a failed allocation is allowed and leaves the live set
unchanged.  The result none marks a run the source does not define. -/
def runOps : MM → List Nat → List Op → Option (MM × List Nat)
  | s, live, [] => some (s, live)
  | s, live, Op.alloc n :: ops =>
    match mm_malloc s n with
    | none => none
    | some (s1, none) => runOps s1 live ops
    | some (s1, some a) => runOps s1 (a :: live) ops
  | s, live, Op.release a :: ops =>
    if a ∈ live then
      match mm_free s (some a) with
      | none => none
      | some s1 => runOps s1 (live.erase a) ops
    else none

/-- The block starts of the segment, read off by walking the size fields
from index 0 (with fuel, since a corrupt segment need not terminate). -/
def blocksAux (h : List Cell) : Nat → Nat → List Nat
  | 0, _ => []
  | fuel + 1, i =>
    if h.length ≤ i then []
    else i :: blocksAux h fuel (i + (hGet h i).size)

/-- The block starts of the segment of s. -/
def blocksOf (s : MM) : List Nat := blocksAux s.heap s.heap.length 0

/-- A block is free exactly when its header next pointer is not null
(specification invariant 3 relies on this discriminator). -/
def isFree (h : List Cell) (b : Nat) : Prop := (hGet h b).ptr ≠ none

instance (h : List Cell) (b : Nat) : Decidable (isFree h b) := by
  unfold isFree; infer_instance

/-- The sum of the size fields of all free blocks of the segment, in
units: what the specification says getfree reports (up to the byte
conversion). -/
def freeTotal (s : MM) : Nat :=
  ((blocksOf s).filter (fun b => (hGet s.heap b).ptr.isSome)).foldr
    (fun b acc => mm_size s b + acc) 0

/-- The segment from index i to index j is partitioned into the blocks
whose starts are listed, each of size at least 2 units. -/
def chainSeg (h : List Cell) : Nat → List Nat → Nat → Prop
  | i, [], j => j = i
  | i, b :: bs, j => b = i ∧ 2 ≤ (hGet h b).size ∧ chainSeg h (b + (hGet h b).size) bs j

instance instDecChainSeg (h : List Cell) :
    (i : Nat) → (bl : List Nat) → (j : Nat) → Decidable (chainSeg h i bl j)
  | _, [], _ => by unfold chainSeg; infer_instance
  | i, b :: bs, j => by
      unfold chainSeg
      have := instDecChainSeg h (b + (hGet h b).size) bs j
      infer_instance

/-- The whole segment is partitioned into the listed blocks
(specification invariant 2, and the size lower bound of invariant 1). -/
def chainOk (h : List Cell) (bl : List Nat) : Prop := chainSeg h 0 bl h.length

/-- Every listed block stores the same size in header and footer
(specification invariant 1). -/
def footOk (h : List Cell) (bl : List Nat) : Prop :=
  ∀ b ∈ bl, (hGet h (b + (hGet h b).size - 1)).size = (hGet h b).size

/-- No two physically adjacent blocks are both free (specification
invariant 5), over the address-ordered block list. -/
def noAdjFree (h : List Cell) : List Nat → Prop
  | [] => True
  | [_] => True
  | a :: b :: t => ¬(isFree h a ∧ isFree h b) ∧ noAdjFree h (b :: t)

instance instDecNoAdjFree (h : List Cell) : (bl : List Nat) → Decidable (noAdjFree h bl)
  | [] => by unfold noAdjFree; infer_instance
  | [a] => by unfold noAdjFree; infer_instance
  | a :: b :: t => by
      unfold noAdjFree
      have := instDecNoAdjFree h (b :: t)
      infer_instance

/-- The consecutive pairs of the circular list written as a plain list:
each element paired with its cyclic successor. -/
def arcsFrom : Nat → List Nat → Nat → List (Nat × Nat)
  | a, [], z => [(a, z)]
  | a, b :: bs, z => (a, b) :: arcsFrom b bs z

/-- All (member, cyclic successor) pairs of a circular list. -/
def arcs : List Nat → List (Nat × Nat)
  | [] => []
  | a :: rest => arcsFrom a rest a

/-- The last element of a list, with default a. -/
def lastD : Nat → List Nat → Nat
  | a, [] => a
  | _, b :: bs => lastD b bs

/-- The listed circular order is realised by the next pointers in the
headers and the prev pointers in the footers (specification
invariant 4). -/
def cycOk (s : MM) (cyc : List Nat) : Prop :=
  ∀ pr ∈ arcs cyc, mm_next s pr.1 = some pr.2 ∧ mm_prev s pr.2 = some pr.1

/-- Full well-formedness of an allocator state: bl is the address-ordered
block partition and cyc the circular free list.  This packages
specification invariants 1 to 5 and 7 together with the free-list
discriminator of invariant 3. -/
def WFd (s : MM) (bl cyc : List Nat) : Prop :=
  1 ≤ s.hsize ∧
  chainOk s.heap bl ∧
  footOk s.heap bl ∧
  noAdjFree s.heap bl ∧
  cycOk s cyc ∧
  cyc.Nodup ∧
  (∀ b ∈ cyc, b ∈ bl) ∧
  (∀ b ∈ bl, (isFree s.heap b ↔ b ∈ cyc)) ∧
  (s.freep = none ↔ cyc = []) ∧
  (∀ f, s.freep = some f → f ∈ cyc)

/-- A state is well formed when some block partition and free-list order
witness it. -/
def WF (s : MM) : Prop := ∃ bl cyc, WFd s bl cyc

instance (h : List Cell) (bl : List Nat) : Decidable (chainOk h bl) := by
  unfold chainOk
  infer_instance

instance (h : List Cell) (bl : List Nat) : Decidable (footOk h bl) := by
  unfold footOk
  infer_instance

instance (s : MM) (cyc : List Nat) : Decidable (cycOk s cyc) := by
  unfold cycOk
  infer_instance

instance (s : MM) (bl cyc : List Nat) : Decidable (WFd s bl cyc) := by
  unfold WFd
  infer_instance

/-- The live payload pointers returned by the allocator and not yet
released are exactly the payloads of the allocated blocks. -/
def LiveOk (h : List Cell) (bl live : List Nat) : Prop :=
  live.Nodup ∧
  (∀ a ∈ live, 1 ≤ a ∧ (a - 1) ∈ bl ∧ ¬ isFree h (a - 1)) ∧
  (∀ b ∈ bl, ¬ isFree h b → (b + 1) ∈ live)

/-- The global invariant carried through a run of external calls. -/
def GInv (s : MM) (live : List Nat) : Prop :=
  ∃ bl cyc, WFd s bl cyc ∧ LiveOk s.heap bl live

/-- The upper-coalesce block of mm_free, verbatim: adjust freep if it is
the upper neighbour q, unlink q, grow bp over it, null the links of
bp.  mm_free computes exactly this term; it is named here so the
surgery lemma about it can be stated once. -/
def coalesceUp (s : MM) (bp q : Nat) : MM :=
  let sa := if s.freep = some q then { s with freep := mm_prev s q } else s
  let sb := mm_unlink sa q
  let sc := mm_setSize sb bp (mm_size sb bp + mm_size sb q)
  let sd := mm_setNext sc bp none
  mm_setPrev sd bp none

/-- The lower-coalesce block of mm_free, verbatim: adjust freep if it is
the lower neighbour p, unlink p, grow p over bp, null the links of both
blocks. -/
def coalesceLow (s : MM) (bp p : Nat) : MM :=
  let sa := if s.freep = some p then { s with freep := mm_prev s p } else s
  let sb := mm_unlink sa p
  let sc := mm_setSize sb p (mm_size sb p + mm_size sb bp)
  let sd := mm_setNext sc bp none
  let se := mm_setPrev sd bp none
  let sf := mm_setNext se p none
  mm_setPrev sf p none

/-- The upper-coalesce phase of mm_free, as it appears inline in the
function body: if the block after bp exists and is free, absorb it. -/
def freeUpper (s : MM) (bp : Nat) : MM :=
  match mm_after s bp with
  | none => s
  | some pnext =>
    if (hGet s.heap pnext).ptr ≠ none then coalesceUp s bp pnext else s

/-- The lower-coalesce phase of mm_free: if the block before bp exists
and is free, it absorbs bp; the second component is the pointer to the
block that survives. -/
def freeLower (s2 : MM) (bp : Nat) : MM × Nat :=
  match mm_before s2 bp with
  | none => (s2, bp)
  | some p =>
    if (hGet s2.heap p).ptr ≠ none then (coalesceLow s2 bp p, p) else (s2, bp)

/-- The relink phase of mm_free: link the surviving block at freep and
advance freep to its list predecessor. -/
def freeFinish (s4 : MM) (b : Nat) : MM :=
  let s5 := mm_link s4 b s4.freep
  { s5 with freep := mm_prev s5 b }

/-- The split branch of mm_malloc, as it appears inline in the traversal:
shrink the candidate p in place (header and footer), rewrite its links,
carve the allocated block from the upper end with nulled links, and park
freep at the candidate's list predecessor.  The second component is the
address of the carved block. -/
def splitBlock (s : MM) (p nunits : Nat) : MM × Nat :=
  let prev := mm_prev s p
  let next := mm_next s p
  let s1 := mm_setSize s p (mm_size s p - nunits)
  let s2 := mm_setPrev s1 p prev
  let s3 := mm_setNext s2 p next
  let p2 := p + mm_size s3 p
  let s4 := mm_setSize s3 p2 nunits
  let s5 := mm_setNext s4 p2 none
  let s6 := mm_setPrev s5 p2 none
  ({ s6 with freep := prev }, p2)

/-! ### Concrete states used to evaluate the development on closed inputs -/

/-- A provider configuration of one 256-byte page and a 16-unit segment
cap, 16-byte headers, zeroed backing store. -/
def wInit : MM := mm_init 16 256 16 (fun _ => 0)

/-- The same configuration with a segment cap of zero: every growth
request is refused. -/
def wTiny : MM := mm_init 16 256 0 (fun _ => 0)

/-- A four-unit segment holding a single free block of four units that
links to itself. -/
def wSplit : MM :=
  { heap := [⟨some 0, 4⟩, ⟨none, 0⟩, ⟨none, 0⟩, ⟨some 0, 4⟩], freep := some 0,
    data := fun _ => 0, errno := false, maxUnits := 4, pagesize := 64, hsize := 16 }

/-- A four-unit segment holding a free block at 0 and an allocated block
at 2, both of two units. -/
def wBoth : MM :=
  { heap := [⟨some 0, 2⟩, ⟨some 0, 2⟩, ⟨none, 2⟩, ⟨none, 2⟩], freep := some 0,
    data := fun _ => 0, errno := false, maxUnits := 4, pagesize := 64, hsize := 16 }

/-- A two-unit segment whose first header carries a corrupt size of
2^60 units: its true byte size dwarfs the 32-byte heap, yet the size_t
product 2^60 * 16 wraps to 0. -/
def sHuge : MM :=
  { heap := [⟨none, 2 ^ 60⟩, ⟨none, 0⟩], freep := none, data := fun _ => 0,
    errno := false, maxUnits := 2, pagesize := 256, hsize := 16 }

/-- The state and live set after one allocation on the fresh provider. -/
def wRun1 : MM × List Nat := (runOps wInit [] [Op.alloc 1]).getD (wInit, [])

/-- The state after one allocation that is then released. -/
def wRunFree : MM × List Nat :=
  (runOps wInit [] [Op.alloc 1, Op.release 14]).getD (wInit, [])

/-- Three allocations from one page, then the top and bottom ones
released: the free list holds two blocks, of ten and of three units. -/
def wRunC5 : MM × List Nat :=
  (runOps wInit [] [Op.alloc 1, Op.alloc 1, Op.alloc 1, Op.release 14,
    Op.release 8]).getD (wInit, [])

/-- Reallocating the live block of wRun1 to zero bytes. -/
def wC6 : MM × Option Nat := (mm_realloc wRun1.1 (some 14) 0).getD (wInit, none)

/-- A zero-byte allocation on the fresh provider. -/
def wM0 : MM × Option Nat := (mm_malloc wInit 0).getD (wInit, none)

/-- allocate_zeroed with a zero count on the fresh provider. -/
def wC05 : MM × Option Nat := (mm_calloc wInit 0 5).getD (wInit, none)

/-- allocate_zeroed with a zero element size on the fresh provider. -/
def wC70 : MM × Option Nat := (mm_calloc wInit 7 0).getD (wInit, none)

/-! ### Pointwise heap lemmas -/

theorem hGet_set (h : List Cell) (i j : Nat) (x : Cell) :
    hGet (h.set i x) j = if i = j ∧ j < h.length then x else hGet h j := by
  unfold hGet
  rw [List.getD_eq_getElem?_getD, List.getD_eq_getElem?_getD, List.getElem?_set]
  by_cases hij : i = j
  · subst hij
    by_cases hi : i < h.length
    · simp [hi]
    · rw [List.getElem?_eq_none (by omega)]
      simp [hi]
  · simp [hij]

theorem hGet_append (h h2 : List Cell) (j : Nat) :
    hGet (h ++ h2) j = if j < h.length then hGet h j else hGet h2 (j - h.length) := by
  unfold hGet
  rw [List.getD_eq_getElem?_getD, List.getD_eq_getElem?_getD, List.getD_eq_getElem?_getD,
    List.getElem?_append]
  by_cases hj : j < h.length <;> simp [hj]

theorem hGet_replicate (n j : Nat) (c : Cell) :
    hGet (List.replicate n c) j = if j < n then c else ⟨none, 0⟩ := by
  unfold hGet
  rw [List.getD_eq_getElem?_getD, List.getElem?_replicate]
  by_cases hj : j < n <;> simp [hj]

/-! ### Setter description lemmas -/

@[simp] theorem mm_setNext_len (s : MM) (i : Nat) (v : Option Nat) :
    (mm_setNext s i v).heap.length = s.heap.length := by
  simp [mm_setNext]

@[simp] theorem mm_setNext_freep (s : MM) (i : Nat) (v : Option Nat) :
    (mm_setNext s i v).freep = s.freep := rfl

@[simp] theorem mm_setNext_hsize (s : MM) (i : Nat) (v : Option Nat) :
    (mm_setNext s i v).hsize = s.hsize := rfl

@[simp] theorem mm_setNext_maxUnits (s : MM) (i : Nat) (v : Option Nat) :
    (mm_setNext s i v).maxUnits = s.maxUnits := rfl

@[simp] theorem mm_setNext_pagesize (s : MM) (i : Nat) (v : Option Nat) :
    (mm_setNext s i v).pagesize = s.pagesize := rfl

@[simp] theorem mm_setNext_errno (s : MM) (i : Nat) (v : Option Nat) :
    (mm_setNext s i v).errno = s.errno := rfl

@[simp] theorem mm_setNext_data (s : MM) (i : Nat) (v : Option Nat) :
    (mm_setNext s i v).data = s.data := rfl

@[simp] theorem mm_setNext_size (s : MM) (i : Nat) (v : Option Nat) (j : Nat) :
    mm_size (mm_setNext s i v) j = mm_size s j := by
  unfold mm_size mm_setNext
  rw [show ({ s with heap := s.heap.set i { hGet s.heap i with ptr := v } } : MM).heap
      = s.heap.set i { hGet s.heap i with ptr := v } from rfl, hGet_set]
  split
  · rename_i hc
    obtain ⟨rfl, -⟩ := hc
    rfl
  · rfl

theorem mm_setNext_ptr (s : MM) (i : Nat) (v : Option Nat) (j : Nat) :
    mm_next (mm_setNext s i v) j =
      if i = j ∧ j < s.heap.length then v else mm_next s j := by
  unfold mm_next mm_setNext
  rw [show ({ s with heap := s.heap.set i { hGet s.heap i with ptr := v } } : MM).heap
      = s.heap.set i { hGet s.heap i with ptr := v } from rfl, hGet_set]
  split
  · rfl
  · rfl

@[simp] theorem mm_setPrev_len (s : MM) (i : Nat) (v : Option Nat) :
    (mm_setPrev s i v).heap.length = s.heap.length := by
  simp [mm_setPrev]

@[simp] theorem mm_setPrev_freep (s : MM) (i : Nat) (v : Option Nat) :
    (mm_setPrev s i v).freep = s.freep := rfl

@[simp] theorem mm_setPrev_hsize (s : MM) (i : Nat) (v : Option Nat) :
    (mm_setPrev s i v).hsize = s.hsize := rfl

@[simp] theorem mm_setPrev_maxUnits (s : MM) (i : Nat) (v : Option Nat) :
    (mm_setPrev s i v).maxUnits = s.maxUnits := rfl

@[simp] theorem mm_setPrev_pagesize (s : MM) (i : Nat) (v : Option Nat) :
    (mm_setPrev s i v).pagesize = s.pagesize := rfl

@[simp] theorem mm_setPrev_errno (s : MM) (i : Nat) (v : Option Nat) :
    (mm_setPrev s i v).errno = s.errno := rfl

@[simp] theorem mm_setPrev_data (s : MM) (i : Nat) (v : Option Nat) :
    (mm_setPrev s i v).data = s.data := rfl

@[simp] theorem mm_setPrev_size (s : MM) (i : Nat) (v : Option Nat) (j : Nat) :
    mm_size (mm_setPrev s i v) j = mm_size s j := by
  show (hGet (s.heap.set (mm_footer s i) { hGet s.heap (mm_footer s i) with ptr := v }) j).size
      = (hGet s.heap j).size
  rw [hGet_set]
  split
  · rename_i hc
    obtain ⟨rfl, -⟩ := hc
    rfl
  · rfl

theorem mm_setPrev_ptr (s : MM) (i : Nat) (v : Option Nat) (j : Nat) :
    mm_next (mm_setPrev s i v) j =
      if mm_footer s i = j ∧ j < s.heap.length then v else mm_next s j := by
  show (hGet (s.heap.set (mm_footer s i) { hGet s.heap (mm_footer s i) with ptr := v }) j).ptr
      = if mm_footer s i = j ∧ j < s.heap.length then v else mm_next s j
  rw [hGet_set]
  split
  · rfl
  · rfl

@[simp] theorem setSizeList_len (h : List Cell) (i n : Nat) :
    (setSizeList h i n).length = h.length := by
  simp [setSizeList]

@[simp] theorem mm_setSize_len (s : MM) (i n : Nat) :
    (mm_setSize s i n).heap.length = s.heap.length := by
  simp [mm_setSize]

@[simp] theorem mm_setSize_freep (s : MM) (i n : Nat) :
    (mm_setSize s i n).freep = s.freep := rfl

@[simp] theorem mm_setSize_hsize (s : MM) (i n : Nat) :
    (mm_setSize s i n).hsize = s.hsize := rfl

@[simp] theorem mm_setSize_maxUnits (s : MM) (i n : Nat) :
    (mm_setSize s i n).maxUnits = s.maxUnits := rfl

@[simp] theorem mm_setSize_pagesize (s : MM) (i n : Nat) :
    (mm_setSize s i n).pagesize = s.pagesize := rfl

@[simp] theorem mm_setSize_errno (s : MM) (i n : Nat) :
    (mm_setSize s i n).errno = s.errno := rfl

@[simp] theorem mm_setSize_data (s : MM) (i n : Nat) :
    (mm_setSize s i n).data = s.data := rfl

theorem hGet_set_ptr_keep (h : List Cell) (k : Nat) (c : Cell)
    (hp : c.ptr = (hGet h k).ptr) (j : Nat) :
    (hGet (h.set k c) j).ptr = (hGet h j).ptr := by
  rw [hGet_set]
  split
  · rename_i hc
    rw [hp, hc.1]
  · rfl

theorem setSizeList_get_ptr (h : List Cell) (i n : Nat) (j : Nat) :
    (hGet (setSizeList h i n) j).ptr = (hGet h j).ptr := by
  have step1 := hGet_set_ptr_keep h i { hGet h i with size := n } rfl j
  have step2 := hGet_set_ptr_keep (h.set i { hGet h i with size := n })
    (i + (hGet (h.set i { hGet h i with size := n }) i).size - 1)
    { hGet (h.set i { hGet h i with size := n })
        (i + (hGet (h.set i { hGet h i with size := n }) i).size - 1) with size := n } rfl j
  exact step2.trans step1

@[simp] theorem mm_setSize_ptr (s : MM) (i n : Nat) (j : Nat) :
    mm_next (mm_setSize s i n) j = mm_next s j := by
  show (hGet (setSizeList s.heap i n) j).ptr = (hGet s.heap j).ptr
  exact setSizeList_get_ptr ..

theorem setSizeList_get_size (h : List Cell) (i n : Nat) (hi : i < h.length) (j : Nat) :
    (hGet (setSizeList h i n) j).size =
      if j = i ∨ (j = i + n - 1 ∧ j < h.length) then n else (hGet h j).size := by
  have h1 : ∀ k, hGet (h.set i { hGet h i with size := n }) k
      = if i = k ∧ k < h.length then { hGet h i with size := n } else hGet h k :=
    fun k => hGet_set h i k _
  have hfs : (hGet (h.set i { hGet h i with size := n }) i).size = n := by
    rw [h1 i, if_pos ⟨rfl, hi⟩]
  unfold setSizeList
  simp only []
  rw [hfs]
  rw [hGet_set]
  simp only [List.length_set]
  by_cases e2 : i + n - 1 = j ∧ j < h.length
  · rw [if_pos e2]
    rw [if_pos (Or.inr ⟨e2.1.symm, e2.2⟩)]
  · rw [if_neg e2]
    rw [h1 j]
    by_cases e1 : i = j ∧ j < h.length
    · rw [if_pos e1]
      rw [if_pos (Or.inl e1.1.symm)]
    · rw [if_neg e1]
      have hr : ¬(j = i ∨ (j = i + n - 1 ∧ j < h.length)) := by
        intro hc
        rcases hc with hc | hc
        · exact e1 ⟨hc.symm, hc ▸ hi⟩
        · exact e2 ⟨hc.1.symm, hc.2⟩
      rw [if_neg hr]

theorem mm_setSize_size (s : MM) (i n : Nat) (hi : i < s.heap.length) (j : Nat) :
    mm_size (mm_setSize s i n) j =
      if j = i ∨ (j = i + n - 1 ∧ j < s.heap.length) then n else mm_size s j := by
  show (hGet (setSizeList s.heap i n) j).size = _
  exact setSizeList_get_size s.heap i n hi j

/-! ### Chain partition lemmas -/

theorem chainSeg_append (h : List Cell) (xs ys : List Nat) (i j : Nat) :
    chainSeg h i (xs ++ ys) j ↔ ∃ k, chainSeg h i xs k ∧ chainSeg h k ys j := by
  induction xs generalizing i with
  | nil =>
    constructor
    · intro hy
      exact ⟨i, rfl, hy⟩
    · rintro ⟨k, hk, hy⟩
      have hki : k = i := hk
      rw [hki] at hy
      exact hy
  | cons b bs ih =>
    constructor
    · rintro ⟨hb, hsz, hrest⟩
      obtain ⟨k, h1, h2⟩ := (ih _).mp hrest
      exact ⟨k, ⟨hb, hsz, h1⟩, h2⟩
    · rintro ⟨k, ⟨hb, hsz, h1⟩, h2⟩
      exact ⟨hb, hsz, (ih _).mpr ⟨k, h1, h2⟩⟩

theorem chainSeg_le (h : List Cell) (bl : List Nat) (i j : Nat) (hc : chainSeg h i bl j) :
    i ≤ j := by
  induction bl generalizing i with
  | nil =>
    have hji : j = i := hc
    omega
  | cons b bs ih =>
    obtain ⟨rfl, hsz, hrest⟩ := hc
    have := ih _ hrest
    omega

theorem chainSeg_mem (h : List Cell) (bl : List Nat) (i j b : Nat)
    (hc : chainSeg h i bl j) (hm : b ∈ bl) :
    i ≤ b ∧ 2 ≤ (hGet h b).size ∧ b + (hGet h b).size ≤ j := by
  induction bl generalizing i with
  | nil => cases hm
  | cons x xs ih =>
    obtain ⟨rfl, hsz, hrest⟩ := hc
    rcases List.mem_cons.mp hm with rfl | hm2
    · exact ⟨le_refl _, hsz, chainSeg_le h xs _ j hrest⟩
    · have hrec := ih _ hrest hm2
      exact ⟨by omega, hrec.2.1, hrec.2.2⟩

theorem chainSeg_sorted (h : List Cell) (bl : List Nat) (i j b c : Nat)
    (hc : chainSeg h i bl j) (hb : b ∈ bl) (hcm : c ∈ bl) (hlt : b < c) :
    b + (hGet h b).size ≤ c := by
  induction bl generalizing i with
  | nil => cases hb
  | cons x xs ih =>
    obtain ⟨rfl, hsz, hrest⟩ := hc
    rcases List.mem_cons.mp hb with rfl | hb2
    · rcases List.mem_cons.mp hcm with rfl | hc3
      · omega
      · exact (chainSeg_mem h xs _ j c hrest hc3).1
    · rcases List.mem_cons.mp hcm with rfl | hc3
      · have := (chainSeg_mem h xs _ j b hrest hb2).1
        omega
      · exact ih _ hrest hb2 hc3

theorem chainSeg_footer_not_start (h : List Cell) (bl : List Nat) (i j b c : Nat)
    (hc : chainSeg h i bl j) (hb : b ∈ bl) (hcm : c ∈ bl) (_hne : c ≠ b) :
    b + (hGet h b).size - 1 ≠ c := by
  intro he
  have hszb := (chainSeg_mem h bl i j b hc hb).2.1
  rcases Nat.lt_or_ge c b with hlt | hge
  · have := chainSeg_sorted h bl i j c b hc hcm hb hlt
    omega
  · have hlt2 : b < c := by omega
    have := chainSeg_sorted h bl i j b c hc hb hcm hlt2
    omega

theorem chainSeg_footer_inj (h : List Cell) (bl : List Nat) (i j b c : Nat)
    (hc : chainSeg h i bl j) (hb : b ∈ bl) (hcm : c ∈ bl) (hne : b ≠ c) :
    b + (hGet h b).size - 1 ≠ c + (hGet h c).size - 1 := by
  intro he
  have hszb := (chainSeg_mem h bl i j b hc hb).2.1
  have hszc := (chainSeg_mem h bl i j c hc hcm).2.1
  rcases Nat.lt_or_ge b c with hlt | hge
  · have := chainSeg_sorted h bl i j b c hc hb hcm hlt
    omega
  · have hlt2 : c < b := by omega
    have := chainSeg_sorted h bl i j c b hc hcm hb hlt2
    omega

theorem chainSeg_frame (h h2 : List Cell) (bl : List Nat) (i j : Nat)
    (hsz : ∀ b ∈ bl, (hGet h2 b).size = (hGet h b).size) (hc : chainSeg h i bl j) :
    chainSeg h2 i bl j := by
  induction bl generalizing i with
  | nil => exact hc
  | cons b bs ih =>
    obtain ⟨rfl, h2le, hrest⟩ := hc
    refine ⟨rfl, ?_, ?_⟩
    · rw [hsz b (List.mem_cons_self ..)]
      exact h2le
    · rw [hsz b (List.mem_cons_self ..)]
      exact ih _ (fun c hcm => hsz c (List.mem_cons_of_mem _ hcm)) hrest


theorem footOk_frame (h h2 : List Cell) (bl : List Nat)
    (hsz : ∀ j, (hGet h2 j).size = (hGet h j).size) (hf : footOk h bl) : footOk h2 bl := by
  intro b hb
  simp only [hsz]
  exact hf b hb

theorem noAdjFree_frame (h h2 : List Cell) (bl : List Nat)
    (hp : ∀ b ∈ bl, (isFree h2 b ↔ isFree h b)) (hn : noAdjFree h bl) : noAdjFree h2 bl := by
  induction bl with
  | nil => trivial
  | cons a t ih =>
    cases t with
    | nil => trivial
    | cons b t2 =>
      obtain ⟨h1, h2r⟩ := hn
      refine ⟨?_, ?_⟩
      · intro hc
        exact h1 ⟨(hp a (by simp)).mp hc.1, (hp b (by simp)).mp hc.2⟩
      · exact ih (fun c hcm => hp c (List.mem_cons_of_mem _ hcm)) h2r

/-! ### Circular arc lemmas -/

theorem lastD_mem_cons (a : Nat) (l : List Nat) : lastD a l ∈ a :: l := by
  induction l generalizing a with
  | nil => simp [lastD]
  | cons b bs ih =>
    show lastD b bs ∈ a :: b :: bs
    exact List.mem_cons_of_mem _ (ih b)

theorem arcsFrom_append (a : Nat) (xs : List Nat) (y : Nat) (ys : List Nat) (z : Nat) :
    arcsFrom a (xs ++ y :: ys) z = arcsFrom a xs y ++ arcsFrom y ys z := by
  induction xs generalizing a with
  | nil => simp [arcsFrom]
  | cons x xs ih => simp [arcsFrom, ih]

theorem arcsFrom_src_mem (a : Nat) (l : List Nat) (z : Nat) (pr : Nat × Nat)
    (hm : pr ∈ arcsFrom a l z) : pr.1 ∈ a :: l := by
  induction l generalizing a with
  | nil =>
    simp [arcsFrom] at hm
    simp [hm]
  | cons b bs ih =>
    simp only [arcsFrom, List.mem_cons] at hm
    rcases hm with rfl | hm2
    · simp
    · have := ih b hm2
      rcases List.mem_cons.mp this with he | hmm
      · simp [he]
      · simp [List.mem_cons_of_mem _ hmm]

theorem arcsFrom_dst_mem (a : Nat) (l : List Nat) (z : Nat) (pr : Nat × Nat)
    (hm : pr ∈ arcsFrom a l z) : pr.2 ∈ l ∨ pr.2 = z := by
  induction l generalizing a with
  | nil =>
    simp [arcsFrom] at hm
    simp [hm]
  | cons b bs ih =>
    simp only [arcsFrom, List.mem_cons] at hm
    rcases hm with rfl | hm2
    · simp
    · rcases ih b hm2 with hmm | he
      · exact Or.inl (List.mem_cons_of_mem _ hmm)
      · exact Or.inr he

theorem lastD_arc (a : Nat) (l : List Nat) (z : Nat) : (lastD a l, z) ∈ arcsFrom a l z := by
  induction l generalizing a with
  | nil => simp [arcsFrom, lastD]
  | cons b bs ih =>
    show (lastD b bs, z) ∈ (a, b) :: arcsFrom b bs z
    exact List.mem_cons_of_mem _ (ih b)

theorem arcsFrom_mem_iff (a : Nat) (l : List Nat) (z w : Nat) (hnd : (a :: l).Nodup)
    (pr : Nat × Nat) :
    pr ∈ arcsFrom a l z ↔
      pr = (lastD a l, z) ∨ (pr ∈ arcsFrom a l w ∧ pr.1 ≠ lastD a l) := by
  induction l generalizing a with
  | nil =>
    simp only [arcsFrom, lastD, List.mem_singleton]
    constructor
    · intro he
      exact Or.inl he
    · rintro (he | ⟨he, hne⟩)
      · exact he
      · exact absurd (by rw [he]) hne
  | cons b bs ih =>
    have hanotin : a ∉ b :: bs := (List.nodup_cons.mp hnd).1
    have hnd2 : (b :: bs).Nodup := (List.nodup_cons.mp hnd).2
    have hlast_ne_a : lastD b bs ≠ a := fun he => hanotin (he ▸ lastD_mem_cons b bs)
    show pr ∈ (a, b) :: arcsFrom b bs z ↔
      pr = (lastD b bs, z) ∨ (pr ∈ (a, b) :: arcsFrom b bs w ∧ pr.1 ≠ lastD b bs)
    simp only [List.mem_cons]
    constructor
    · rintro (rfl | hm2)
      · refine Or.inr ⟨Or.inl rfl, ?_⟩
        exact fun he => hlast_ne_a he.symm
      · rcases (ih b hnd2).mp hm2 with he | ⟨hmw, hne⟩
        · exact Or.inl he
        · exact Or.inr ⟨Or.inr hmw, hne⟩
    · rintro (he | ⟨hmw, hne⟩)
      · exact Or.inr ((ih b hnd2).mpr (Or.inl he))
      · rcases hmw with rfl | hmw2
        · exact Or.inl rfl
        · exact Or.inr ((ih b hnd2).mpr (Or.inr ⟨hmw2, hne⟩))

theorem rotate_perm (xs : List Nat) (p : Nat) (ys : List Nat) :
    (xs ++ p :: ys).Perm (p :: ys ++ xs) := by
  refine List.perm_middle.trans ?_
  exact List.Perm.cons p List.perm_append_comm

theorem arcs_rotate (xs : List Nat) (p : Nat) (ys : List Nat) (pr : Nat × Nat) :
    pr ∈ arcs (xs ++ p :: ys) ↔ pr ∈ arcs (p :: ys ++ xs) := by
  cases xs with
  | nil => simp
  | cons x xs =>
    show pr ∈ arcsFrom x (xs ++ p :: ys) x ↔ pr ∈ arcsFrom p (ys ++ x :: xs) p
    rw [arcsFrom_append x xs p ys x, arcsFrom_append p ys x xs p]
    simp only [List.mem_append]
    tauto

theorem cycOk_rotate (s : MM) (xs : List Nat) (p : Nat) (ys : List Nat)
    (hc : cycOk s (xs ++ p :: ys)) : cycOk s (p :: ys ++ xs) := by
  intro pr hpr
  exact hc pr ((arcs_rotate xs p ys pr).mpr hpr)

/-! ### Block geometry helpers -/

theorem mm_prev_eq (s : MM) (b : Nat) : mm_prev s b = mm_next s (mm_footer s b) := rfl

theorem mm_footer_congr (s1 s2 : MM) (hsz : ∀ j, mm_size s2 j = mm_size s1 j) (x : Nat) :
    mm_footer s2 x = mm_footer s1 x := by
  unfold mm_footer
  rw [hsz]

theorem chain_mem_facts (s : MM) (bl : List Nat) (b : Nat) (hchain : chainOk s.heap bl)
    (hb : b ∈ bl) : 2 ≤ mm_size s b ∧ b + mm_size s b ≤ s.heap.length := by
  have := chainSeg_mem s.heap bl 0 s.heap.length b hchain hb
  exact ⟨this.2.1, this.2.2⟩

theorem chain_mem_lt_len (s : MM) (bl : List Nat) (b : Nat) (hchain : chainOk s.heap bl)
    (hb : b ∈ bl) : b < s.heap.length := by
  have := chain_mem_facts s bl b hchain hb
  omega

theorem footer_lt_len (s : MM) (bl : List Nat) (b : Nat) (hchain : chainOk s.heap bl)
    (hb : b ∈ bl) : mm_footer s b < s.heap.length := by
  have := chain_mem_facts s bl b hchain hb
  unfold mm_footer
  omega

theorem footer_ne_start (s : MM) (bl : List Nat) (b c : Nat) (hchain : chainOk s.heap bl)
    (hb : b ∈ bl) (hc : c ∈ bl) (_hne : c ≠ b) : mm_footer s b ≠ c :=
  chainSeg_footer_not_start s.heap bl 0 s.heap.length b c hchain hb hc _hne

theorem footer_ne_self (s : MM) (bl : List Nat) (b : Nat) (hchain : chainOk s.heap bl)
    (hb : b ∈ bl) : mm_footer s b ≠ b := by
  have h2 := chain_mem_facts s bl b hchain hb
  show b + mm_size s b - 1 ≠ b
  omega

theorem footer_inj_ne (s : MM) (bl : List Nat) (b c : Nat) (hchain : chainOk s.heap bl)
    (hb : b ∈ bl) (hc : c ∈ bl) (hne : b ≠ c) : mm_footer s b ≠ mm_footer s c :=
  chainSeg_footer_inj s.heap bl 0 s.heap.length b c hchain hb hc hne

theorem arcsFrom_dst_unique (a : Nat) (l : List Nat) (z : Nat) (pr : Nat × Nat)
    (hm : pr ∈ arcsFrom a l z) (hz : pr.2 = z) (hnl : z ∉ l) : pr = (lastD a l, z) := by
  induction l generalizing a with
  | nil =>
    simp only [arcsFrom, List.mem_singleton] at hm
    simpa [lastD] using hm
  | cons b bs ih =>
    rcases List.mem_cons.mp hm with rfl | hm2
    · exact (hnl (by rw [← hz]; exact List.mem_cons_self b bs)).elim
    · have hz2 : z ∉ bs := fun hc => hnl (List.mem_cons_of_mem _ hc)
      have := ih b hm2 hz2
      show pr = (lastD b bs, z)
      exact this

/-! ### Unlink surgery -/

theorem mm_unlink_spec (s : MM) (bl : List Nat) (p : Nat) (rest : List Nat)
    (hchain : chainOk s.heap bl)
    (hcyc : cycOk s (p :: rest))
    (hnd : (p :: rest).Nodup)
    (hsub : ∀ b ∈ p :: rest, b ∈ bl) :
    (mm_unlink s p).freep = (if rest = [] then none else s.freep) ∧
    (mm_unlink s p).heap.length = s.heap.length ∧
    (∀ j, mm_size (mm_unlink s p) j = mm_size s j) ∧
    (mm_unlink s p).hsize = s.hsize ∧
    (mm_unlink s p).maxUnits = s.maxUnits ∧
    (mm_unlink s p).pagesize = s.pagesize ∧
    (mm_unlink s p).errno = s.errno ∧
    (mm_unlink s p).data = s.data ∧
    (∀ b ∈ bl, mm_next (mm_unlink s p) b =
      if b = p then none
      else if b = lastD p rest then some (rest.headD p) else mm_next s b) ∧
    (∀ b ∈ bl, mm_prev (mm_unlink s p) b =
      if b = p then none
      else if b = rest.headD p then some (lastD p rest) else mm_prev s b) ∧
    cycOk (mm_unlink s p) rest := by
  have hp_bl : p ∈ bl := hsub p (List.mem_cons_self ..)
  cases rest with
  | nil =>
    have hself : mm_next s p = some p := (hcyc (p, p) (by simp [arcs, arcsFrom])).1
    have heq : mm_unlink s p =
        { mm_setPrev (mm_setNext s p none) p none with freep := none } := by
      unfold mm_unlink
      rw [if_pos hself]
    have hsz : ∀ j, mm_size (mm_unlink s p) j = mm_size s j := by
      intro j
      rw [heq]
      show mm_size (mm_setPrev (mm_setNext s p none) p none) j = mm_size s j
      simp
    have hptr : ∀ j, mm_next (mm_unlink s p) j =
        if mm_footer s p = j ∧ j < s.heap.length then none
        else if p = j ∧ j < s.heap.length then none
        else mm_next s j := by
      intro j
      rw [heq]
      show mm_next (mm_setPrev (mm_setNext s p none) p none) j = _
      rw [mm_setPrev_ptr, mm_setNext_ptr]
      rw [mm_footer_congr s (mm_setNext s p none) (fun x => mm_setNext_size s p none x) p]
      simp only [mm_setNext_len]
    refine ⟨by rw [heq]; simp, by rw [heq]; simp, hsz, by rw [heq]; rfl, by rw [heq]; rfl,
      by rw [heq]; rfl, by rw [heq]; rfl, by rw [heq]; rfl, ?_, ?_, ?_⟩
    · intro b hb
      rw [hptr b]
      have hblen : b < s.heap.length := chain_mem_lt_len s bl b hchain hb
      by_cases hbp : b = p
      · subst hbp
        rw [if_neg (fun hc => footer_ne_self s bl b hchain hb hc.1),
          if_pos ⟨rfl, hblen⟩, if_pos rfl]
      · rw [if_neg (fun hc => footer_ne_start s bl p b hchain hp_bl hb hbp hc.1),
          if_neg (fun hc => hbp hc.1.symm), if_neg hbp]
        rw [if_neg]
        show ¬ b = lastD p []
        exact hbp
    · intro b hb
      rw [mm_prev_eq, mm_footer_congr s (mm_unlink s p) hsz b, hptr (mm_footer s b)]
      by_cases hbp : b = p
      · subst hbp
        rw [if_pos ⟨rfl, footer_lt_len s bl b hchain hb⟩, if_pos rfl]
      · rw [if_neg (fun hc => footer_inj_ne s bl p b hchain hp_bl hb
            (fun he => hbp he.symm) hc.1),
          if_neg (fun hc => footer_ne_start s bl b p hchain hb hp_bl
            (fun he => hbp he.symm) hc.1.symm),
          if_neg hbp, if_neg (show ¬ b = List.headD [] p from hbp)]
        rfl
    · intro pr hpr
      cases hpr
  | cons r0 rest2 =>
    have hr0_bl : r0 ∈ bl := hsub r0 (by simp)
    have hpnotin : p ∉ r0 :: rest2 := (List.nodup_cons.mp hnd).1
    have hnd2 : (r0 :: rest2).Nodup := (List.nodup_cons.mp hnd).2
    have hr0p : r0 ≠ p := fun hc => hpnotin (hc ▸ List.mem_cons_self ..)
    have hprevp_mem : lastD r0 rest2 ∈ r0 :: rest2 := lastD_mem_cons r0 rest2
    have hprevp_bl : lastD r0 rest2 ∈ bl := hsub _ (List.mem_cons_of_mem _ hprevp_mem)
    have hprevp_ne_p : lastD r0 rest2 ≠ p := fun hc => hpnotin (hc ▸ hprevp_mem)
    have hnext : mm_next s p = some r0 :=
      (hcyc (p, r0) (by simp [arcs, arcsFrom])).1
    have hprev : mm_prev s p = some (lastD r0 rest2) := by
      have harc : (lastD r0 rest2, p) ∈ arcs (p :: r0 :: rest2) := by
        show _ ∈ arcsFrom p (r0 :: rest2) p
        show _ ∈ (p, r0) :: arcsFrom r0 rest2 p
        exact List.mem_cons_of_mem _ (lastD_arc r0 rest2 p)
      exact (hcyc _ harc).2
    have heq : mm_unlink s p =
        mm_setPrev (mm_setNext (mm_setPrev (mm_setNext s (lastD r0 rest2) (some r0)) r0
          (some (lastD r0 rest2))) p none) p none := by
      unfold mm_unlink
      rw [if_neg (by rw [hnext]; exact fun hc => hr0p (Option.some.inj hc))]
      rw [hnext, hprev]
      rfl
    have hsz : ∀ j, mm_size (mm_unlink s p) j = mm_size s j := by
      intro j
      rw [heq]
      simp
    have hptr : ∀ j, mm_next (mm_unlink s p) j =
        if mm_footer s p = j ∧ j < s.heap.length then none
        else if p = j ∧ j < s.heap.length then none
        else if mm_footer s r0 = j ∧ j < s.heap.length then some (lastD r0 rest2)
        else if lastD r0 rest2 = j ∧ j < s.heap.length then some r0
        else mm_next s j := by
      intro j
      rw [heq, mm_setPrev_ptr, mm_setNext_ptr, mm_setPrev_ptr, mm_setNext_ptr]
      rw [mm_footer_congr s (mm_setNext s (lastD r0 rest2) (some r0))
        (fun x => mm_setNext_size ..) r0]
      rw [mm_footer_congr s
        (mm_setNext (mm_setPrev (mm_setNext s (lastD r0 rest2) (some r0)) r0
          (some (lastD r0 rest2))) p none) (fun x => by simp) p]
      simp only [mm_setNext_len, mm_setPrev_len]
    have hnext_val : ∀ b ∈ bl, mm_next (mm_unlink s p) b =
        if b = p then none
        else if b = lastD r0 rest2 then some r0 else mm_next s b := by
      intro b hb
      rw [hptr b]
      have hblen : b < s.heap.length := chain_mem_lt_len s bl b hchain hb
      by_cases hbp : b = p
      · subst hbp
        rw [if_neg (fun hc => footer_ne_self s bl b hchain hb hc.1),
          if_pos ⟨rfl, hblen⟩, if_pos rfl]
      · rw [if_neg (fun hc => footer_ne_start s bl p b hchain hp_bl hb hbp hc.1),
          if_neg (fun hc => hbp hc.1.symm)]
        have hfr0 : ¬(mm_footer s r0 = b ∧ b < s.heap.length) := by
          intro hc
          by_cases hbr0 : b = r0
          · exact footer_ne_self s bl r0 hchain hr0_bl (hbr0 ▸ hc.1)
          · exact footer_ne_start s bl r0 b hchain hr0_bl hb hbr0 hc.1
        rw [if_neg hfr0, if_neg hbp]
        by_cases hbl2 : b = lastD r0 rest2
        · rw [if_pos ⟨hbl2.symm, hblen⟩, if_pos hbl2]
        · rw [if_neg (fun hc => hbl2 hc.1.symm), if_neg hbl2]
    have hprev_val : ∀ b ∈ bl, mm_prev (mm_unlink s p) b =
        if b = p then none
        else if b = r0 then some (lastD r0 rest2) else mm_prev s b := by
      intro b hb
      rw [mm_prev_eq, mm_footer_congr s (mm_unlink s p) hsz b, hptr (mm_footer s b)]
      have hflen : mm_footer s b < s.heap.length := footer_lt_len s bl b hchain hb
      by_cases hbp : b = p
      · subst hbp
        rw [if_pos ⟨rfl, hflen⟩, if_pos rfl]
      · rw [if_neg (fun hc => footer_inj_ne s bl p b hchain hp_bl hb
            (fun he => hbp he.symm) hc.1),
          if_neg (fun hc => footer_ne_start s bl b p hchain hb hp_bl
            (fun he => hbp he.symm) hc.1.symm),
          if_neg hbp]
        have hprevpf : ¬(lastD r0 rest2 = mm_footer s b ∧ mm_footer s b < s.heap.length) := by
          intro hc
          by_cases hbl2 : lastD r0 rest2 = b
          · exact footer_ne_self s bl b hchain hb (hbl2 ▸ hc.1).symm
          · exact footer_ne_start s bl b (lastD r0 rest2) hchain hb hprevp_bl hbl2 hc.1.symm
        by_cases hbr0 : b = r0
        · subst hbr0
          rw [if_pos ⟨rfl, hflen⟩, if_pos rfl]
        · rw [if_neg (fun hc => footer_inj_ne s bl r0 b hchain hr0_bl hb
              (fun he => hbr0 he.symm) hc.1),
            if_neg hprevpf, if_neg hbr0]
          rfl
    have hcycnew : cycOk (mm_unlink s p) (r0 :: rest2) := by
      intro pr hpr
      have hpr2 : pr ∈ arcsFrom r0 rest2 r0 := hpr
      rcases (arcsFrom_mem_iff r0 rest2 r0 p hnd2 pr).mp hpr2 with rfl | ⟨hmw, hne⟩
      · constructor
        · show mm_next (mm_unlink s p) (lastD r0 rest2) = some r0
          rw [hnext_val (lastD r0 rest2) hprevp_bl, if_neg hprevp_ne_p, if_pos rfl]
        · show mm_prev (mm_unlink s p) r0 = some (lastD r0 rest2)
          rw [hprev_val r0 hr0_bl, if_neg hr0p, if_pos rfl]
      · have hold : pr ∈ arcs (p :: r0 :: rest2) := by
          show pr ∈ (p, r0) :: arcsFrom r0 rest2 p
          exact List.mem_cons_of_mem _ hmw
        have hold2 := hcyc pr hold
        have hsrc : pr.1 ∈ r0 :: rest2 := arcsFrom_src_mem r0 rest2 p pr hmw
        have hsrc_ne_p : pr.1 ≠ p := fun hc => hpnotin (hc ▸ hsrc)
        have hdst_ne_p : pr.2 ≠ p := by
          intro hc
          have hpnr2 : p ∉ rest2 := fun hm => hpnotin (List.mem_cons_of_mem _ hm)
          have := arcsFrom_dst_unique r0 rest2 p pr hmw hc hpnr2
          exact hne (by rw [this])
        have hdst_mem : pr.2 ∈ rest2 :=
          (arcsFrom_dst_mem r0 rest2 p pr hmw).resolve_right hdst_ne_p
        have hdst_bl : pr.2 ∈ bl := hsub _ (by simp [hdst_mem])
        have hsrc_bl : pr.1 ∈ bl := hsub _ (List.mem_cons_of_mem _ hsrc)
        have hdst_ne_r0 : pr.2 ≠ r0 := by
          intro hc
          exact (List.nodup_cons.mp hnd2).1 (hc ▸ hdst_mem)
        constructor
        · rw [hnext_val pr.1 hsrc_bl, if_neg hsrc_ne_p, if_neg hne]
          exact hold2.1
        · rw [hprev_val pr.2 hdst_bl, if_neg hdst_ne_p, if_neg hdst_ne_r0]
          exact hold2.2
    refine ⟨?_, by rw [heq]; simp, hsz, by rw [heq]; rfl, by rw [heq]; rfl, by rw [heq]; rfl,
      by rw [heq]; rfl, by rw [heq]; rfl, hnext_val, hprev_val, hcycnew⟩
    rw [heq]
    simp

/-! ### Link surgery -/

theorem mm_link_none_spec (s : MM) (bl : List Nat) (b : Nat)
    (hchain : chainOk s.heap bl) (hb : b ∈ bl) :
    (mm_link s b none).freep = some b ∧
    (mm_link s b none).heap.length = s.heap.length ∧
    (∀ j, mm_size (mm_link s b none) j = mm_size s j) ∧
    (mm_link s b none).hsize = s.hsize ∧
    (mm_link s b none).maxUnits = s.maxUnits ∧
    (mm_link s b none).pagesize = s.pagesize ∧
    (mm_link s b none).errno = s.errno ∧
    (mm_link s b none).data = s.data ∧
    (∀ c ∈ bl, mm_next (mm_link s b none) c = if c = b then some b else mm_next s c) ∧
    (∀ c ∈ bl, mm_prev (mm_link s b none) c = if c = b then some b else mm_prev s c) ∧
    cycOk (mm_link s b none) [b] := by
  have heq : mm_link s b none =
      { mm_setPrev (mm_setNext s b (some b)) b (some b) with freep := some b } := rfl
  have hsz : ∀ j, mm_size (mm_link s b none) j = mm_size s j := by
    intro j
    rw [heq]
    show mm_size (mm_setPrev (mm_setNext s b (some b)) b (some b)) j = mm_size s j
    simp
  have hptr : ∀ j, mm_next (mm_link s b none) j =
      if mm_footer s b = j ∧ j < s.heap.length then some b
      else if b = j ∧ j < s.heap.length then some b
      else mm_next s j := by
    intro j
    rw [heq]
    show mm_next (mm_setPrev (mm_setNext s b (some b)) b (some b)) j = _
    rw [mm_setPrev_ptr, mm_setNext_ptr]
    rw [mm_footer_congr s (mm_setNext s b (some b)) (fun x => mm_setNext_size s b (some b) x) b]
    simp only [mm_setNext_len]
  have hblen : b < s.heap.length := chain_mem_lt_len s bl b hchain hb
  have hnext_val : ∀ c ∈ bl, mm_next (mm_link s b none) c =
      if c = b then some b else mm_next s c := by
    intro c hc
    rw [hptr c]
    by_cases hcb : c = b
    · subst hcb
      rw [if_neg (fun hx => footer_ne_self s bl c hchain hc hx.1),
        if_pos ⟨rfl, hblen⟩, if_pos rfl]
    · rw [if_neg (fun hx => footer_ne_start s bl b c hchain hb hc hcb hx.1),
        if_neg (fun hx => hcb hx.1.symm), if_neg hcb]
  have hprev_val : ∀ c ∈ bl, mm_prev (mm_link s b none) c =
      if c = b then some b else mm_prev s c := by
    intro c hc
    rw [mm_prev_eq, mm_footer_congr s (mm_link s b none) hsz c, hptr (mm_footer s c)]
    by_cases hcb : c = b
    · subst hcb
      rw [if_pos ⟨rfl, footer_lt_len s bl c hchain hc⟩, if_pos rfl]
    · rw [if_neg (fun hx => footer_inj_ne s bl b c hchain hb hc
          (fun he => hcb he.symm) hx.1),
        if_neg (fun hx => footer_ne_start s bl c b hchain hc hb
          (fun he => hcb he.symm) hx.1.symm),
        if_neg hcb]
      rfl
  refine ⟨by rw [heq], by rw [heq]; simp, hsz, by rw [heq]; rfl, by rw [heq]; rfl,
    by rw [heq]; rfl, by rw [heq]; rfl, by rw [heq]; rfl, hnext_val, hprev_val, ?_⟩
  intro pr hpr
  have hpr2 : pr = (b, b) := by
    simpa [arcs, arcsFrom] using hpr
  subst hpr2
  constructor
  · show mm_next (mm_link s b none) b = some b
    rw [hnext_val b hb, if_pos rfl]
  · show mm_prev (mm_link s b none) b = some b
    rw [hprev_val b hb, if_pos rfl]

theorem mm_link_some_spec (s : MM) (bl : List Nat) (b f : Nat) (rest : List Nat)
    (hchain : chainOk s.heap bl)
    (hcyc : cycOk s (f :: rest))
    (hnd : (f :: rest).Nodup)
    (hsub : ∀ c ∈ f :: rest, c ∈ bl)
    (hb : b ∈ bl)
    (hbnot : b ∉ f :: rest) :
    (mm_link s b (some f)).freep = s.freep ∧
    (mm_link s b (some f)).heap.length = s.heap.length ∧
    (∀ j, mm_size (mm_link s b (some f)) j = mm_size s j) ∧
    (mm_link s b (some f)).hsize = s.hsize ∧
    (mm_link s b (some f)).maxUnits = s.maxUnits ∧
    (mm_link s b (some f)).pagesize = s.pagesize ∧
    (mm_link s b (some f)).errno = s.errno ∧
    (mm_link s b (some f)).data = s.data ∧
    (∀ c ∈ bl, mm_next (mm_link s b (some f)) c =
      if c = b then some f else if c = lastD f rest then some b else mm_next s c) ∧
    (∀ c ∈ bl, mm_prev (mm_link s b (some f)) c =
      if c = b then some (lastD f rest) else if c = f then some b else mm_prev s c) ∧
    cycOk (mm_link s b (some f)) (b :: f :: rest) ∧
    (b :: f :: rest).Nodup := by
  have hf_bl : f ∈ bl := hsub f (List.mem_cons_self ..)
  have hpf_mem : lastD f rest ∈ f :: rest := lastD_mem_cons f rest
  have hpf_bl : lastD f rest ∈ bl := hsub _ hpf_mem
  have hbf : b ≠ f := fun hc => hbnot (hc ▸ List.mem_cons_self ..)
  have hbpf : b ≠ lastD f rest := fun hc => hbnot (hc ▸ hpf_mem)
  have hprev : mm_prev s f = some (lastD f rest) := by
    have harc : (lastD f rest, f) ∈ arcs (f :: rest) := lastD_arc f rest f
    exact (hcyc _ harc).2
  have heq0 : mm_link s b (some f) =
      mm_setPrev (mm_setNext (mm_setPrev (osetNext s (mm_prev s f) (some b)) b
        (mm_prev s f)) b (some f)) f (some b) := rfl
  have heq : mm_link s b (some f) =
      mm_setPrev (mm_setNext (mm_setPrev (mm_setNext s (lastD f rest) (some b)) b
        (some (lastD f rest))) b (some f)) f (some b) := by
    rw [heq0, hprev]
    rfl
  have hsz : ∀ j, mm_size (mm_link s b (some f)) j = mm_size s j := by
    intro j
    rw [heq]
    simp
  have hptr : ∀ j, mm_next (mm_link s b (some f)) j =
      if mm_footer s f = j ∧ j < s.heap.length then some b
      else if b = j ∧ j < s.heap.length then some f
      else if mm_footer s b = j ∧ j < s.heap.length then some (lastD f rest)
      else if lastD f rest = j ∧ j < s.heap.length then some b
      else mm_next s j := by
    intro j
    rw [heq, mm_setPrev_ptr, mm_setNext_ptr, mm_setPrev_ptr, mm_setNext_ptr]
    rw [mm_footer_congr s (mm_setNext s (lastD f rest) (some b))
      (fun x => mm_setNext_size ..) b]
    rw [mm_footer_congr s
      (mm_setNext (mm_setPrev (mm_setNext s (lastD f rest) (some b)) b
        (some (lastD f rest))) b (some f)) (fun x => by simp) f]
    simp only [mm_setNext_len, mm_setPrev_len]
  have hnext_val : ∀ c ∈ bl, mm_next (mm_link s b (some f)) c =
      if c = b then some f else if c = lastD f rest then some b else mm_next s c := by
    intro c hc
    rw [hptr c]
    have hclen : c < s.heap.length := chain_mem_lt_len s bl c hchain hc
    have hff : ¬(mm_footer s f = c ∧ c < s.heap.length) := by
      intro hx
      by_cases hcf : c = f
      · exact footer_ne_self s bl f hchain hf_bl (hcf ▸ hx.1)
      · exact footer_ne_start s bl f c hchain hf_bl hc hcf hx.1
    have hfb : ¬(mm_footer s b = c ∧ c < s.heap.length) := by
      intro hx
      by_cases hcb : c = b
      · exact footer_ne_self s bl b hchain hb (hcb ▸ hx.1)
      · exact footer_ne_start s bl b c hchain hb hc hcb hx.1
    rw [if_neg hff]
    by_cases hcb : c = b
    · subst hcb
      rw [if_pos ⟨rfl, hclen⟩, if_pos rfl]
    · rw [if_neg (fun hx => hcb hx.1.symm), if_neg hfb, if_neg hcb]
      by_cases hcpf : c = lastD f rest
      · rw [if_pos ⟨hcpf.symm, hclen⟩, if_pos hcpf]
      · rw [if_neg (fun hx => hcpf hx.1.symm), if_neg hcpf]
  have hprev_val : ∀ c ∈ bl, mm_prev (mm_link s b (some f)) c =
      if c = b then some (lastD f rest) else if c = f then some b else mm_prev s c := by
    intro c hc
    rw [mm_prev_eq, mm_footer_congr s (mm_link s b (some f)) hsz c, hptr (mm_footer s c)]
    have hflen : mm_footer s c < s.heap.length := footer_lt_len s bl c hchain hc
    have hbfc : ¬(b = mm_footer s c ∧ mm_footer s c < s.heap.length) := by
      intro hx
      by_cases hcb : c = b
      · exact footer_ne_self s bl c hchain hc (hcb ▸ hx.1.symm)
      · exact footer_ne_start s bl c b hchain hc hb (fun he => hcb he.symm) hx.1.symm
    have hpffc : ¬(lastD f rest = mm_footer s c ∧ mm_footer s c < s.heap.length) := by
      intro hx
      by_cases hcpf : c = lastD f rest
      · exact footer_ne_self s bl c hchain hc (hcpf ▸ hx.1.symm)
      · exact footer_ne_start s bl c (lastD f rest) hchain hc hpf_bl
          (fun he => hcpf he.symm) hx.1.symm
    by_cases hcf : c = f
    · subst hcf
      rw [if_pos ⟨rfl, hflen⟩, if_neg (fun hx => hbf hx.symm), if_pos rfl]
    · rw [if_neg (fun hx => footer_inj_ne s bl f c hchain hf_bl hc
          (fun he => hcf he.symm) hx.1), if_neg hbfc]
      by_cases hcb : c = b
      · subst hcb
        rw [if_pos ⟨rfl, hflen⟩, if_pos rfl]
      · rw [if_neg (fun hx => footer_inj_ne s bl b c hchain hb hc
            (fun he => hcb he.symm) hx.1), if_neg hpffc, if_neg hcb, if_neg hcf]
        rfl
  have hnd2 : (b :: f :: rest).Nodup := by
    rw [List.nodup_cons]
    exact ⟨hbnot, hnd⟩
  have hpnotrest : f ∉ rest := (List.nodup_cons.mp hnd).1
  have hndr : rest.Nodup := (List.nodup_cons.mp hnd).2
  refine ⟨by rw [heq]; rfl, by rw [heq]; simp, hsz, by rw [heq]; rfl, by rw [heq]; rfl,
    by rw [heq]; rfl, by rw [heq]; rfl, by rw [heq]; rfl, hnext_val, hprev_val, ?_, hnd2⟩
  intro pr hpr
  have hpr2 : pr = (b, f) ∨ pr ∈ arcsFrom f rest b := by
    simpa [arcs, arcsFrom] using hpr
  rcases hpr2 with rfl | hm
  · constructor
    · show mm_next (mm_link s b (some f)) b = some f
      rw [hnext_val b hb, if_pos rfl]
    · show mm_prev (mm_link s b (some f)) f = some b
      rw [hprev_val f hf_bl, if_neg hbf.symm, if_pos rfl]
  · rcases (arcsFrom_mem_iff f rest b f hnd pr).mp hm with rfl | ⟨hmw, hne⟩
    · constructor
      · show mm_next (mm_link s b (some f)) (lastD f rest) = some b
        rw [hnext_val _ hpf_bl, if_neg (fun hx => hbpf hx.symm), if_pos rfl]
      · show mm_prev (mm_link s b (some f)) b = some (lastD f rest)
        rw [hprev_val b hb, if_pos rfl]
    · have hold : pr ∈ arcs (f :: rest) := hmw
      have hold2 := hcyc pr hold
      have hsrc : pr.1 ∈ f :: rest := arcsFrom_src_mem f rest f pr hmw
      have hsrc_ne_b : pr.1 ≠ b := fun hx => hbnot (hx ▸ hsrc)
      have hdst_ne_f : pr.2 ≠ f := by
        intro hx
        have := arcsFrom_dst_unique f rest f pr hmw hx hpnotrest
        exact hne (by rw [this])
      have hdst_mem : pr.2 ∈ rest :=
        (arcsFrom_dst_mem f rest f pr hmw).resolve_right hdst_ne_f
      have hdst_ne_b : pr.2 ≠ b := fun hx =>
        hbnot (hx ▸ List.mem_cons_of_mem _ hdst_mem)
      have hsrc_bl : pr.1 ∈ bl := hsub _ hsrc
      have hdst_bl : pr.2 ∈ bl := hsub _ (List.mem_cons_of_mem _ hdst_mem)
      constructor
      · rw [hnext_val pr.1 hsrc_bl, if_neg hsrc_ne_b, if_neg hne]
        exact hold2.1
      · rw [hprev_val pr.2 hdst_bl, if_neg hdst_ne_b, if_neg hdst_ne_f]
        exact hold2.2

/-! ### Chain surgery lemmas -/

theorem chainSeg_pairwise (h : List Cell) (bl : List Nat) (i j : Nat)
    (hc : chainSeg h i bl j) : bl.Pairwise (· < ·) := by
  induction bl generalizing i with
  | nil => exact List.Pairwise.nil
  | cons b bs ih =>
    obtain ⟨rfl, hsz, hrest⟩ := hc
    refine List.Pairwise.cons ?_ (ih _ hrest)
    intro c hcm
    have := (chainSeg_mem h bs _ j c hrest hcm).1
    omega

theorem chainOk_nodup (h : List Cell) (bl : List Nat) (hc : chainOk h bl) : bl.Nodup :=
  List.Pairwise.imp (fun hab => Nat.ne_of_lt hab)
    (chainSeg_pairwise h bl 0 h.length hc)

theorem noAdjFree_of_free_unique (h : List Cell) (bl : List Nat) (u : Nat)
    (hord : bl.Pairwise (· < ·)) (hu : ∀ c ∈ bl, isFree h c → c = u) : noAdjFree h bl := by
  induction bl with
  | nil => trivial
  | cons a t ih =>
    cases t with
    | nil => trivial
    | cons b t2 =>
      refine ⟨?_, ?_⟩
      · intro hboth
        have ha := hu a (by simp) hboth.1
        have hb := hu b (by simp) hboth.2
        have hab : a < b := (List.pairwise_cons.mp hord).1 b (by simp)
        omega
      · exact ih (List.pairwise_cons.mp hord).2
          (fun c hcm hf => hu c (List.mem_cons_of_mem _ hcm) hf)

theorem noAdjFree_merge (h h2 : List Cell) (xs ys : List Nat) (b a : Nat)
    (hn : noAdjFree h (xs ++ b :: a :: ys))
    (hb : ¬ isFree h2 b)
    (hbxs : b ∉ xs)
    (hbys : b ∉ ys)
    (hother : ∀ c ∈ xs ++ b :: ys, c ≠ b → (isFree h2 c ↔ isFree h c)) :
    noAdjFree h2 (xs ++ b :: ys) := by
  induction xs with
  | nil =>
    cases ys with
    | nil => trivial
    | cons y ys2 =>
      refine ⟨fun hboth => hb hboth.1, ?_⟩
      have htail : noAdjFree h (y :: ys2) := hn.2.2
      refine noAdjFree_frame h h2 (y :: ys2) ?_ htail
      intro c hcm
      have hcb : c ≠ b := fun he => hbys (he ▸ hcm)
      exact hother c (List.mem_cons_of_mem _ hcm) hcb
  | cons x xs ih =>
    have hbx : b ≠ x := fun he => hbxs (he ▸ List.mem_cons_self ..)
    have hbxs2 : b ∉ xs := fun hm => hbxs (List.mem_cons_of_mem _ hm)
    cases xs with
    | nil =>
      refine ⟨fun hboth => hb hboth.2, ?_⟩
      exact ih hn.2 hbxs2
        (fun c hcm hcb => hother c (List.mem_cons_of_mem _ hcm) hcb)
    | cons x2 xs2 =>
      have hx_mem : x ∈ (x :: x2 :: xs2) ++ b :: ys := by simp
      have hx2_mem : x2 ∈ (x :: x2 :: xs2) ++ b :: ys := by simp
      have hx2b : x2 ≠ b := by
        intro he
        exact hbxs (by rw [← he] at hbxs ⊢; simp)
      refine ⟨?_, ?_⟩
      · intro hboth
        exact hn.1 ⟨(hother x hx_mem (fun he => hbx he.symm)).mp hboth.1,
          (hother x2 hx2_mem hx2b).mp hboth.2⟩
      · exact ih hn.2 hbxs2
          (fun c hcm hcb => hother c (List.mem_cons_of_mem _ hcm) hcb)

theorem chainSeg_merge (h h2 : List Cell) (xs ys : List Nat) (i j b a : Nat)
    (hc : chainSeg h i (xs ++ b :: a :: ys) j)
    (hszb : (hGet h2 b).size = (hGet h b).size + (hGet h a).size)
    (hszo : ∀ c ∈ xs ++ b :: a :: ys, c ≠ b → c ≠ a → (hGet h2 c).size = (hGet h c).size) :
    chainSeg h2 i (xs ++ b :: ys) j := by
  induction xs generalizing i with
  | nil =>
    obtain ⟨rfl, hsb, hrest⟩ := hc
    obtain ⟨haeq, hsa, hrest2⟩ := hrest
    refine ⟨rfl, ?_, ?_⟩
    · rw [hszb]
      omega
    · rw [hszb]
      have harith : b + ((hGet h b).size + (hGet h a).size) = a + (hGet h a).size := by
        omega
      rw [harith]
      refine chainSeg_frame h h2 ys _ _ ?_ hrest2
      intro c hcm
      have hbound := (chainSeg_mem h ys _ j c hrest2 hcm).1
      refine hszo c (by simp [hcm]) ?_ ?_
      · omega
      · omega
  | cons x xs ih =>
    obtain ⟨rfl, hsx, hrest⟩ := hc
    have hbmem : b ∈ xs ++ b :: a :: ys := by simp
    have hamem : a ∈ xs ++ b :: a :: ys := by simp
    have hxb : x ≠ b := by
      have := (chainSeg_mem h (xs ++ b :: a :: ys) _ j b hrest hbmem).1
      omega
    have hxa : x ≠ a := by
      have := (chainSeg_mem h (xs ++ b :: a :: ys) _ j a hrest hamem).1
      omega
    refine ⟨rfl, ?_, ?_⟩
    · rw [hszo x (by simp) hxb hxa]
      exact hsx
    · rw [hszo x (by simp) hxb hxa]
      exact ih _ hrest (fun c hcm hc1 hc2 => hszo c (List.mem_cons_of_mem _ hcm) hc1 hc2)

theorem chain_after_decomp (h : List Cell) (bl : List Nat) (b : Nat)
    (hc : chainOk h bl) (hb : b ∈ bl) (hlt : b + (hGet h b).size < h.length) :
    ∃ xs ys, bl = xs ++ b :: (b + (hGet h b).size) :: ys := by
  obtain ⟨xs, ys0, rfl⟩ := List.append_of_mem hb
  obtain ⟨k, h1, h2⟩ := (chainSeg_append h xs (b :: ys0) 0 h.length).mp hc
  obtain ⟨hbk, hsz, hrest⟩ := h2
  cases ys0 with
  | nil =>
    have hfin : h.length = b + (hGet h b).size := hrest
    omega
  | cons a ys =>
    obtain ⟨haeq, h2a, h3a⟩ := hrest
    refine ⟨xs, ys, ?_⟩
    rw [haeq]

theorem chainSeg_before_decomp (h : List Cell) (bl : List Nat) (i j b : Nat)
    (hc : chainSeg h i bl j) (hb : b ∈ bl) (hne : b ≠ i) :
    ∃ xs pb ys, bl = xs ++ pb :: b :: ys ∧ pb + (hGet h pb).size = b := by
  induction bl generalizing i with
  | nil => cases hb
  | cons x bs ih =>
    obtain ⟨rfl, hsx, hrest⟩ := hc
    rcases List.mem_cons.mp hb with rfl | hb2
    · exact absurd rfl hne
    · by_cases hbx : b = x + (hGet h x).size
      · cases bs with
        | nil => cases hb2
        | cons y bs2 =>
          obtain ⟨hy, h2y, h3y⟩ := hrest
          refine ⟨[], x, bs2, ?_, hbx.symm⟩
          have hyb : y = b := by rw [hy, ← hbx]
          rw [hyb]
          rfl
      · obtain ⟨xs, pb, ys, heq, hpb⟩ := ih _ hrest hb2 (fun hc2 => hbx hc2)
        exact ⟨x :: xs, pb, ys, by rw [heq]; rfl, hpb⟩

theorem cycOk_heap_eq (s1 s2 : MM) (hh : s2.heap = s1.heap) (c : List Nat)
    (hc : cycOk s1 c) : cycOk s2 c := by
  intro pr hpr
  simpa only [mm_next, mm_prev, mm_footer, mm_size, hh] using hc pr hpr

theorem mem_middle_iff (xs ys : List Nat) (b q x : Nat)
    (hqxs : q ∉ xs) (hqys : q ∉ ys) (hqb : q ≠ b) :
    x ∈ xs ++ b :: ys ↔ (x ∈ xs ++ b :: q :: ys ∧ x ≠ q) := by
  simp only [List.mem_append, List.mem_cons]
  constructor
  · intro hm
    rcases hm with hm | hm | hm
    · exact ⟨Or.inl hm, fun he => hqxs (he ▸ hm)⟩
    · exact ⟨Or.inr (Or.inl hm), fun he => hqb (he ▸ hm)⟩
    · exact ⟨Or.inr (Or.inr (Or.inr hm)), fun he => hqys (he ▸ hm)⟩
  · rintro ⟨hm, hne⟩
    rcases hm with hm | hm | hm | hm
    · exact Or.inl hm
    · exact Or.inr (Or.inl hm)
    · exact absurd hm hne
    · exact Or.inr (Or.inr hm)

/-! ### Upper coalesce surgery -/

theorem coalesceUp_spec (s : MM) (bl cyc : List Nat) (bp q : Nat)
    (hWF : WFd s bl cyc) (hbp : bp ∈ bl) (hbpalloc : ¬ isFree s.heap bp)
    (hq : q ∈ bl) (hqfree : isFree s.heap q) (hadj : q = bp + mm_size s bp) :
    ∃ bl' cyc',
      WFd (coalesceUp s bp q) bl' cyc' ∧
      (coalesceUp s bp q).heap.length = s.heap.length ∧
      (coalesceUp s bp q).hsize = s.hsize ∧
      (coalesceUp s bp q).maxUnits = s.maxUnits ∧
      (coalesceUp s bp q).pagesize = s.pagesize ∧
      (coalesceUp s bp q).errno = s.errno ∧
      (coalesceUp s bp q).data = s.data ∧
      (∀ x, x ∈ bl' ↔ (x ∈ bl ∧ x ≠ q)) ∧
      (∀ x, x ∈ cyc' ↔ (x ∈ cyc ∧ x ≠ q)) ∧
      (¬ isFree (coalesceUp s bp q).heap bp) ∧
      bp ∈ bl' ∧
      (∀ x ∈ bl', x ≠ bp → (isFree (coalesceUp s bp q).heap x ↔ isFree s.heap x)) ∧
      mm_size (coalesceUp s bp q) bp = mm_size s bp + mm_size s q ∧
      (∀ x ∈ bl', x ≠ bp → mm_size (coalesceUp s bp q) x = mm_size s x) := by
  obtain ⟨hhs, hchain, hfoot, hnadj, hcyc, hcnd, hcsub, hdisc, hfrnone, hfrmem⟩ := hWF
  have hq_cyc : q ∈ cyc := (hdisc q hq).mp hqfree
  have hbp_notcyc : bp ∉ cyc := fun hm => hbpalloc ((hdisc bp hbp).mpr hm)
  obtain ⟨cxs, cys, hcdec⟩ := List.append_of_mem hq_cyc
  have hcyc_r : cycOk s (q :: cys ++ cxs) := by
    rw [hcdec] at hcyc
    exact cycOk_rotate s cxs q cys hcyc
  have hperm : cyc.Perm (q :: cys ++ cxs) := by
    rw [hcdec]
    exact rotate_perm cxs q cys
  have hnd_r : (q :: cys ++ cxs).Nodup := hperm.nodup_iff.mp hcnd
  have hqnotin : q ∉ cys ++ cxs := (List.nodup_cons.mp hnd_r).1
  have hmem_r : ∀ x, x ∈ cyc ↔ (x = q ∨ x ∈ cys ++ cxs) := by
    intro x
    rw [hperm.mem_iff]
    simp
  have hsub_r : ∀ b ∈ q :: cys ++ cxs, b ∈ bl := fun b hb => hcsub b (hperm.mem_iff.mpr hb)
  set sa := if s.freep = some q then { s with freep := mm_prev s q } else s with hsadef
  have hsaheap : sa.heap = s.heap := by
    rw [hsadef]
    split <;> rfl
  have hsa_hsize : sa.hsize = s.hsize := by rw [hsadef]; split <;> rfl
  have hsa_maxUnits : sa.maxUnits = s.maxUnits := by rw [hsadef]; split <;> rfl
  have hsa_pagesize : sa.pagesize = s.pagesize := by rw [hsadef]; split <;> rfl
  have hsa_errno : sa.errno = s.errno := by rw [hsadef]; split <;> rfl
  have hsa_data : sa.data = s.data := by rw [hsadef]; split <;> rfl
  have hchain_sa : chainOk sa.heap bl := by rw [hsaheap]; exact hchain
  have hcyc_sa : cycOk sa (q :: cys ++ cxs) := cycOk_heap_eq s sa hsaheap _ hcyc_r
  obtain ⟨hfr_sb, hlen_sb, hsz_sb, hhs_sb, hmu_sb, hpg_sb, herr_sb, hdata_sb,
    hnextv_sb, hprevv_sb, hcyc_sb⟩ :=
    mm_unlink_spec sa bl q (cys ++ cxs) hchain_sa hcyc_sa hnd_r hsub_r
  set sb := mm_unlink sa q with hsbdef
  have hnext_sa : ∀ j, mm_next sa j = mm_next s j := by
    intro j
    show (hGet sa.heap j).ptr = (hGet s.heap j).ptr
    rw [hsaheap]
  have hprev_sa : ∀ j, mm_prev sa j = mm_prev s j := by
    intro j
    show (hGet sa.heap (j + (hGet sa.heap j).size - 1)).ptr
      = (hGet s.heap (j + (hGet s.heap j).size - 1)).ptr
    rw [hsaheap]
  have hsz_sb2 : ∀ j, mm_size sb j = mm_size s j := by
    intro j
    rw [hsz_sb j]
    show (hGet sa.heap j).size = (hGet s.heap j).size
    rw [hsaheap]
  have hlen_sb2 : sb.heap.length = s.heap.length := by rw [hlen_sb, hsaheap]
  have hbpf := chain_mem_facts s bl bp hchain hbp
  have hqf := chain_mem_facts s bl q hchain hq
  set T := mm_size sb bp + mm_size sb q with hTdef
  have hTval : T = mm_size s bp + mm_size s q := by rw [hTdef, hsz_sb2, hsz_sb2]
  set sc := mm_setSize sb bp T with hscdef
  have hbp_lt_sb : bp < sb.heap.length := by
    rw [hlen_sb2]
    omega
  have hsz_sc := mm_setSize_size sb bp T hbp_lt_sb
  have hFQ : bp + T - 1 = mm_footer s q := by
    show bp + T - 1 = q + mm_size s q - 1
    rw [hTval]
    omega
  set sd := mm_setNext sc bp none with hsddef
  set se := mm_setPrev sd bp none with hsedef
  have heq : coalesceUp s bp q = se := by
    rw [hsedef, hsddef, hscdef, hTdef, hsbdef, hsadef]
    rfl
  have hszF : ∀ j, mm_size se j =
      if j = bp ∨ (j = mm_footer s q ∧ j < s.heap.length) then mm_size s bp + mm_size s q
      else mm_size s j := by
    intro j
    rw [hsedef, hsddef]
    simp only [mm_setPrev_size, mm_setNext_size]
    rw [hscdef, hsz_sc j, hlen_sb2, hFQ, hTval, hsz_sb2]
  have hlenF : se.heap.length = s.heap.length := by
    rw [hsedef, hsddef, hscdef]
    simp only [mm_setPrev_len, mm_setNext_len, mm_setSize_len]
    exact hlen_sb2
  have hsize_sd_bp : mm_size sd bp = T := by
    rw [hsddef]
    simp only [mm_setNext_size]
    rw [hscdef, hsz_sc bp]
    simp
  have hfoot_sd_bp : mm_footer sd bp = mm_footer s q := by
    show bp + mm_size sd bp - 1 = mm_footer s q
    rw [hsize_sd_bp]
    exact hFQ
  have hptrF : ∀ j, mm_next se j =
      if mm_footer s q = j ∧ j < s.heap.length then none
      else if bp = j ∧ j < s.heap.length then none
      else mm_next sb j := by
    intro j
    rw [hsedef, mm_setPrev_ptr, hfoot_sd_bp, hsddef, mm_setNext_ptr]
    rw [hscdef]
    simp only [mm_setNext_len, mm_setSize_len, mm_setSize_ptr]
    rw [hlen_sb2]
  have hFQ_ne_bl : ∀ c ∈ bl, mm_footer s q ≠ c := by
    intro c hc
    by_cases hcq : c = q
    · subst hcq
      exact footer_ne_self s bl c hchain hc
    · exact footer_ne_start s bl q c hchain hq hc hcq
  have hnextF : ∀ c ∈ bl, mm_next se c =
      if c = bp then none
      else if c = q then none
      else if c = lastD q (cys ++ cxs) then some ((cys ++ cxs).headD q)
      else mm_next s c := by
    intro c hc
    rw [hptrF c, if_neg (fun hx => hFQ_ne_bl c hc hx.1)]
    by_cases hcbp : c = bp
    · subst hcbp
      rw [if_pos ⟨rfl, chain_mem_lt_len s bl c hchain hc⟩, if_pos rfl]
    · rw [if_neg (fun hx => hcbp hx.1.symm), if_neg hcbp, hnextv_sb c hc, hnext_sa c]
  have hfootF : ∀ c ∈ bl, c ≠ bp → c ≠ q → mm_footer se c = mm_footer s c := by
    intro c hc hcbp hcq
    show c + mm_size se c - 1 = c + mm_size s c - 1
    rw [hszF c, if_neg]
    intro hx
    rcases hx with hx | hx
    · exact hcbp hx
    · exact hFQ_ne_bl c hc hx.1.symm
  have hprevF : ∀ c ∈ bl, c ≠ bp → c ≠ q → mm_prev se c =
      (if c = q then none
        else if c = (cys ++ cxs).headD q then some (lastD q (cys ++ cxs))
        else mm_prev s c) := by
    intro c hc hcbp hcq
    rw [mm_prev_eq, hfootF c hc hcbp hcq, hptrF (mm_footer s c)]
    rw [if_neg (fun hx => footer_inj_ne s bl q c hchain hq hc
        (fun he => hcq he.symm) hx.1)]
    rw [if_neg (fun hx => footer_ne_start s bl c bp hchain hc hbp
        (fun he => hcbp he.symm) hx.1.symm)]
    have hfsb : mm_footer sb c = mm_footer s c := by
      show c + mm_size sb c - 1 = c + mm_size s c - 1
      rw [hsz_sb2]
    rw [show mm_next sb (mm_footer s c) = mm_prev sb c from by rw [mm_prev_eq, hfsb]]
    rw [hprevv_sb c hc, hprev_sa c]
  have hbl_lt := chainSeg_pairwise s.heap bl 0 s.heap.length hchain
  have hadj2 : q = bp + (hGet s.heap bp).size := hadj
  obtain ⟨xs, ys, hbldec⟩ := chain_after_decomp s.heap bl bp hchain hbp
    (by rw [← hadj2]; exact chain_mem_lt_len s bl q hchain hq)
  rw [← hadj2] at hbldec
  have hord : (xs ++ bp :: q :: ys).Pairwise (· < ·) := by rw [← hbldec]; exact hbl_lt
  have hpw := List.pairwise_append.mp hord
  have hbp_lt_q : bp < q := (List.pairwise_cons.mp hpw.2.1).1 q (by simp)
  have hq_lt_ys : ∀ y ∈ ys, q < y :=
    fun y hy => (List.pairwise_cons.mp (List.pairwise_cons.mp hpw.2.1).2).1 y hy
  have hbp_lt_ys : ∀ y ∈ q :: ys, bp < y := (List.pairwise_cons.mp hpw.2.1).1
  have hxs_lt : ∀ x ∈ xs, ∀ y ∈ bp :: q :: ys, x < y := hpw.2.2
  have hq_notin_xs : q ∉ xs := fun hm => by
    have := hxs_lt q hm bp (by simp)
    omega
  have hq_notin_ys : q ∉ ys := fun hm => by
    have := hq_lt_ys q hm
    omega
  have hq_ne_bp : q ≠ bp := by omega
  have hbp_notin_xs : bp ∉ xs := fun hm => by
    have := hxs_lt bp hm bp (by simp)
    omega
  have hbp_notin_ys : bp ∉ ys := fun hm => by
    have := hbp_lt_ys bp (by simp [hm])
    omega
  have hmem_bl : ∀ x, x ∈ xs ++ bp :: ys ↔ (x ∈ bl ∧ x ≠ q) := by
    intro x
    rw [hbldec]
    exact mem_middle_iff xs ys bp q x hq_notin_xs hq_notin_ys hq_ne_bp
  have hbp_bl2 : bp ∈ xs ++ bp :: ys := by simp
  refine ⟨xs ++ bp :: ys, cys ++ cxs, ?_, by rw [heq]; exact hlenF, ?_, ?_, ?_, ?_, ?_,
    hmem_bl, ?_, ?_, hbp_bl2, ?_, ?_, ?_⟩
  rotate_left
  · rw [heq, hsedef, hsddef, hscdef]
    exact (by rw [hhs_sb, hsa_hsize] : sb.hsize = s.hsize)
  · rw [heq, hsedef, hsddef, hscdef]
    exact (by rw [hmu_sb, hsa_maxUnits] : sb.maxUnits = s.maxUnits)
  · rw [heq, hsedef, hsddef, hscdef]
    exact (by rw [hpg_sb, hsa_pagesize] : sb.pagesize = s.pagesize)
  · rw [heq, hsedef, hsddef, hscdef]
    exact (by rw [herr_sb, hsa_errno] : sb.errno = s.errno)
  · rw [heq, hsedef, hsddef, hscdef]
    exact (by rw [hdata_sb, hsa_data] : sb.data = s.data)
  · intro x
    constructor
    · intro hm
      have hx : x ∈ cyc := hperm.mem_iff.mpr (List.mem_cons_of_mem _ hm)
      exact ⟨hx, fun he => hqnotin (he ▸ hm)⟩
    · rintro ⟨hm, hne⟩
      rcases (hmem_r x).mp hm with he | hm2
      · exact absurd he hne
      · exact hm2
  · rw [heq]
    intro hfr
    have := hnextF bp hbp
    rw [if_pos rfl] at this
    exact hfr this
  · intro x hx hxbp
    rw [heq]
    have hxin := (hmem_bl x).mp hx
    have hxq : x ≠ q := hxin.2
    have hxbl : x ∈ bl := hxin.1
    show (hGet se.heap x).ptr ≠ none ↔ (hGet s.heap x).ptr ≠ none
    have := hnextF x hxbl
    rw [if_neg hxbp, if_neg hxq] at this
    by_cases hxl : x = lastD q (cys ++ cxs)
    · rw [if_pos hxl] at this
      rw [show (hGet se.heap x).ptr = mm_next se x from rfl, this]
      cases hrest : cys ++ cxs with
      | nil =>
        rw [hrest] at hxl
        exact absurd hxl hxq
      | cons c0 crest =>
        have harc : (lastD q (cys ++ cxs), q) ∈ arcs (q :: cys ++ cxs) :=
          lastD_arc q (cys ++ cxs) q
        have := (hcyc_r _ harc).1
        constructor
        · intro _
          rw [← hxl] at this
          rw [show (hGet s.heap x).ptr = mm_next s x from rfl, this]
          simp
        · intro _
          simp
    · rw [if_neg hxl] at this
      rw [show (hGet se.heap x).ptr = mm_next se x from rfl, this]
      exact Iff.rfl
  · rw [heq, hszF bp, if_pos (Or.inl rfl)]
  · intro x hx hxbp
    rw [heq, hszF x, if_neg]
    have hxin := (hmem_bl x).mp hx
    intro hc
    rcases hc with hc | hc
    · exact hxbp hc
    · exact hFQ_ne_bl x hxin.1 hc.1.symm
  refine ⟨by rw [heq]; show 1 ≤ sb.hsize; rw [hhs_sb, hsa_hsize]; exact hhs,
    ?_, ?_, ?_, ?_, ?_, ?_, ?_, ?_, ?_⟩
  · show chainOk (coalesceUp s bp q).heap (xs ++ bp :: ys)
    rw [heq]
    have hc0 : chainSeg s.heap 0 (xs ++ bp :: q :: ys) s.heap.length := by
      rw [← hbldec]
      exact hchain
    have hmerge := chainSeg_merge s.heap se.heap xs ys 0 s.heap.length bp q hc0 ?_ ?_
    · show chainSeg se.heap 0 (xs ++ bp :: ys) se.heap.length
      rw [hlenF]
      exact hmerge
    · show (hGet se.heap bp).size = (hGet s.heap bp).size + (hGet s.heap q).size
      have := hszF bp
      rw [if_pos (Or.inl rfl)] at this
      exact this
    · intro c hcm hcbp hcq
      have hcbl : c ∈ bl := by rw [hbldec]; exact hcm
      show (hGet se.heap c).size = (hGet s.heap c).size
      have := hszF c
      rw [if_neg (by
        intro hc2
        rcases hc2 with hc2 | hc2
        · exact hcbp hc2
        · exact hFQ_ne_bl c hcbl hc2.1.symm)] at this
      exact this
  · intro c hcm
    rw [heq]
    have hcbl : c ∈ bl := ((hmem_bl c).mp hcm).1
    have hcq : c ≠ q := ((hmem_bl c).mp hcm).2
    by_cases hcbp : c = bp
    · subst hcbp
      show (hGet se.heap (c + (hGet se.heap c).size - 1)).size = (hGet se.heap c).size
      have hs1 : (hGet se.heap c).size = mm_size s c + mm_size s q := by
        have := hszF c
        rw [if_pos (Or.inl rfl)] at this
        exact this
      rw [hs1]
      have hpos : c + (mm_size s c + mm_size s q) - 1 = mm_footer s q := by
        show _ = q + mm_size s q - 1
        omega
      rw [hpos]
      have := hszF (mm_footer s q)
      rw [if_pos (Or.inr ⟨rfl, footer_lt_len s bl q hchain hq⟩)] at this
      exact this
    · show (hGet se.heap (c + (hGet se.heap c).size - 1)).size = (hGet se.heap c).size
      have hsz_c : (hGet se.heap c).size = (hGet s.heap c).size := by
        have := hszF c
        rw [if_neg (by
          intro hc2
          rcases hc2 with hc2 | hc2
          · exact hcbp hc2
          · exact hFQ_ne_bl c hcbl hc2.1.symm)] at this
        exact this
      rw [hsz_c]
      have hszfc : (hGet se.heap (c + (hGet s.heap c).size - 1)).size
          = (hGet s.heap (c + (hGet s.heap c).size - 1)).size := by
        have := hszF (c + (hGet s.heap c).size - 1)
        rw [if_neg (by
          intro hc2
          rcases hc2 with hc2 | hc2
          · exact footer_ne_start s bl c bp hchain hcbl hbp
              (fun he => hcbp he.symm) hc2
          · exact footer_inj_ne s bl c q hchain hcbl hq hcq
              (by
                show c + mm_size s c - 1 = q + mm_size s q - 1
                exact hc2.1))] at this
        exact this
      rw [hszfc]
      exact hfoot c hcbl
  · show noAdjFree (coalesceUp s bp q).heap (xs ++ bp :: ys)
    rw [heq]
    refine noAdjFree_merge s.heap se.heap xs ys bp q (by rw [← hbldec]; exact hnadj) ?_
      hbp_notin_xs hbp_notin_ys ?_
    · intro hfr
      have := hnextF bp hbp
      rw [if_pos rfl] at this
      exact hfr this
    · intro c hcm hcbp
      have hcbl : c ∈ bl := ((hmem_bl c).mp hcm).1
      have hcq : c ≠ q := ((hmem_bl c).mp hcm).2
      show (hGet se.heap c).ptr ≠ none ↔ (hGet s.heap c).ptr ≠ none
      have := hnextF c hcbl
      rw [if_neg hcbp, if_neg hcq] at this
      by_cases hxl : c = lastD q (cys ++ cxs)
      · rw [if_pos hxl] at this
        rw [show (hGet se.heap c).ptr = mm_next se c from rfl, this]
        cases hrest : cys ++ cxs with
        | nil =>
          rw [hrest] at hxl
          exact absurd hxl hcq
        | cons c0 crest =>
          have harc : (lastD q (cys ++ cxs), q) ∈ arcs (q :: cys ++ cxs) :=
            lastD_arc q (cys ++ cxs) q
          have harcv := (hcyc_r _ harc).1
          constructor
          · intro _
            rw [← hxl] at harcv
            rw [show (hGet s.heap c).ptr = mm_next s c from rfl, harcv]
            simp
          · intro _
            simp
      · rw [if_neg hxl] at this
        rw [show (hGet se.heap c).ptr = mm_next se c from rfl, this]
        exact Iff.rfl
  · show cycOk (coalesceUp s bp q) (cys ++ cxs)
    rw [heq]
    intro pr hpr
    have hsrc : pr.1 ∈ cys ++ cxs := by
      cases hrest : cys ++ cxs with
      | nil =>
        rw [hrest] at hpr
        cases hpr
      | cons c0 crest =>
        rw [hrest] at hpr
        exact arcsFrom_src_mem c0 crest c0 pr hpr
    have hdst : pr.2 ∈ cys ++ cxs := by
      cases hrest : cys ++ cxs with
      | nil =>
        rw [hrest] at hpr
        cases hpr
      | cons c0 crest =>
        rw [hrest] at hpr
        rcases arcsFrom_dst_mem c0 crest c0 pr hpr with hm | he
        · exact List.mem_cons_of_mem _ hm
        · rw [he]
          exact List.mem_cons_self ..
    have hsrc_bl : pr.1 ∈ bl := hsub_r _ (List.mem_cons_of_mem _ hsrc)
    have hdst_bl : pr.2 ∈ bl := hsub_r _ (List.mem_cons_of_mem _ hdst)
    have hsrc_q : pr.1 ≠ q := fun he => hqnotin (he ▸ hsrc)
    have hdst_q : pr.2 ≠ q := fun he => hqnotin (he ▸ hdst)
    have hsrc_bp : pr.1 ≠ bp := fun he =>
      hbp_notcyc (hperm.mem_iff.mpr (List.mem_cons_of_mem _ (he ▸ hsrc)))
    have hdst_bp : pr.2 ≠ bp := fun he =>
      hbp_notcyc (hperm.mem_iff.mpr (List.mem_cons_of_mem _ (he ▸ hdst)))
    have hv := hcyc_sb pr hpr
    constructor
    · rw [hptrF pr.1, if_neg (fun hx => hFQ_ne_bl pr.1 hsrc_bl hx.1),
        if_neg (fun hx => hsrc_bp hx.1.symm)]
      exact hv.1
    · rw [mm_prev_eq, hfootF pr.2 hdst_bl hdst_bp hdst_q,
        hptrF (mm_footer s pr.2),
        if_neg (fun hx => footer_inj_ne s bl q pr.2 hchain hq hdst_bl
          (fun he => hdst_q he.symm) hx.1),
        if_neg (fun hx => footer_ne_start s bl pr.2 bp hchain hdst_bl hbp
          (fun he => hdst_bp he.symm) hx.1.symm)]
      have hfsb : mm_footer sb pr.2 = mm_footer s pr.2 := by
        show pr.2 + mm_size sb pr.2 - 1 = pr.2 + mm_size s pr.2 - 1
        rw [hsz_sb2]
      rw [show mm_next sb (mm_footer s pr.2) = mm_prev sb pr.2 from by rw [mm_prev_eq, hfsb]]
      exact hv.2
  · exact (List.nodup_cons.mp hnd_r).2
  · intro b hb
    have hbcyc : b ∈ cyc := hperm.mem_iff.mpr (List.mem_cons_of_mem _ hb)
    have hbq : b ≠ q := fun he => hqnotin (he ▸ hb)
    exact (hmem_bl b).mpr ⟨hcsub b hbcyc, hbq⟩
  · intro c hcm
    rw [heq]
    have hcbl : c ∈ bl := ((hmem_bl c).mp hcm).1
    have hcq : c ≠ q := ((hmem_bl c).mp hcm).2
    by_cases hcbp : c = bp
    · subst hcbp
      constructor
      · intro hfr
        have := hnextF c hbp
        rw [if_pos rfl] at this
        exact absurd this hfr
      · intro hm
        exact absurd (hperm.mem_iff.mpr (List.mem_cons_of_mem _ hm)) hbp_notcyc
    · have hfr_iff : isFree se.heap c ↔ isFree s.heap c := by
        show (hGet se.heap c).ptr ≠ none ↔ (hGet s.heap c).ptr ≠ none
        have := hnextF c hcbl
        rw [if_neg hcbp, if_neg hcq] at this
        by_cases hxl : c = lastD q (cys ++ cxs)
        · rw [if_pos hxl] at this
          rw [show (hGet se.heap c).ptr = mm_next se c from rfl, this]
          cases hrest : cys ++ cxs with
          | nil =>
            rw [hrest] at hxl
            exact absurd hxl hcq
          | cons c0 crest =>
            have harc : (lastD q (cys ++ cxs), q) ∈ arcs (q :: cys ++ cxs) :=
              lastD_arc q (cys ++ cxs) q
            have harcv := (hcyc_r _ harc).1
            constructor
            · intro _
              rw [← hxl] at harcv
              rw [show (hGet s.heap c).ptr = mm_next s c from rfl, harcv]
              simp
            · intro _
              simp
        · rw [if_neg hxl] at this
          rw [show (hGet se.heap c).ptr = mm_next se c from rfl, this]
          exact Iff.rfl
      rw [hfr_iff]
      constructor
      · intro hfr
        rcases (hmem_r c).mp ((hdisc c hcbl).mp hfr) with he | hm
        · exact absurd he hcq
        · exact hm
      · intro hm
        exact (hdisc c hcbl).mpr (hperm.mem_iff.mpr (List.mem_cons_of_mem _ hm))
  · constructor
    · intro hfr
      rw [heq, hsedef, hsddef, hscdef] at hfr
      have hfr2 : sb.freep = none := hfr
      rw [hfr_sb] at hfr2
      by_cases hrest : cys ++ cxs = []
      · exact hrest
      · rw [if_neg hrest] at hfr2
        exfalso
        rw [hsadef] at hfr2
        by_cases hfq : s.freep = some q
        · rw [if_pos hfq] at hfr2
          have hfr3 : mm_prev s q = none := hfr2
          cases hrest2 : cys ++ cxs with
          | nil => exact hrest hrest2
          | cons c0 crest =>
            have harc : (lastD q (cys ++ cxs), q) ∈ arcs (q :: cys ++ cxs) :=
              lastD_arc q (cys ++ cxs) q
            have := (hcyc_r _ harc).2
            rw [hfr3] at this
            cases this
        · rw [if_neg hfq] at hfr2
          have hfr3 : s.freep = none := hfr2
          have : cyc = [] := hfrnone.mp hfr3
          rw [this] at hq_cyc
          cases hq_cyc
    · intro hrest
      rw [heq, hsedef, hsddef, hscdef]
      show sb.freep = none
      rw [hfr_sb, if_pos hrest]
  · intro g hg
    rw [heq, hsedef, hsddef, hscdef] at hg
    have hg2 : sb.freep = some g := hg
    rw [hfr_sb] at hg2
    by_cases hrest : cys ++ cxs = []
    · rw [if_pos hrest] at hg2
      cases hg2
    · rw [if_neg hrest] at hg2
      rw [hsadef] at hg2
      by_cases hfq : s.freep = some q
      · rw [if_pos hfq] at hg2
        have hg3 : mm_prev s q = some g := hg2
        cases hrest2 : cys ++ cxs with
        | nil => exact absurd hrest2 hrest
        | cons c0 crest =>
          have harc : (lastD q (cys ++ cxs), q) ∈ arcs (q :: cys ++ cxs) :=
            lastD_arc q (cys ++ cxs) q
          have hpv := (hcyc_r _ harc).2
          rw [hg3] at hpv
          have hgl : g = lastD q (cys ++ cxs) := Option.some.inj hpv
          rw [hgl, hrest2]
          show lastD q (c0 :: crest) ∈ c0 :: crest
          exact lastD_mem_cons c0 crest
      · rw [if_neg hfq] at hg2
        have hg3 : s.freep = some g := hg2
        have hgc : g ∈ cyc := hfrmem g hg3
        rcases (hmem_r g).mp hgc with he | hm
        · exact absurd (he ▸ hg3) hfq
        · exact hm

/-! ### Lower coalesce surgery -/

theorem coalesceLow_spec (s : MM) (bl cyc : List Nat) (bp p : Nat)
    (hWF : WFd s bl cyc) (hbp : bp ∈ bl) (hbpalloc : ¬ isFree s.heap bp)
    (hp : p ∈ bl) (hpfree : isFree s.heap p) (hadj : bp = p + mm_size s p) :
    ∃ bl' cyc',
      WFd (coalesceLow s bp p) bl' cyc' ∧
      (coalesceLow s bp p).heap.length = s.heap.length ∧
      (coalesceLow s bp p).hsize = s.hsize ∧
      (coalesceLow s bp p).maxUnits = s.maxUnits ∧
      (coalesceLow s bp p).pagesize = s.pagesize ∧
      (coalesceLow s bp p).errno = s.errno ∧
      (coalesceLow s bp p).data = s.data ∧
      (∀ x, x ∈ bl' ↔ (x ∈ bl ∧ x ≠ bp)) ∧
      (∀ x, x ∈ cyc' ↔ (x ∈ cyc ∧ x ≠ p)) ∧
      (¬ isFree (coalesceLow s bp p).heap p) ∧
      p ∈ bl' ∧
      (∀ x ∈ bl', x ≠ p → (isFree (coalesceLow s bp p).heap x ↔ isFree s.heap x)) ∧
      mm_size (coalesceLow s bp p) p = mm_size s p + mm_size s bp ∧
      (∀ x ∈ bl', x ≠ p → mm_size (coalesceLow s bp p) x = mm_size s x) := by
  obtain ⟨hhs, hchain, hfoot, hnadj, hcyc, hcnd, hcsub, hdisc, hfrnone, hfrmem⟩ := hWF
  have hp_cyc : p ∈ cyc := (hdisc p hp).mp hpfree
  have hbp_notcyc : bp ∉ cyc := fun hm => hbpalloc ((hdisc bp hbp).mpr hm)
  have hbp_ne_p : bp ≠ p := fun he => hbpalloc (he ▸ hpfree)
  obtain ⟨cxs, cys, hcdec⟩ := List.append_of_mem hp_cyc
  have hcyc_r : cycOk s (p :: cys ++ cxs) := by
    rw [hcdec] at hcyc
    exact cycOk_rotate s cxs p cys hcyc
  have hperm : cyc.Perm (p :: cys ++ cxs) := by
    rw [hcdec]
    exact rotate_perm cxs p cys
  have hnd_r : (p :: cys ++ cxs).Nodup := hperm.nodup_iff.mp hcnd
  have hpnotin : p ∉ cys ++ cxs := (List.nodup_cons.mp hnd_r).1
  have hmem_r : ∀ x, x ∈ cyc ↔ (x = p ∨ x ∈ cys ++ cxs) := by
    intro x
    rw [hperm.mem_iff]
    simp
  have hsub_r : ∀ b ∈ p :: cys ++ cxs, b ∈ bl := fun b hb => hcsub b (hperm.mem_iff.mpr hb)
  set sa := if s.freep = some p then { s with freep := mm_prev s p } else s with hsadef
  have hsaheap : sa.heap = s.heap := by
    rw [hsadef]
    split <;> rfl
  have hsa_hsize : sa.hsize = s.hsize := by rw [hsadef]; split <;> rfl
  have hsa_maxUnits : sa.maxUnits = s.maxUnits := by rw [hsadef]; split <;> rfl
  have hsa_pagesize : sa.pagesize = s.pagesize := by rw [hsadef]; split <;> rfl
  have hsa_errno : sa.errno = s.errno := by rw [hsadef]; split <;> rfl
  have hsa_data : sa.data = s.data := by rw [hsadef]; split <;> rfl
  have hchain_sa : chainOk sa.heap bl := by rw [hsaheap]; exact hchain
  have hcyc_sa : cycOk sa (p :: cys ++ cxs) := cycOk_heap_eq s sa hsaheap _ hcyc_r
  obtain ⟨hfr_sb, hlen_sb, hsz_sb, hhs_sb, hmu_sb, hpg_sb, herr_sb, hdata_sb,
    hnextv_sb, hprevv_sb, hcyc_sb⟩ :=
    mm_unlink_spec sa bl p (cys ++ cxs) hchain_sa hcyc_sa hnd_r hsub_r
  set sb := mm_unlink sa p with hsbdef
  have hnext_sa : ∀ j, mm_next sa j = mm_next s j := by
    intro j
    show (hGet sa.heap j).ptr = (hGet s.heap j).ptr
    rw [hsaheap]
  have hprev_sa : ∀ j, mm_prev sa j = mm_prev s j := by
    intro j
    show (hGet sa.heap (j + (hGet sa.heap j).size - 1)).ptr
      = (hGet s.heap (j + (hGet s.heap j).size - 1)).ptr
    rw [hsaheap]
  have hsz_sb2 : ∀ j, mm_size sb j = mm_size s j := by
    intro j
    rw [hsz_sb j]
    show (hGet sa.heap j).size = (hGet s.heap j).size
    rw [hsaheap]
  have hlen_sb2 : sb.heap.length = s.heap.length := by rw [hlen_sb, hsaheap]
  have hbpf := chain_mem_facts s bl bp hchain hbp
  have hpf := chain_mem_facts s bl p hchain hp
  set T := mm_size sb p + mm_size sb bp with hTdef
  have hTval : T = mm_size s p + mm_size s bp := by rw [hTdef, hsz_sb2, hsz_sb2]
  set sc := mm_setSize sb p T with hscdef
  have hp_lt_sb : p < sb.heap.length := by
    rw [hlen_sb2]
    omega
  have hsz_sc := mm_setSize_size sb p T hp_lt_sb
  have hFP : p + T - 1 = mm_footer s bp := by
    show p + T - 1 = bp + mm_size s bp - 1
    rw [hTval]
    omega
  set sd := mm_setNext sc bp none with hsddef
  set se := mm_setPrev sd bp none with hsedef
  set sf := mm_setNext se p none with hsfdef
  set sg := mm_setPrev sf p none with hsgdef
  have heq : coalesceLow s bp p = sg := by
    rw [hsgdef, hsfdef, hsedef, hsddef, hscdef, hTdef, hsbdef, hsadef]
    rfl
  have hszF : ∀ j, mm_size sg j =
      if j = p ∨ (j = mm_footer s bp ∧ j < s.heap.length) then mm_size s p + mm_size s bp
      else mm_size s j := by
    intro j
    rw [hsgdef, hsfdef, hsedef, hsddef]
    simp only [mm_setPrev_size, mm_setNext_size]
    rw [hscdef, hsz_sc j, hlen_sb2, hFP, hTval, hsz_sb2]
  have hlenF : sg.heap.length = s.heap.length := by
    rw [hsgdef, hsfdef, hsedef, hsddef, hscdef]
    simp only [mm_setPrev_len, mm_setNext_len, mm_setSize_len]
    exact hlen_sb2
  have hsize_mid_bp : mm_size sd bp = mm_size s bp := by
    rw [hsddef]
    simp only [mm_setNext_size]
    rw [hscdef, hsz_sc bp]
    rw [if_neg]
    · exact hsz_sb2 bp
    · intro hx
      rcases hx with hx | hx
      · exact hbp_ne_p hx
      · have h2 := hbpf.1
        omega
  have hfoot_sd_bp : mm_footer sd bp = mm_footer s bp := by
    show bp + mm_size sd bp - 1 = bp + mm_size s bp - 1
    rw [hsize_mid_bp]
  have hsize_sf_p : mm_size sf p = T := by
    rw [hsfdef, hsedef, hsddef]
    simp only [mm_setNext_size, mm_setPrev_size]
    rw [hscdef, hsz_sc p]
    simp
  have hfoot_sf_p : mm_footer sf p = mm_footer s bp := by
    show p + mm_size sf p - 1 = mm_footer s bp
    rw [hsize_sf_p]
    exact hFP
  have hptrF : ∀ j, mm_next sg j =
      if mm_footer s bp = j ∧ j < s.heap.length then none
      else if p = j ∧ j < s.heap.length then none
      else if mm_footer s bp = j ∧ j < s.heap.length then none
      else if bp = j ∧ j < s.heap.length then none
      else mm_next sb j := by
    intro j
    rw [hsgdef, mm_setPrev_ptr, hfoot_sf_p, hsfdef, mm_setNext_ptr,
      hsedef, mm_setPrev_ptr, hfoot_sd_bp, hsddef, mm_setNext_ptr]
    rw [hscdef]
    simp only [mm_setNext_len, mm_setPrev_len, mm_setSize_len, mm_setSize_ptr]
    rw [hlen_sb2]
  have hFP_ne_bl : ∀ c ∈ bl, mm_footer s bp ≠ c := by
    intro c hc
    by_cases hcbp : c = bp
    · subst hcbp
      exact footer_ne_self s bl c hchain hc
    · exact footer_ne_start s bl bp c hchain hbp hc hcbp
  have hnextF : ∀ c ∈ bl, mm_next sg c =
      if c = p then none
      else if c = bp then none
      else if c = lastD p (cys ++ cxs) then some ((cys ++ cxs).headD p)
      else mm_next s c := by
    intro c hc
    rw [hptrF c, if_neg (fun hx => hFP_ne_bl c hc hx.1)]
    have hclen : c < s.heap.length := chain_mem_lt_len s bl c hchain hc
    by_cases hcp : c = p
    · subst hcp
      rw [if_pos ⟨rfl, hclen⟩, if_pos rfl]
    · rw [if_neg (fun hx => hcp hx.1.symm), if_neg hcp,
        if_neg (fun hx => hFP_ne_bl c hc hx.1)]
      by_cases hcbp : c = bp
      · subst hcbp
        rw [if_pos ⟨rfl, hclen⟩, if_pos rfl]
      · rw [if_neg (fun hx => hcbp hx.1.symm), if_neg hcbp, hnextv_sb c hc, if_neg hcp,
          hnext_sa c]
  have hfootF : ∀ c ∈ bl, c ≠ p → c ≠ bp → mm_footer sg c = mm_footer s c := by
    intro c hc hcp hcbp
    show c + mm_size sg c - 1 = c + mm_size s c - 1
    rw [hszF c, if_neg]
    intro hx
    rcases hx with hx | hx
    · exact hcp hx
    · exact hFP_ne_bl c hc hx.1.symm
  have hmid_eq : ∀ c ∈ bl, c ≠ p → c ≠ bp → mm_next sg (mm_footer s c) = mm_prev sb c := by
    intro c hc hcp hcbp
    rw [hptrF (mm_footer s c),
      if_neg (fun hx => footer_inj_ne s bl bp c hchain hbp hc
        (fun he => hcbp he.symm) hx.1),
      if_neg (fun hx => footer_ne_start s bl c p hchain hc hp
        (fun he => hcp he.symm) hx.1.symm),
      if_neg (fun hx => footer_inj_ne s bl bp c hchain hbp hc
        (fun he => hcbp he.symm) hx.1),
      if_neg (fun hx => footer_ne_start s bl c bp hchain hc hbp
        (fun he => hcbp he.symm) hx.1.symm)]
    have hfsb : mm_footer sb c = mm_footer s c := by
      show c + mm_size sb c - 1 = c + mm_size s c - 1
      rw [hsz_sb2]
    rw [show mm_next sb (mm_footer s c) = mm_prev sb c from by rw [mm_prev_eq, hfsb]]
  have hbl_lt := chainSeg_pairwise s.heap bl 0 s.heap.length hchain
  have hadj2 : bp = p + (hGet s.heap p).size := hadj
  obtain ⟨xs, ys, hbldec⟩ := chain_after_decomp s.heap bl p hchain hp
    (by rw [← hadj2]; exact chain_mem_lt_len s bl bp hchain hbp)
  rw [← hadj2] at hbldec
  have hord : (xs ++ p :: bp :: ys).Pairwise (· < ·) := by rw [← hbldec]; exact hbl_lt
  have hpw := List.pairwise_append.mp hord
  have hp_lt_bp : p < bp := (List.pairwise_cons.mp hpw.2.1).1 bp (by simp)
  have hbp_lt_ys : ∀ y ∈ ys, bp < y :=
    fun y hy => (List.pairwise_cons.mp (List.pairwise_cons.mp hpw.2.1).2).1 y hy
  have hp_lt_tail : ∀ y ∈ bp :: ys, p < y := (List.pairwise_cons.mp hpw.2.1).1
  have hxs_lt : ∀ x ∈ xs, ∀ y ∈ p :: bp :: ys, x < y := hpw.2.2
  have hbp_notin_xs : bp ∉ xs := fun hm => by
    have := hxs_lt bp hm p (by simp)
    omega
  have hbp_notin_ys : bp ∉ ys := fun hm => by
    have := hbp_lt_ys bp hm
    omega
  have hbp_ne_p2 : bp ≠ p := hbp_ne_p
  have hp_notin_xs : p ∉ xs := fun hm => by
    have := hxs_lt p hm p (by simp)
    omega
  have hp_notin_ys : p ∉ ys := fun hm => by
    have := hp_lt_tail p (by simp [hm])
    omega
  have hmem_bl : ∀ x, x ∈ xs ++ p :: ys ↔ (x ∈ bl ∧ x ≠ bp) := by
    intro x
    rw [hbldec]
    exact mem_middle_iff xs ys p bp x hbp_notin_xs hbp_notin_ys hbp_ne_p2
  have hp_bl2 : p ∈ xs ++ p :: ys := by simp
  have hstatus : ∀ c ∈ bl, c ≠ p → c ≠ bp →
      (isFree sg.heap c ↔ isFree s.heap c) := by
    intro c hc hcp hcbp
    show (hGet sg.heap c).ptr ≠ none ↔ (hGet s.heap c).ptr ≠ none
    have := hnextF c hc
    rw [if_neg hcp, if_neg hcbp] at this
    by_cases hxl : c = lastD p (cys ++ cxs)
    · rw [if_pos hxl] at this
      rw [show (hGet sg.heap c).ptr = mm_next sg c from rfl, this]
      cases hrest : cys ++ cxs with
      | nil =>
        rw [hrest] at hxl
        exact absurd hxl hcp
      | cons c0 crest =>
        have harc : (lastD p (cys ++ cxs), p) ∈ arcs (p :: cys ++ cxs) :=
          lastD_arc p (cys ++ cxs) p
        have harcv := (hcyc_r _ harc).1
        constructor
        · intro _
          rw [← hxl] at harcv
          rw [show (hGet s.heap c).ptr = mm_next s c from rfl, harcv]
          simp
        · intro _
          simp
    · rw [if_neg hxl] at this
      rw [show (hGet sg.heap c).ptr = mm_next sg c from rfl, this]
      exact Iff.rfl
  refine ⟨xs ++ p :: ys, cys ++ cxs, ?_, by rw [heq]; exact hlenF, ?_, ?_, ?_, ?_, ?_,
    hmem_bl, ?_, ?_, hp_bl2, ?_, ?_, ?_⟩
  rotate_left
  · rw [heq, hsgdef, hsfdef, hsedef, hsddef, hscdef]
    exact (by rw [hhs_sb, hsa_hsize] : sb.hsize = s.hsize)
  · rw [heq, hsgdef, hsfdef, hsedef, hsddef, hscdef]
    exact (by rw [hmu_sb, hsa_maxUnits] : sb.maxUnits = s.maxUnits)
  · rw [heq, hsgdef, hsfdef, hsedef, hsddef, hscdef]
    exact (by rw [hpg_sb, hsa_pagesize] : sb.pagesize = s.pagesize)
  · rw [heq, hsgdef, hsfdef, hsedef, hsddef, hscdef]
    exact (by rw [herr_sb, hsa_errno] : sb.errno = s.errno)
  · rw [heq, hsgdef, hsfdef, hsedef, hsddef, hscdef]
    exact (by rw [hdata_sb, hsa_data] : sb.data = s.data)
  · intro x
    constructor
    · intro hm
      have hx : x ∈ cyc := hperm.mem_iff.mpr (List.mem_cons_of_mem _ hm)
      exact ⟨hx, fun he => hpnotin (he ▸ hm)⟩
    · rintro ⟨hm, hne⟩
      rcases (hmem_r x).mp hm with he | hm2
      · exact absurd he hne
      · exact hm2
  · rw [heq]
    intro hfr
    have := hnextF p hp
    rw [if_pos rfl] at this
    exact hfr this
  · intro x hx hxp
    rw [heq]
    have hxin := (hmem_bl x).mp hx
    exact hstatus x hxin.1 hxp hxin.2
  · rw [heq, hszF p, if_pos (Or.inl rfl)]
  · intro x hx hxp
    rw [heq, hszF x, if_neg]
    have hxin := (hmem_bl x).mp hx
    intro hc
    rcases hc with hc | hc
    · exact hxp hc
    · exact hFP_ne_bl x hxin.1 hc.1.symm
  refine ⟨by rw [heq]; show 1 ≤ sb.hsize; rw [hhs_sb, hsa_hsize]; exact hhs,
    ?_, ?_, ?_, ?_, ?_, ?_, ?_, ?_, ?_⟩
  · show chainOk (coalesceLow s bp p).heap (xs ++ p :: ys)
    rw [heq]
    have hc0 : chainSeg s.heap 0 (xs ++ p :: bp :: ys) s.heap.length := by
      rw [← hbldec]
      exact hchain
    have hmerge := chainSeg_merge s.heap sg.heap xs ys 0 s.heap.length p bp hc0 ?_ ?_
    · show chainSeg sg.heap 0 (xs ++ p :: ys) sg.heap.length
      rw [hlenF]
      exact hmerge
    · show (hGet sg.heap p).size = (hGet s.heap p).size + (hGet s.heap bp).size
      have := hszF p
      rw [if_pos (Or.inl rfl)] at this
      exact this
    · intro c hcm hcp hcbp
      have hcbl : c ∈ bl := by rw [hbldec]; exact hcm
      show (hGet sg.heap c).size = (hGet s.heap c).size
      have := hszF c
      rw [if_neg (by
        intro hc2
        rcases hc2 with hc2 | hc2
        · exact hcp hc2
        · exact hFP_ne_bl c hcbl hc2.1.symm)] at this
      exact this
  · intro c hcm
    rw [heq]
    have hcbl : c ∈ bl := ((hmem_bl c).mp hcm).1
    have hcbp : c ≠ bp := ((hmem_bl c).mp hcm).2
    by_cases hcp : c = p
    · subst hcp
      show (hGet sg.heap (c + (hGet sg.heap c).size - 1)).size = (hGet sg.heap c).size
      have hs1 : (hGet sg.heap c).size = mm_size s c + mm_size s bp := by
        have := hszF c
        rw [if_pos (Or.inl rfl)] at this
        exact this
      rw [hs1]
      have hpos : c + (mm_size s c + mm_size s bp) - 1 = mm_footer s bp := by
        show _ = bp + mm_size s bp - 1
        omega
      rw [hpos]
      have := hszF (mm_footer s bp)
      rw [if_pos (Or.inr ⟨rfl, footer_lt_len s bl bp hchain hbp⟩)] at this
      exact this
    · show (hGet sg.heap (c + (hGet sg.heap c).size - 1)).size = (hGet sg.heap c).size
      have hsz_c : (hGet sg.heap c).size = (hGet s.heap c).size := by
        have := hszF c
        rw [if_neg (by
          intro hc2
          rcases hc2 with hc2 | hc2
          · exact hcp hc2
          · exact hFP_ne_bl c hcbl hc2.1.symm)] at this
        exact this
      rw [hsz_c]
      have hszfc : (hGet sg.heap (c + (hGet s.heap c).size - 1)).size
          = (hGet s.heap (c + (hGet s.heap c).size - 1)).size := by
        have := hszF (c + (hGet s.heap c).size - 1)
        rw [if_neg (by
          intro hc2
          rcases hc2 with hc2 | hc2
          · exact footer_ne_start s bl c p hchain hcbl hp
              (fun he => hcp he.symm) hc2
          · exact footer_inj_ne s bl c bp hchain hcbl hbp hcbp
              (by
                show c + mm_size s c - 1 = bp + mm_size s bp - 1
                exact hc2.1))] at this
        exact this
      rw [hszfc]
      exact hfoot c hcbl
  · show noAdjFree (coalesceLow s bp p).heap (xs ++ p :: ys)
    rw [heq]
    refine noAdjFree_merge s.heap sg.heap xs ys p bp (by rw [← hbldec]; exact hnadj) ?_
      hp_notin_xs hp_notin_ys ?_
    · intro hfr
      have := hnextF p hp
      rw [if_pos rfl] at this
      exact hfr this
    · intro c hcm hcp
      have hcbl : c ∈ bl := ((hmem_bl c).mp hcm).1
      have hcbp : c ≠ bp := ((hmem_bl c).mp hcm).2
      exact hstatus c hcbl hcp hcbp
  · show cycOk (coalesceLow s bp p) (cys ++ cxs)
    rw [heq]
    intro pr hpr
    have hsrc : pr.1 ∈ cys ++ cxs := by
      cases hrest : cys ++ cxs with
      | nil =>
        rw [hrest] at hpr
        cases hpr
      | cons c0 crest =>
        rw [hrest] at hpr
        exact arcsFrom_src_mem c0 crest c0 pr hpr
    have hdst : pr.2 ∈ cys ++ cxs := by
      cases hrest : cys ++ cxs with
      | nil =>
        rw [hrest] at hpr
        cases hpr
      | cons c0 crest =>
        rw [hrest] at hpr
        rcases arcsFrom_dst_mem c0 crest c0 pr hpr with hm | he
        · exact List.mem_cons_of_mem _ hm
        · rw [he]
          exact List.mem_cons_self ..
    have hsrc_bl : pr.1 ∈ bl := hsub_r _ (List.mem_cons_of_mem _ hsrc)
    have hdst_bl : pr.2 ∈ bl := hsub_r _ (List.mem_cons_of_mem _ hdst)
    have hsrc_p : pr.1 ≠ p := fun he => hpnotin (he ▸ hsrc)
    have hdst_p : pr.2 ≠ p := fun he => hpnotin (he ▸ hdst)
    have hsrc_bp : pr.1 ≠ bp := fun he =>
      hbp_notcyc (hperm.mem_iff.mpr (List.mem_cons_of_mem _ (he ▸ hsrc)))
    have hdst_bp : pr.2 ≠ bp := fun he =>
      hbp_notcyc (hperm.mem_iff.mpr (List.mem_cons_of_mem _ (he ▸ hdst)))
    have hv := hcyc_sb pr hpr
    constructor
    · rw [hptrF pr.1, if_neg (fun hx => hFP_ne_bl pr.1 hsrc_bl hx.1),
        if_neg (fun hx => hsrc_p hx.1.symm),
        if_neg (fun hx => hFP_ne_bl pr.1 hsrc_bl hx.1),
        if_neg (fun hx => hsrc_bp hx.1.symm)]
      exact hv.1
    · rw [mm_prev_eq, hfootF pr.2 hdst_bl hdst_p hdst_bp,
        hmid_eq pr.2 hdst_bl hdst_p hdst_bp]
      exact hv.2
  · exact (List.nodup_cons.mp hnd_r).2
  · intro b hb
    have hbcyc : b ∈ cyc := hperm.mem_iff.mpr (List.mem_cons_of_mem _ hb)
    have hbbp : b ≠ bp := fun he =>
      hbp_notcyc (he ▸ hbcyc)
    exact (hmem_bl b).mpr ⟨hcsub b hbcyc, hbbp⟩
  · intro c hcm
    rw [heq]
    have hcbl : c ∈ bl := ((hmem_bl c).mp hcm).1
    have hcbp : c ≠ bp := ((hmem_bl c).mp hcm).2
    by_cases hcp : c = p
    · subst hcp
      constructor
      · intro hfr
        have := hnextF c hp
        rw [if_pos rfl] at this
        exact absurd this hfr
      · intro hm
        exact absurd hm hpnotin
    · rw [hstatus c hcbl hcp hcbp]
      constructor
      · intro hfr
        rcases (hmem_r c).mp ((hdisc c hcbl).mp hfr) with he | hm
        · exact absurd he hcp
        · exact hm
      · intro hm
        exact (hdisc c hcbl).mpr (hperm.mem_iff.mpr (List.mem_cons_of_mem _ hm))
  · constructor
    · intro hfr
      rw [heq, hsgdef, hsfdef, hsedef, hsddef, hscdef] at hfr
      have hfr2 : sb.freep = none := hfr
      rw [hfr_sb] at hfr2
      by_cases hrest : cys ++ cxs = []
      · exact hrest
      · rw [if_neg hrest] at hfr2
        exfalso
        rw [hsadef] at hfr2
        by_cases hfq : s.freep = some p
        · rw [if_pos hfq] at hfr2
          have hfr3 : mm_prev s p = none := hfr2
          have harc : (lastD p (cys ++ cxs), p) ∈ arcs (p :: cys ++ cxs) :=
            lastD_arc p (cys ++ cxs) p
          have := (hcyc_r _ harc).2
          rw [hfr3] at this
          cases this
        · rw [if_neg hfq] at hfr2
          have hfr3 : s.freep = none := hfr2
          have hcnil : cyc = [] := hfrnone.mp hfr3
          rw [hcnil] at hp_cyc
          cases hp_cyc
    · intro hrest
      rw [heq, hsgdef, hsfdef, hsedef, hsddef, hscdef]
      show sb.freep = none
      rw [hfr_sb, if_pos hrest]
  · intro g hg
    rw [heq, hsgdef, hsfdef, hsedef, hsddef, hscdef] at hg
    have hg2 : sb.freep = some g := hg
    rw [hfr_sb] at hg2
    by_cases hrest : cys ++ cxs = []
    · rw [if_pos hrest] at hg2
      cases hg2
    · rw [if_neg hrest] at hg2
      rw [hsadef] at hg2
      by_cases hfq : s.freep = some p
      · rw [if_pos hfq] at hg2
        have hg3 : mm_prev s p = some g := hg2
        cases hrest2 : cys ++ cxs with
        | nil => exact absurd hrest2 hrest
        | cons c0 crest =>
          have harc : (lastD p (cys ++ cxs), p) ∈ arcs (p :: cys ++ cxs) :=
            lastD_arc p (cys ++ cxs) p
          have hpv := (hcyc_r _ harc).2
          rw [hg3] at hpv
          have hgl : g = lastD p (cys ++ cxs) := Option.some.inj hpv
          rw [hgl, hrest2]
          show lastD p (c0 :: crest) ∈ c0 :: crest
          exact lastD_mem_cons c0 crest
      · rw [if_neg hfq] at hg2
        have hg3 : s.freep = some g := hg2
        have hgc : g ∈ cyc := hfrmem g hg3
        rcases (hmem_r g).mp hgc with he | hm
        · exact absurd (he ▸ hg3) hfq
        · exact hm

/-! ### mm_free decomposition and adjacency helpers -/

theorem mm_free_eq (s : MM) (bp : Nat)
    (hok : 0 < mm_size s bp ∧ mm_bytes s.hsize (mm_size s bp) ≤ mem_heapsize s)
    (hfr : s.freep ≠ none) :
    mm_free s (some (bp + 1)) =
      some (freeFinish (freeLower (freeUpper s bp) bp).1 (freeLower (freeUpper s bp) bp).2) := by
  have hbk : mm_block (bp + 1) = bp := rfl
  simp only [mm_free, hbk]
  rw [if_neg (not_not_intro hok), if_neg hfr]
  rfl

theorem chain_consec (h : List Cell) (bl xs ys : List Nat) (a c : Nat)
    (hc : chainOk h bl) (hdec : bl = xs ++ a :: c :: ys) :
    c = a + (hGet h a).size := by
  rw [hdec] at hc
  obtain ⟨k, _, h2⟩ := (chainSeg_append h xs (a :: c :: ys) 0 h.length).mp hc
  obtain ⟨_, _, h3⟩ := h2
  exact h3.1

theorem noAdjFree_tail (h : List Cell) (x : Nat) (l : List Nat)
    (hn : noAdjFree h (x :: l)) : noAdjFree h l := by
  cases l with
  | nil => trivial
  | cons y t => exact hn.2

theorem noAdjFree_pairs (h : List Cell) (bl : List Nat) (hn : noAdjFree h bl) :
    ∀ xs a c ys, bl = xs ++ a :: c :: ys → ¬(isFree h a ∧ isFree h c) := by
  induction bl with
  | nil =>
    intro xs a c ys hdec
    cases xs <;> cases hdec
  | cons x t ih =>
    intro xs a c ys hdec
    cases xs with
    | nil =>
      injection hdec with h1 h2
      subst h1
      subst h2
      exact hn.1
    | cons x2 xs2 =>
      injection hdec with h1 h2
      exact ih (noAdjFree_tail h x t hn) xs2 a c ys h2

theorem noAdjFree_of_pairs (h : List Cell) (bl : List Nat)
    (hp : ∀ xs a c ys, bl = xs ++ a :: c :: ys → ¬(isFree h a ∧ isFree h c)) :
    noAdjFree h bl := by
  induction bl with
  | nil => trivial
  | cons x t ih =>
    cases t with
    | nil => trivial
    | cons y t2 =>
      refine ⟨hp [] x y t2 rfl, ih ?_⟩
      intro xs a c ys hdec
      exact hp (x :: xs) a c ys (by rw [hdec]; rfl)

/-! ### Relink phase of mm_free -/

theorem freeFinish_spec (s4 : MM) (bl4 cyc4 : List Nat) (B : Nat)
    (hWF : WFd s4 bl4 cyc4) (hB : B ∈ bl4) (hBalloc : ¬ isFree s4.heap B)
    (hsucc : ∀ c ∈ bl4, c = B + mm_size s4 B → ¬ isFree s4.heap c)
    (hpred : ∀ c ∈ bl4, c + mm_size s4 c = B → ¬ isFree s4.heap c) :
    ∃ cyc',
      WFd (freeFinish s4 B) bl4 cyc' ∧
      (freeFinish s4 B).heap.length = s4.heap.length ∧
      (freeFinish s4 B).hsize = s4.hsize ∧
      (freeFinish s4 B).maxUnits = s4.maxUnits ∧
      (freeFinish s4 B).pagesize = s4.pagesize ∧
      (freeFinish s4 B).errno = s4.errno ∧
      (freeFinish s4 B).data = s4.data ∧
      (∀ j, mm_size (freeFinish s4 B) j = mm_size s4 j) ∧
      (∀ x ∈ bl4, x ≠ B → (isFree (freeFinish s4 B).heap x ↔ isFree s4.heap x)) ∧
      isFree (freeFinish s4 B).heap B ∧
      (∃ g, (freeFinish s4 B).freep = some g ∧ mm_next (freeFinish s4 B) g = some B) := by
  obtain ⟨hhs, hchain, hfoot, hnadj, hcyc, hcnd, hcsub, hdisc, hfrnone, hfrmem⟩ := hWF
  have hBnotc : B ∉ cyc4 := fun hm => hBalloc ((hdisc B hB).mpr hm)
  have hord : bl4.Pairwise (· < ·) := chainSeg_pairwise s4.heap bl4 0 s4.heap.length hchain
  cases hf : s4.freep with
  | none =>
    have hcnil : cyc4 = [] := hfrnone.mp hf
    obtain ⟨hLfr, hLlen, hLsz, hLhs, hLmu, hLpg, hLerr, hLdata, hLnext, hLprev, hLcyc⟩ :=
      mm_link_none_spec s4 bl4 B hchain hB
    set L := mm_link s4 B none with hLdef
    have hFeq : freeFinish s4 B = { L with freep := mm_prev L B } := by
      simp only [freeFinish, hf, hLdef]
    have hFheap : (freeFinish s4 B).heap = L.heap := by rw [hFeq]
    have hpB : mm_prev L B = some B := by
      rw [hLprev B hB, if_pos rfl]
    have hFfreep : (freeFinish s4 B).freep = some B := by rw [hFeq]; exact hpB
    have hFlen : (freeFinish s4 B).heap.length = s4.heap.length := by
      rw [hFheap]; exact hLlen
    have hFsz : ∀ j, mm_size (freeFinish s4 B) j = mm_size s4 j := by
      intro j
      show (hGet (freeFinish s4 B).heap j).size = _
      rw [hFheap]
      exact hLsz j
    have hFnext : ∀ c, mm_next (freeFinish s4 B) c = mm_next L c := by
      intro c
      show (hGet (freeFinish s4 B).heap c).ptr = _
      rw [hFheap]
      rfl
    have hFcase : ∀ c ∈ bl4, c ≠ B → mm_next (freeFinish s4 B) c = mm_next s4 c := by
      intro c hc hcB
      rw [hFnext c, hLnext c hc, if_neg hcB]
    have hstat : ∀ c ∈ bl4, c ≠ B → (isFree (freeFinish s4 B).heap c ↔ isFree s4.heap c) := by
      intro c hc hcB
      show (hGet (freeFinish s4 B).heap c).ptr ≠ none ↔ (hGet s4.heap c).ptr ≠ none
      rw [show (hGet (freeFinish s4 B).heap c).ptr = mm_next (freeFinish s4 B) c from rfl,
        hFcase c hc hcB]
      exact Iff.rfl
    have hBfree : isFree (freeFinish s4 B).heap B := by
      show (hGet (freeFinish s4 B).heap B).ptr ≠ none
      rw [show (hGet (freeFinish s4 B).heap B).ptr = mm_next (freeFinish s4 B) B from rfl,
        hFnext B, hLnext B hB, if_pos rfl]
      simp
    refine ⟨[B], ⟨?_, ?_, ?_, ?_, ?_, ?_, ?_, ?_, ?_, ?_⟩, hFlen, ?_, ?_, ?_, ?_, ?_,
      hFsz, hstat, hBfree, ⟨B, hFfreep, ?_⟩⟩
    · show 1 ≤ (freeFinish s4 B).hsize
      rw [hFeq]
      show 1 ≤ L.hsize
      rw [hLhs]
      exact hhs
    · show chainSeg (freeFinish s4 B).heap 0 bl4 (freeFinish s4 B).heap.length
      rw [hFlen]
      exact chainSeg_frame s4.heap (freeFinish s4 B).heap bl4 0 s4.heap.length
        (fun b _ => hFsz b) hchain
    · exact footOk_frame s4.heap (freeFinish s4 B).heap bl4 (fun j => hFsz j) hfoot
    · refine noAdjFree_of_free_unique (freeFinish s4 B).heap bl4 B hord ?_
      intro c hc hfr
      by_contra hcB
      have : isFree s4.heap c := (hstat c hc hcB).mp hfr
      have : c ∈ cyc4 := (hdisc c hc).mp this
      rw [hcnil] at this
      cases this
    · exact cycOk_heap_eq L (freeFinish s4 B) hFheap [B] hLcyc
    · simp
    · intro b hb
      rw [List.mem_singleton] at hb
      rw [hb]
      exact hB
    · intro c hc
      by_cases hcB : c = B
      · subst hcB
        constructor
        · intro _
          exact List.mem_singleton.mpr rfl
        · intro _
          exact hBfree
      · rw [hstat c hc hcB]
        constructor
        · intro hfr
          have hfc : c ∈ cyc4 := (hdisc c hc).mp hfr
          rw [hcnil] at hfc
          cases hfc
        · intro he
          exact absurd (List.mem_singleton.mp he) hcB
    · rw [hFfreep]
      constructor
      · intro h2
        cases h2
      · intro h2
        cases h2
    · intro g hg
      rw [hFfreep] at hg
      rw [List.mem_singleton]
      exact (Option.some.inj hg).symm
    · rw [hFeq]; exact hLhs
    · rw [hFeq]; exact hLmu
    · rw [hFeq]; exact hLpg
    · rw [hFeq]; exact hLerr
    · rw [hFeq]; exact hLdata
    · rw [hFnext B, hLnext B hB, if_pos rfl]
  | some f =>
    have hfcyc : f ∈ cyc4 := hfrmem f hf
    obtain ⟨cxs, cys, hcdec⟩ := List.append_of_mem hfcyc
    have hcyc_r : cycOk s4 (f :: cys ++ cxs) := by
      rw [hcdec] at hcyc
      exact cycOk_rotate s4 cxs f cys hcyc
    have hperm : cyc4.Perm (f :: cys ++ cxs) := by
      rw [hcdec]
      exact rotate_perm cxs f cys
    have hnd_r : (f :: cys ++ cxs).Nodup := hperm.nodup_iff.mp hcnd
    have hsub_r : ∀ c ∈ f :: cys ++ cxs, c ∈ bl4 := fun c hc => hcsub c (hperm.mem_iff.mpr hc)
    have hBnot_r : B ∉ f :: cys ++ cxs := fun hm => hBnotc (hperm.mem_iff.mpr hm)
    obtain ⟨hLfr, hLlen, hLsz, hLhs, hLmu, hLpg, hLerr, hLdata, hLnext, hLprev, hLcyc, hLnd⟩ :=
      mm_link_some_spec s4 bl4 B f (cys ++ cxs) hchain hcyc_r hnd_r hsub_r hB hBnot_r
    set L := mm_link s4 B (some f) with hLdef
    set g0 := lastD f (cys ++ cxs) with hg0def
    have hg0mem : g0 ∈ f :: cys ++ cxs := lastD_mem_cons f (cys ++ cxs)
    have hg0bl : g0 ∈ bl4 := hsub_r g0 hg0mem
    have hg0B : g0 ≠ B := fun he => hBnot_r (he ▸ hg0mem)
    have hFeq : freeFinish s4 B = { L with freep := mm_prev L B } := by
      simp only [freeFinish, hf, hLdef]
    have hFheap : (freeFinish s4 B).heap = L.heap := by rw [hFeq]
    have hpB : mm_prev L B = some g0 := by
      rw [hLprev B hB, if_pos rfl]
    have hFfreep : (freeFinish s4 B).freep = some g0 := by rw [hFeq]; exact hpB
    have hFlen : (freeFinish s4 B).heap.length = s4.heap.length := by
      rw [hFheap]; exact hLlen
    have hFsz : ∀ j, mm_size (freeFinish s4 B) j = mm_size s4 j := by
      intro j
      show (hGet (freeFinish s4 B).heap j).size = _
      rw [hFheap]
      exact hLsz j
    have hFnext : ∀ c, mm_next (freeFinish s4 B) c = mm_next L c := by
      intro c
      show (hGet (freeFinish s4 B).heap c).ptr = _
      rw [hFheap]
      rfl
    have hstat : ∀ c ∈ bl4, c ≠ B → (isFree (freeFinish s4 B).heap c ↔ isFree s4.heap c) := by
      intro c hc hcB
      show (hGet (freeFinish s4 B).heap c).ptr ≠ none ↔ (hGet s4.heap c).ptr ≠ none
      rw [show (hGet (freeFinish s4 B).heap c).ptr = mm_next (freeFinish s4 B) c from rfl,
        hFnext c, hLnext c hc, if_neg hcB]
      by_cases hcg : c = g0
      · rw [if_pos hcg]
        have hcfree : isFree s4.heap c := (hdisc c hc).mpr (hperm.mem_iff.mpr (hcg ▸ hg0mem))
        constructor
        · intro _
          exact hcfree
        · intro _
          simp
      · rw [if_neg hcg]
        exact Iff.rfl
    have hBfree : isFree (freeFinish s4 B).heap B := by
      show (hGet (freeFinish s4 B).heap B).ptr ≠ none
      rw [show (hGet (freeFinish s4 B).heap B).ptr = mm_next (freeFinish s4 B) B from rfl,
        hFnext B, hLnext B hB, if_pos rfl]
      simp
    refine ⟨B :: f :: cys ++ cxs, ⟨?_, ?_, ?_, ?_, ?_, ?_, ?_, ?_, ?_, ?_⟩, hFlen,
      ?_, ?_, ?_, ?_, ?_, hFsz, hstat, hBfree, ⟨g0, hFfreep, ?_⟩⟩
    · show 1 ≤ (freeFinish s4 B).hsize
      rw [hFeq]
      show 1 ≤ L.hsize
      rw [hLhs]
      exact hhs
    · show chainSeg (freeFinish s4 B).heap 0 bl4 (freeFinish s4 B).heap.length
      rw [hFlen]
      exact chainSeg_frame s4.heap (freeFinish s4 B).heap bl4 0 s4.heap.length
        (fun b _ => hFsz b) hchain
    · exact footOk_frame s4.heap (freeFinish s4 B).heap bl4 (fun j => hFsz j) hfoot
    · refine noAdjFree_of_pairs (freeFinish s4 B).heap bl4 ?_
      rintro xs a c ys hdec ⟨hfa, hfc⟩
      have ha_bl : a ∈ bl4 := by rw [hdec]; simp
      have hc_bl : c ∈ bl4 := by rw [hdec]; simp
      have hcv := chain_consec s4.heap bl4 xs ys a c hchain hdec
      have hsza := (chain_mem_facts s4 bl4 a hchain ha_bl).1
      have hane : a ≠ c := by
        have : (2 : Nat) ≤ (hGet s4.heap a).size := hsza
        omega
      by_cases haB : a = B
      · have hcB : c ≠ B := fun he => hane (haB.trans he.symm)
        have : ¬ isFree s4.heap c := hsucc c hc_bl (by rw [← haB]; exact hcv)
        exact this ((hstat c hc_bl hcB).mp hfc)
      · by_cases hcB : c = B
        · have : ¬ isFree s4.heap a := hpred a ha_bl (by rw [hcB] at hcv; exact hcv.symm)
          exact this ((hstat a ha_bl haB).mp hfa)
        · exact noAdjFree_pairs s4.heap bl4 hnadj xs a c ys hdec
            ⟨(hstat a ha_bl haB).mp hfa, (hstat c hc_bl hcB).mp hfc⟩
    · exact cycOk_heap_eq L (freeFinish s4 B) hFheap (B :: f :: cys ++ cxs) hLcyc
    · exact hLnd
    · intro b hb
      rcases List.mem_cons.mp hb with he | hm
      · rw [he]
        exact hB
      · exact hsub_r b hm
    · intro c hc
      by_cases hcB : c = B
      · subst hcB
        constructor
        · intro _
          exact List.mem_cons_self ..
        · intro _
          exact hBfree
      · rw [hstat c hc hcB, hdisc c hc, hperm.mem_iff]
        constructor
        · intro hm
          exact List.mem_cons_of_mem _ hm
        · intro hm
          rcases List.mem_cons.mp hm with he | hm2
          · exact absurd he hcB
          · exact hm2
    · rw [hFfreep]
      constructor
      · intro h2
        cases h2
      · intro h2
        cases h2
    · intro g hg
      rw [hFfreep] at hg
      have : g = g0 := (Option.some.inj hg).symm
      rw [this]
      exact List.mem_cons_of_mem _ hg0mem

    · rw [hFeq]; exact hLhs
    · rw [hFeq]; exact hLmu
    · rw [hFeq]; exact hLpg
    · rw [hFeq]; exact hLerr
    · rw [hFeq]; exact hLdata
    · rw [hFnext g0, hLnext g0 hg0bl, if_neg hg0B, if_pos rfl]
/-! ### Upper-coalesce phase of mm_free -/

theorem freeUpper_spec (s : MM) (bl cyc : List Nat) (bp : Nat)
    (hWF : WFd s bl cyc) (hbp : bp ∈ bl) (hbpalloc : ¬ isFree s.heap bp) :
    ∃ bl2 cyc2,
      WFd (freeUpper s bp) bl2 cyc2 ∧
      (freeUpper s bp).heap.length = s.heap.length ∧
      (freeUpper s bp).hsize = s.hsize ∧
      (freeUpper s bp).maxUnits = s.maxUnits ∧
      (freeUpper s bp).pagesize = s.pagesize ∧
      (freeUpper s bp).errno = s.errno ∧
      (freeUpper s bp).data = s.data ∧
      bp ∈ bl2 ∧
      (¬ isFree (freeUpper s bp).heap bp) ∧
      (∀ x ∈ bl2, x ∈ bl) ∧
      (∀ x ∈ bl, x ≠ bp → ¬ isFree s.heap x → x ∈ bl2) ∧
      (∀ x ∈ bl2, x ≠ bp → (isFree (freeUpper s bp).heap x ↔ isFree s.heap x)) ∧
      (∀ x ∈ bl2, x ≠ bp → mm_size (freeUpper s bp) x = mm_size s x) ∧
      mm_size s bp ≤ mm_size (freeUpper s bp) bp ∧
      (∀ c ∈ bl2, c = bp + mm_size (freeUpper s bp) bp →
        ¬ isFree (freeUpper s bp).heap c) := by
  have hchain := hWF.2.1
  have hnadj := hWF.2.2.2.1
  have hfacts := chain_mem_facts s bl bp hchain hbp
  by_cases hle : s.heap.length ≤ bp + mm_size s bp
  · have hup : freeUpper s bp = s := by
      simp only [freeUpper, mm_after, if_pos hle]
    rw [hup]
    refine ⟨bl, cyc, hWF, rfl, rfl, rfl, rfl, rfl, rfl, hbp, hbpalloc, fun x h => h,
      fun x h _ _ => h, fun x _ _ => Iff.rfl, fun x _ _ => rfl, Nat.le_refl _, ?_⟩
    intro c hc hceq
    have := chain_mem_lt_len s bl c hchain hc
    omega
  · have hafter : mm_after s bp = some (bp + mm_size s bp) := by
      simp only [mm_after, if_neg hle]
    by_cases hfree : (hGet s.heap (bp + mm_size s bp)).ptr ≠ none
    · have hup : freeUpper s bp = coalesceUp s bp (bp + mm_size s bp) := by
        simp only [freeUpper]
        rw [hafter]
        show (if (hGet s.heap (bp + mm_size s bp)).ptr ≠ none
          then coalesceUp s bp (bp + mm_size s bp) else s) = _
        rw [if_pos hfree]
      obtain ⟨xs, ys, hdec⟩ := chain_after_decomp s.heap bl bp hchain hbp
        (by have hms : mm_size s bp = (hGet s.heap bp).size := rfl; omega)
      have hpmem : bp + mm_size s bp ∈ bl := by
        rw [hdec]
        exact List.mem_append_right _ (List.mem_cons_of_mem _ (List.mem_cons_self ..))
      obtain ⟨bl', cyc', hWF', hlen', hhs', hmu', hpg', herr', hdata', hmembl, hmemcyc,
        hallocbp, hbpbl', hstat, hszbp, hszo⟩ :=
        coalesceUp_spec s bl cyc bp (bp + mm_size s bp) hWF hbp hbpalloc hpmem hfree rfl
      rw [hup]
      have hsznext := (chain_mem_facts s bl (bp + mm_size s bp) hchain hpmem).1
      refine ⟨bl', cyc', hWF', hlen', hhs', hmu', hpg', herr', hdata', hbpbl', hallocbp,
        fun x hx => ((hmembl x).mp hx).1, ?_, hstat, hszo, ?_, ?_⟩
      · intro x hx hxbp hxal
        refine (hmembl x).mpr ⟨hx, ?_⟩
        intro he
        exact hxal (he ▸ hfree)
      · rw [hszbp]
        exact Nat.le_add_right _ _
      · intro c hc hceq
        rw [hszbp] at hceq
        have hcbl : c ∈ bl := ((hmembl c).mp hc).1
        have hclen : c < s.heap.length := chain_mem_lt_len s bl c hchain hcbl
        have hE : c = bp + mm_size s bp + (hGet s.heap (bp + mm_size s bp)).size := by
          have h1 : mm_size s (bp + mm_size s bp)
              = (hGet s.heap (bp + mm_size s bp)).size := rfl
          omega
        have h1 : 2 ≤ mm_size s bp := hfacts.1
        have hcbp : c ≠ bp := by omega
        rw [hstat c hc hcbp]
        obtain ⟨xs2, ys2, hdec2⟩ :=
          chain_after_decomp s.heap bl (bp + mm_size s bp) hchain hpmem (by omega)
        have hnp := noAdjFree_pairs s.heap bl hnadj xs2 (bp + mm_size s bp)
          (bp + mm_size s bp + (hGet s.heap (bp + mm_size s bp)).size) ys2 hdec2
        intro hcf
        rw [hE] at hcf
        exact hnp ⟨hfree, hcf⟩
    · have hup : freeUpper s bp = s := by
        simp only [freeUpper]
        rw [hafter]
        show (if (hGet s.heap (bp + mm_size s bp)).ptr ≠ none
          then coalesceUp s bp (bp + mm_size s bp) else s) = _
        rw [if_neg hfree]
      rw [hup]
      refine ⟨bl, cyc, hWF, rfl, rfl, rfl, rfl, rfl, rfl, hbp, hbpalloc, fun x h => h,
        fun x h _ _ => h, fun x _ _ => Iff.rfl, fun x _ _ => rfl, Nat.le_refl _, ?_⟩
      intro c hc hceq
      intro hcf
      apply hfree
      rw [← hceq]
      exact hcf

/-! ### Lower-coalesce phase of mm_free -/

theorem freeLower_spec (s2 : MM) (bl2 cyc2 : List Nat) (bp : Nat)
    (hWF : WFd s2 bl2 cyc2) (hbp : bp ∈ bl2) (hbpalloc : ¬ isFree s2.heap bp) :
    ∃ bl4 cyc4,
      WFd (freeLower s2 bp).1 bl4 cyc4 ∧
      (freeLower s2 bp).1.heap.length = s2.heap.length ∧
      (freeLower s2 bp).1.hsize = s2.hsize ∧
      (freeLower s2 bp).1.maxUnits = s2.maxUnits ∧
      (freeLower s2 bp).1.pagesize = s2.pagesize ∧
      (freeLower s2 bp).1.errno = s2.errno ∧
      (freeLower s2 bp).1.data = s2.data ∧
      (freeLower s2 bp).2 ∈ bl4 ∧
      (¬ isFree (freeLower s2 bp).1.heap (freeLower s2 bp).2) ∧
      (freeLower s2 bp).2 ≤ bp ∧
      (freeLower s2 bp).2 + mm_size (freeLower s2 bp).1 (freeLower s2 bp).2
        = bp + mm_size s2 bp ∧
      (∀ x ∈ bl4, x ∈ bl2) ∧
      (∀ x ∈ bl2, x ≠ bp → ¬ isFree s2.heap x → x ∈ bl4) ∧
      (∀ x ∈ bl4, x ≠ (freeLower s2 bp).2 →
        (isFree (freeLower s2 bp).1.heap x ↔ isFree s2.heap x)) ∧
      (∀ x ∈ bl4, x ≠ (freeLower s2 bp).2 →
        mm_size (freeLower s2 bp).1 x = mm_size s2 x) ∧
      (∀ y ∈ bl4, y ≠ (freeLower s2 bp).2 → y ≠ bp) ∧
      (∀ y ∈ bl2, y ≠ bp → ¬ isFree s2.heap y → y ≠ (freeLower s2 bp).2) ∧
      (∀ c ∈ bl4, c + mm_size (freeLower s2 bp).1 c = (freeLower s2 bp).2 →
        ¬ isFree (freeLower s2 bp).1.heap c) := by
  have hchain := hWF.2.1
  have hfoot := hWF.2.2.1
  have hnadj := hWF.2.2.2.1
  by_cases h0 : bp = 0
  · have heq : freeLower s2 bp = (s2, bp) := by
      simp only [freeLower, mm_before, if_pos h0]
    rw [heq]
    refine ⟨bl2, cyc2, hWF, rfl, rfl, rfl, rfl, rfl, rfl, hbp, hbpalloc, Nat.le_refl _, rfl,
      fun x h => h, fun x h _ _ => h, fun x _ _ => Iff.rfl, fun x _ _ => rfl,
      fun y _ h => h, fun y _ hybp _ => hybp, ?_⟩
    intro c hc hceq
    have hceq2 : c + mm_size s2 c = bp := hceq
    have hsz := (chain_mem_facts s2 bl2 c hchain hc).1
    exact absurd hceq2 (by omega)
  · have hbef : mm_before s2 bp = some (mm_header s2 (bp - 1)) := by
      simp only [mm_before, if_neg h0]
    obtain ⟨xs, pb, ys, hdec, hpbsz⟩ :=
      chainSeg_before_decomp s2.heap bl2 0 s2.heap.length bp hchain hbp h0
    have hpbmem : pb ∈ bl2 := by
      rw [hdec]
      exact List.mem_append_right _ (List.mem_cons_self ..)
    have hpbfacts := chain_mem_facts s2 bl2 pb hchain hpbmem
    have hpbsz2 : 2 ≤ (hGet s2.heap pb).size := hpbfacts.1
    have hidx : bp - 1 = pb + (hGet s2.heap pb).size - 1 := by omega
    have hszf : (hGet s2.heap (bp - 1)).size = (hGet s2.heap pb).size := by
      rw [hidx]
      exact hfoot pb hpbmem
    have hid : mm_header s2 (bp - 1) = pb := by
      show (bp - 1) + 1 - (hGet s2.heap (bp - 1)).size = pb
      rw [hszf]
      omega
    by_cases hfree : (hGet s2.heap pb).ptr ≠ none
    · have heq : freeLower s2 bp = (coalesceLow s2 bp pb, pb) := by
        simp only [freeLower]
        rw [hbef, hid]
        show (if (hGet s2.heap pb).ptr ≠ none
          then (coalesceLow s2 bp pb, pb) else (s2, bp)) = _
        rw [if_pos hfree]
      have hadj : bp = pb + mm_size s2 pb := hpbsz.symm
      obtain ⟨bl', cyc', hWF', hlen', hhs', hmu', hpg', herr', hdata', hmembl, hmemcyc,
        hallocp, hpbl', hstat, hszp, hszo⟩ :=
        coalesceLow_spec s2 bl2 cyc2 bp pb hWF hbp hbpalloc hpbmem hfree hadj
      rw [heq]
      have hms2 : mm_size s2 pb = (hGet s2.heap pb).size := rfl
      refine ⟨bl', cyc', hWF', hlen', hhs', hmu', hpg', herr', hdata', hpbl', hallocp,
        by omega, by rw [hszp]; omega, fun x hx => ((hmembl x).mp hx).1, ?_, hstat, hszo,
        fun y hy _ => ((hmembl y).mp hy).2,
        fun y _ _ hyal he => hyal (by rw [he]; exact hfree), ?_⟩
      · intro x hx hxbp _
        exact (hmembl x).mpr ⟨hx, hxbp⟩
      · intro c hc hceq
        have hcbl2 : c ∈ bl2 := ((hmembl c).mp hc).1
        have hcbp : c ≠ bp := ((hmembl c).mp hc).2
        have hcpb : c ≠ pb := by
          intro he
          rw [he, hszp] at hceq
          have h1 : 2 ≤ mm_size s2 pb := hpbsz2
          omega
        have hsz4 : mm_size (coalesceLow s2 bp pb) c = mm_size s2 c := hszo c hc hcpb
        rw [hsz4] at hceq
        have hcfacts := chain_mem_facts s2 bl2 c hchain hcbl2
        have hpb0 : pb ≠ 0 := by omega
        obtain ⟨xs3, pb2, ys3, hdec3, hsz3⟩ :=
          chainSeg_before_decomp s2.heap bl2 0 s2.heap.length pb hchain hpbmem hpb0
        have hpb2mem : pb2 ∈ bl2 := by
          rw [hdec3]
          exact List.mem_append_right _ (List.mem_cons_self ..)
        have hcpb2 : c = pb2 := by
          by_contra hne
          refine footer_inj_ne s2 bl2 c pb2 hchain hcbl2 hpb2mem hne ?_
          show c + mm_size s2 c - 1 = pb2 + mm_size s2 pb2 - 1
          have h1 : mm_size s2 c = (hGet s2.heap c).size := rfl
          have h2 : mm_size s2 pb2 = (hGet s2.heap pb2).size := rfl
          omega
        have hnp := noAdjFree_pairs s2.heap bl2 hnadj xs3 pb2 pb ys3 hdec3
        intro hcf
        have hcf2 : isFree s2.heap c := (hstat c hc hcpb).mp hcf
        rw [hcpb2] at hcf2
        exact hnp ⟨hcf2, hfree⟩
    · have heq : freeLower s2 bp = (s2, bp) := by
        simp only [freeLower]
        rw [hbef, hid]
        show (if (hGet s2.heap pb).ptr ≠ none
          then (coalesceLow s2 bp pb, pb) else (s2, bp)) = _
        rw [if_neg hfree]
      rw [heq]
      refine ⟨bl2, cyc2, hWF, rfl, rfl, rfl, rfl, rfl, rfl, hbp, hbpalloc, Nat.le_refl _,
        rfl, fun x h => h, fun x h _ _ => h, fun x _ _ => Iff.rfl, fun x _ _ => rfl,
        fun y _ h => h, fun y _ hybp _ => hybp, ?_⟩
      intro c hc hceq
      have hceq2 : c + mm_size s2 c = bp := hceq
      have hcpb : c = pb := by
        by_contra hne
        refine footer_inj_ne s2 bl2 c pb hchain hc hpbmem hne ?_
        show c + mm_size s2 c - 1 = pb + mm_size s2 pb - 1
        have h1 : mm_size s2 c = (hGet s2.heap c).size := rfl
        have h2 : mm_size s2 pb = (hGet s2.heap pb).size := rfl
        have hcfacts := chain_mem_facts s2 bl2 c hchain hc
        omega
      rw [hcpb]
      exact hfree

/-! ### mm_free: full specification -/

theorem mm_free_spec (s : MM) (bl cyc : List Nat) (bp : Nat)
    (hWF : WFd s bl cyc) (hbp : bp ∈ bl) (hbpalloc : ¬ isFree s.heap bp) :
    ∃ s' bl' cyc',
      mm_free s (some (bp + 1)) = some s' ∧
      WFd s' bl' cyc' ∧
      s'.heap.length = s.heap.length ∧
      s'.hsize = s.hsize ∧
      s'.maxUnits = s.maxUnits ∧
      s'.pagesize = s.pagesize ∧
      s'.errno = s.errno ∧
      s'.data = s.data ∧
      (∀ x ∈ bl, x ≠ bp → ¬ isFree s.heap x →
        x ∈ bl' ∧ ¬ isFree s'.heap x ∧ mm_size s' x = mm_size s x) ∧
      (∀ y ∈ bl', ¬ isFree s'.heap y → y ∈ bl ∧ ¬ isFree s.heap y ∧ y ≠ bp) ∧
      (∃ g B, s'.freep = some g ∧ mm_next s' g = some B ∧ B ∈ bl' ∧ isFree s'.heap B ∧
        B ≤ bp ∧ bp + mm_size s bp ≤ B + mm_size s' B) := by
  have hchain := hWF.2.1
  have hfacts := chain_mem_facts s bl bp hchain hbp
  have hok : 0 < mm_size s bp ∧ mm_bytes s.hsize (mm_size s bp) ≤ mem_heapsize s := by
    constructor
    · omega
    · show mm_size s bp * s.hsize ≤ s.heap.length * s.hsize
      exact Nat.mul_le_mul_right _ (by omega)
  have heval : mm_free s (some (bp + 1)) =
      some (freeFinish (freeLower (freeUpper s bp) bp).1
        (freeLower (freeUpper s bp) bp).2) := by
    cases hf : s.freep with
    | some f => exact mm_free_eq s bp hok (by rw [hf]; simp)
    | none =>
      obtain ⟨hhs, hchain2, hfoot, hnadj, hcyc, hcnd, hcsub, hdisc, hfrnone, hfrmem⟩ := hWF
      have hcnil : cyc = [] := hfrnone.mp hf
      have hnofree : ∀ c ∈ bl, ¬ isFree s.heap c := by
        intro c hc hcf
        have hm := (hdisc c hc).mp hcf
        rw [hcnil] at hm
        cases hm
      have hU : freeUpper s bp = s := by
        by_cases hle : s.heap.length ≤ bp + mm_size s bp
        · simp only [freeUpper, mm_after, if_pos hle]
        · have hafter : mm_after s bp = some (bp + mm_size s bp) := by
            simp only [mm_after, if_neg hle]
          obtain ⟨xs, ys, hdec⟩ := chain_after_decomp s.heap bl bp hchain hbp
            (by have hms : mm_size s bp = (hGet s.heap bp).size := rfl; omega)
          have hpmem : bp + mm_size s bp ∈ bl := by
            rw [hdec]
            exact List.mem_append_right _ (List.mem_cons_of_mem _ (List.mem_cons_self ..))
          simp only [freeUpper]
          rw [hafter]
          show (if (hGet s.heap (bp + mm_size s bp)).ptr ≠ none
            then coalesceUp s bp (bp + mm_size s bp) else s) = s
          rw [if_neg (show ¬ (hGet s.heap (bp + mm_size s bp)).ptr ≠ none
            from hnofree _ hpmem)]
      have hL : freeLower s bp = (s, bp) := by
        by_cases h0 : bp = 0
        · simp only [freeLower, mm_before, if_pos h0]
        · have hbef : mm_before s bp = some (mm_header s (bp - 1)) := by
            simp only [mm_before, if_neg h0]
          obtain ⟨xs, pb, ys, hdec, hpbsz⟩ :=
            chainSeg_before_decomp s.heap bl 0 s.heap.length bp hchain hbp h0
          have hpbmem : pb ∈ bl := by
            rw [hdec]
            exact List.mem_append_right _ (List.mem_cons_self ..)
          have hpbsz2 : 2 ≤ (hGet s.heap pb).size :=
            (chain_mem_facts s bl pb hchain hpbmem).1
          have hidx : bp - 1 = pb + (hGet s.heap pb).size - 1 := by omega
          have hszf : (hGet s.heap (bp - 1)).size = (hGet s.heap pb).size := by
            rw [hidx]
            exact hfoot pb hpbmem
          have hid : mm_header s (bp - 1) = pb := by
            show (bp - 1) + 1 - (hGet s.heap (bp - 1)).size = pb
            rw [hszf]
            omega
          simp only [freeLower]
          rw [hbef, hid]
          show (if (hGet s.heap pb).ptr ≠ none
            then (coalesceLow s bp pb, pb) else (s, bp)) = (s, bp)
          rw [if_neg (show ¬ (hGet s.heap pb).ptr ≠ none from hnofree pb hpbmem)]
      rw [hU, hL]
      obtain ⟨hLfr, _, _, _, _, _, _, _, _, hLprev, _⟩ :=
        mm_link_none_spec s bl bp hchain2 hbp
      have hpB : mm_prev (mm_link s bp none) bp = some bp := by
        rw [hLprev bp hbp, if_pos rfl]
      have hbk : mm_block (bp + 1) = bp := rfl
      have hev0 : mm_free s (some (bp + 1)) = some (mm_link s bp none) := by
        simp only [mm_free, hbk]
        rw [if_neg (not_not_intro hok), if_pos hf]
        rfl
      rw [hev0]
      have hFL : freeFinish s bp = mm_link s bp none := by
        simp only [freeFinish]
        rw [hf, hpB, ← hLfr]
      rw [hFL]
  obtain ⟨bl2, cyc2, hWF2, hlen2, hhs2, hmu2, hpg2, herr2, hdata2, hbp2, halloc2, hsub2,
    hkeep2, hstat2, hsz2, hszge2, hsucc2⟩ := freeUpper_spec s bl cyc bp hWF hbp hbpalloc
  obtain ⟨bl4, cyc4, hWF4, hlen4, hhs4, hmu4, hpg4, herr4, hdata4, hB4, halloc4, hBle4,
    hBsz4, hsub4, hkeep4, hstat4, hsz4, hyne4, hnotB4, hpred4⟩ :=
    freeLower_spec (freeUpper s bp) bl2 cyc2 bp hWF2 hbp2 halloc2
  have hsuccT : ∀ c ∈ bl4, c = (freeLower (freeUpper s bp) bp).2
      + mm_size (freeLower (freeUpper s bp) bp).1 (freeLower (freeUpper s bp) bp).2 →
      ¬ isFree (freeLower (freeUpper s bp) bp).1.heap c := by
    intro c hc hceq
    rw [hBsz4] at hceq
    have hcB : c ≠ (freeLower (freeUpper s bp) bp).2 := by
      intro he
      have h1 : 2 ≤ mm_size (freeUpper s bp) bp :=
        (chain_mem_facts (freeUpper s bp) bl2 bp hWF2.2.1 hbp2).1
      omega
    rw [hstat4 c hc hcB]
    exact hsucc2 c (hsub4 c hc) hceq
  obtain ⟨cyc', hWF', hlenF, hhsF, hmuF, hpgF, herrF, hdataF, hszF, hstatF, hBfreeF,
    g, hgF, hgnextF⟩ :=
    freeFinish_spec (freeLower (freeUpper s bp) bp).1 bl4 cyc4
      (freeLower (freeUpper s bp) bp).2 hWF4 hB4 halloc4 hsuccT hpred4
  refine ⟨_, bl4, cyc', heval, hWF', hlenF.trans (hlen4.trans hlen2),
    hhsF.trans (hhs4.trans hhs2), hmuF.trans (hmu4.trans hmu2),
    hpgF.trans (hpg4.trans hpg2), herrF.trans (herr4.trans herr2),
    hdataF.trans (hdata4.trans hdata2), ?_, ?_,
    ⟨g, (freeLower (freeUpper s bp) bp).2, hgF, hgnextF, hB4, hBfreeF, hBle4, ?_⟩⟩
  · intro x hx hxbp hxal
    have hx2 : x ∈ bl2 := hkeep2 x hx hxbp hxal
    have hal2 : ¬ isFree (freeUpper s bp).heap x := fun h2 => hxal ((hstat2 x hx2 hxbp).mp h2)
    have hx4 : x ∈ bl4 := hkeep4 x hx2 hxbp hal2
    have hxB : x ≠ (freeLower (freeUpper s bp) bp).2 := hnotB4 x hx2 hxbp hal2
    have hal4 : ¬ isFree (freeLower (freeUpper s bp) bp).1.heap x :=
      fun h4 => hal2 ((hstat4 x hx4 hxB).mp h4)
    refine ⟨hx4, fun hF => hal4 ((hstatF x hx4 hxB).mp hF), ?_⟩
    rw [hszF x, hsz4 x hx4 hxB, hsz2 x hx2 hxbp]
  · intro y hy hyF
    have hyB : y ≠ (freeLower (freeUpper s bp) bp).2 := by
      intro he
      apply hyF
      rw [he]
      exact hBfreeF
    have hal4 : ¬ isFree (freeLower (freeUpper s bp) bp).1.heap y :=
      fun h4 => hyF ((hstatF y hy hyB).mpr h4)
    have hybp : y ≠ bp := hyne4 y hy hyB
    have hy2 : y ∈ bl2 := hsub4 y hy
    have hal2 : ¬ isFree (freeUpper s bp).heap y :=
      fun h2 => hal4 ((hstat4 y hy hyB).mpr h2)
    have hals : ¬ isFree s.heap y := fun hs2 => hal2 ((hstat2 y hy2 hybp).mpr hs2)
    exact ⟨hsub2 y hy2, hals, hybp⟩
  · rw [hszF]
    rw [hBsz4]
    exact Nat.add_le_add_left hszge2 bp

/-! ### morecore -/

theorem noAdjFree_snoc (h h2 : List Cell) (bl : List Nat) (b : Nat)
    (hn : noAdjFree h bl)
    (hb : ¬ isFree h2 b)
    (hst : ∀ c ∈ bl, isFree h2 c ↔ isFree h c) :
    noAdjFree h2 (bl ++ [b]) := by
  induction bl with
  | nil => trivial
  | cons x t ih =>
    cases t with
    | nil => exact ⟨fun hpair => hb hpair.2, trivial⟩
    | cons y t2 =>
      refine ⟨?_, ih (noAdjFree_tail h x (y :: t2) hn)
        (fun c hc => hst c (List.mem_cons_of_mem _ hc))⟩
      rintro ⟨hx, hy⟩
      exact hn.1 ⟨(hst x (by simp)).mp hx, (hst y (by simp)).mp hy⟩

theorem arcs_src_dst (cyc : List Nat) (pr : Nat × Nat) (hpr : pr ∈ arcs cyc) :
    pr.1 ∈ cyc ∧ pr.2 ∈ cyc := by
  cases cyc with
  | nil => cases hpr
  | cons c0 rest =>
    constructor
    · exact arcsFrom_src_mem c0 rest c0 pr hpr
    · rcases arcsFrom_dst_mem c0 rest c0 pr hpr with hm | he
      · exact List.mem_cons_of_mem _ hm
      · rw [he]
        exact List.mem_cons_self ..

theorem morecore_fail (s : MM) (nu0 : Nat)
    (hfail : s.maxUnits < s.heap.length
      + (if nu0 < s.pagesize / s.hsize then s.pagesize / s.hsize else nu0)) :
    morecore s nu0 = some (s, none) := by
  simp only [morecore]
  rw [if_pos hfail]

theorem morecore_success (s : MM) (bl cyc : List Nat) (nu0 nu : Nat)
    (hWF : WFd s bl cyc) (hnu0 : 2 ≤ nu0)
    (hnud : (if nu0 < s.pagesize / s.hsize then s.pagesize / s.hsize else nu0) = nu)
    (hgrow : s.heap.length + nu ≤ s.maxUnits) :
    ∃ s3 bl3 cyc3,
      morecore s nu0 = some (s3, s3.freep) ∧
      WFd s3 bl3 cyc3 ∧
      s3.heap.length = s.heap.length + nu ∧
      s3.hsize = s.hsize ∧
      s3.maxUnits = s.maxUnits ∧
      s3.pagesize = s.pagesize ∧
      s3.errno = s.errno ∧
      s3.data = s.data ∧
      (∀ x ∈ bl, ¬ isFree s.heap x →
        x ∈ bl3 ∧ ¬ isFree s3.heap x ∧ mm_size s3 x = mm_size s x) ∧
      (∀ y ∈ bl3, ¬ isFree s3.heap y → y ∈ bl ∧ ¬ isFree s.heap y) ∧
      (∃ g B, s3.freep = some g ∧ mm_next s3 g = some B ∧ B ∈ bl3 ∧ isFree s3.heap B ∧
        nu0 ≤ mm_size s3 B) := by
  have hnule : nu0 ≤ nu := by
    rw [← hnud]
    split
    · omega
    · exact Nat.le_refl _
  have hnu2 : 2 ≤ nu := by omega
  obtain ⟨hhs, hchain, hfoot, hnadj, hcyc, hcnd, hcsub, hdisc, hfrnone, hfrmem⟩ := hWF
  have hmem_lt : ∀ c ∈ bl, c < s.heap.length := fun c hc => chain_mem_lt_len s bl c hchain hc
  set sE := ({ s with heap := s.heap ++ List.replicate nu (⟨none, 0⟩ : Cell) } : MM)
    with hsEdef
  set s2 := mm_setSize sE s.heap.length nu with hs2def
  have hsE_heap : sE.heap = s.heap ++ List.replicate nu ⟨none, 0⟩ := by rw [hsEdef]
  have hsElen : sE.heap.length = s.heap.length + nu := by
    rw [hsE_heap]
    simp
  have hs2heap : s2.heap = setSizeList sE.heap s.heap.length nu := by
    rw [hs2def]
    rfl
  have hs2len : s2.heap.length = s.heap.length + nu := by
    rw [hs2heap, setSizeList_len, hsElen]
  have hb_lt : s.heap.length < sE.heap.length := by omega
  have hptP : ∀ j, j < s.heap.length → (hGet s2.heap j).ptr = (hGet s.heap j).ptr := by
    intro j hj
    rw [hs2heap, setSizeList_get_ptr, hsE_heap, hGet_append, if_pos hj]
  have hptS : ∀ j, j < s.heap.length → (hGet s2.heap j).size = (hGet s.heap j).size := by
    intro j hj
    rw [hs2heap, setSizeList_get_size sE.heap s.heap.length nu hb_lt j,
      if_neg (by rw [hsElen]; omega), hsE_heap, hGet_append, if_pos hj]
  have hnewP : (hGet s2.heap s.heap.length).ptr = none := by
    rw [hs2heap, setSizeList_get_ptr, hsE_heap, hGet_append, if_neg (by omega),
      hGet_replicate, if_pos (by omega)]
  have hnewS : (hGet s2.heap s.heap.length).size = nu := by
    rw [hs2heap, setSizeList_get_size sE.heap s.heap.length nu hb_lt,
      if_pos (Or.inl rfl)]
  have hfootS : (hGet s2.heap (s.heap.length + nu - 1)).size = nu := by
    rw [hs2heap, setSizeList_get_size sE.heap s.heap.length nu hb_lt,
      if_pos (Or.inr ⟨rfl, by rw [hsElen]; omega⟩)]
  have hnotfree2 : ¬ isFree s2.heap s.heap.length := fun hf => hf hnewP
  have hWF2 : WFd s2 (bl ++ [s.heap.length]) cyc := by
    refine ⟨hhs, ?_, ?_, ?_, ?_, hcnd, ?_, ?_, hfrnone, hfrmem⟩
    · show chainSeg s2.heap 0 (bl ++ [s.heap.length]) s2.heap.length
      rw [hs2len]
      refine (chainSeg_append s2.heap bl [s.heap.length] 0 _).mpr ⟨s.heap.length, ?_, ?_⟩
      · exact chainSeg_frame s.heap s2.heap bl 0 s.heap.length
          (fun c hc => hptS c (hmem_lt c hc)) hchain
      · refine ⟨rfl, ?_, ?_⟩
        · rw [hnewS]
          exact hnu2
        · show s.heap.length + nu = s.heap.length + (hGet s2.heap s.heap.length).size
          rw [hnewS]
    · intro c hc
      rcases List.mem_append.mp hc with hcb | hcb
      · have hcl := hmem_lt c hcb
        have hfl : c + (hGet s.heap c).size - 1 < s.heap.length :=
          footer_lt_len s bl c hchain hcb
        show (hGet s2.heap (c + (hGet s2.heap c).size - 1)).size = (hGet s2.heap c).size
        rw [hptS c hcl, hptS _ hfl, hfoot c hcb]
      · rw [List.mem_singleton.mp hcb]
        show (hGet s2.heap (s.heap.length + (hGet s2.heap s.heap.length).size - 1)).size
          = (hGet s2.heap s.heap.length).size
        rw [hnewS]
        exact hfootS
    · exact noAdjFree_snoc s.heap s2.heap bl s.heap.length hnadj hnotfree2
        (fun c hc => by
          show (hGet s2.heap c).ptr ≠ none ↔ (hGet s.heap c).ptr ≠ none
          rw [hptP c (hmem_lt c hc)])
    · intro pr hpr
      obtain ⟨hsrc, hdst⟩ := arcs_src_dst cyc pr hpr
      have hv := hcyc pr hpr
      constructor
      · show (hGet s2.heap pr.1).ptr = some pr.2
        rw [hptP pr.1 (hmem_lt pr.1 (hcsub pr.1 hsrc))]
        exact hv.1
      · show (hGet s2.heap (pr.2 + (hGet s2.heap pr.2).size - 1)).ptr = some pr.1
        have hd_bl := hcsub pr.2 hdst
        rw [hptS pr.2 (hmem_lt pr.2 hd_bl),
          hptP (pr.2 + (hGet s.heap pr.2).size - 1) (footer_lt_len s bl pr.2 hchain hd_bl)]
        exact hv.2
    · exact fun c hc => List.mem_append_left _ (hcsub c hc)
    · intro c hc
      rcases List.mem_append.mp hc with hcb | hcb
      · show (hGet s2.heap c).ptr ≠ none ↔ c ∈ cyc
        rw [hptP c (hmem_lt c hcb)]
        exact hdisc c hcb
      · rw [List.mem_singleton.mp hcb]
        constructor
        · intro hf
          exact absurd hf hnotfree2
        · intro hm
          have := hmem_lt _ (hcsub _ hm)
          omega
  obtain ⟨s3, bl3, cyc3, hfeq, hWF3, hlen3, hhs3, hmu3, hpg3, herr3, hdata3, hkeep3,
    hconv3, g, B, hg, hgnext, hBmem, hBfree, hBle, hBsz⟩ :=
    mm_free_spec s2 (bl ++ [s.heap.length]) cyc s.heap.length hWF2
      (List.mem_append_right _ (List.mem_cons_self ..)) hnotfree2
  have heval : morecore s nu0 = some (s3, s3.freep) := by
    simp only [morecore]
    rw [hnud, if_neg (by omega), ← hsEdef, ← hs2def,
      show mm_free s2 (some (mm_payload s.heap.length)) = some s3 from hfeq]
  refine ⟨s3, bl3, cyc3, heval, hWF3, hlen3.trans hs2len,
    hhs3.trans (rfl : s2.hsize = s.hsize), hmu3.trans (rfl : s2.maxUnits = s.maxUnits),
    hpg3.trans (rfl : s2.pagesize = s.pagesize), herr3.trans (rfl : s2.errno = s.errno),
    hdata3.trans (rfl : s2.data = s.data), ?_, ?_,
    ⟨g, B, hg, hgnext, hBmem, hBfree, ?_⟩⟩
  · intro x hx hxal
    have hxlt := hmem_lt x hx
    have hxal2 : ¬ isFree s2.heap x := fun h2 => hxal (by
      show (hGet s.heap x).ptr ≠ none
      rw [← hptP x hxlt]
      exact h2)
    have hxne : x ≠ s.heap.length := by omega
    obtain ⟨hm, hal, hsz⟩ := hkeep3 x (List.mem_append_left _ hx) hxne hxal2
    refine ⟨hm, hal, ?_⟩
    rw [hsz]
    show (hGet s2.heap x).size = (hGet s.heap x).size
    exact hptS x hxlt
  · intro y hy hyal
    obtain ⟨hybl2, hyal2, hyne⟩ := hconv3 y hy hyal
    rcases List.mem_append.mp hybl2 with hyb | hyb
    · refine ⟨hyb, fun hf => hyal2 ?_⟩
      show (hGet s2.heap y).ptr ≠ none
      rw [hptP y (hmem_lt y hyb)]
      exact hf
    · exact absurd (List.mem_singleton.mp hyb) hyne
  · have h1 : mm_size s2 s.heap.length = nu := hnewS
    omega

/-! ### mm_malloc building blocks -/

theorem chainSeg_split (h h2 : List Cell) (xs ys : List Nat) (i j b b2 : Nat)
    (hc : chainSeg h i (xs ++ b :: ys) j)
    (hb2 : b2 = b + (hGet h2 b).size)
    (hszb : (hGet h2 b).size + (hGet h2 b2).size = (hGet h b).size)
    (h2b : 2 ≤ (hGet h2 b).size) (h2b2 : 2 ≤ (hGet h2 b2).size)
    (hszo : ∀ c ∈ xs ++ b :: ys, c ≠ b → (hGet h2 c).size = (hGet h c).size) :
    chainSeg h2 i (xs ++ b :: b2 :: ys) j := by
  induction xs generalizing i with
  | nil =>
    obtain ⟨hbi, hsz, hrest⟩ := hc
    have hys : ∀ c ∈ ys, c ≠ b → (hGet h2 c).size = (hGet h c).size := by
      intro c hcm hcb
      exact hszo c (List.mem_cons_of_mem _ hcm) hcb
    have hysb : ∀ c ∈ ys, c ≠ b := by
      intro c hcm
      have hle := chainSeg_le h ys (b + (hGet h b).size) j hrest
      have hmem := chainSeg_mem h ys (b + (hGet h b).size) j c hrest hcm
      omega
    refine ⟨hbi, h2b, hb2, h2b2, ?_⟩
    have hidx : b2 + (hGet h2 b2).size = b + (hGet h b).size := by omega
    rw [hidx]
    exact chainSeg_frame h h2 ys (b + (hGet h b).size) j
      (fun c hcm => hys c hcm (hysb c hcm)) hrest
  | cons x xs2 ih =>
    obtain ⟨hxi, hsz, hrest⟩ := hc
    refine ⟨hxi, ?_, ?_⟩
    · rw [hszo x (by simp) ?_]
      · exact hsz
      · intro he
        have hmem := chainSeg_mem h (xs2 ++ b :: ys) (x + (hGet h x).size) j b hrest
          (List.mem_append_right _ (List.mem_cons_self ..))
        omega
    · have hx2 : (hGet h2 x).size = (hGet h x).size := by
        refine hszo x (by simp) ?_
        intro he
        have hmem := chainSeg_mem h (xs2 ++ b :: ys) (x + (hGet h x).size) j b hrest
          (List.mem_append_right _ (List.mem_cons_self ..))
        omega
      rw [hx2]
      exact ih _ hrest (fun c hcm hcb => hszo c (List.mem_cons_of_mem _ hcm) hcb)

theorem unlinkFree_spec (s : MM) (bl cyc : List Nat) (p : Nat)
    (hWF : WFd s bl cyc) (hp : p ∈ cyc) :
    ∃ cyc',
      WFd (mm_unlink (if s.freep = some p then { s with freep := mm_prev s p } else s) p)
        bl cyc' ∧
      (mm_unlink (if s.freep = some p then { s with freep := mm_prev s p } else s)
        p).heap.length = s.heap.length ∧
      (∀ j, mm_size (mm_unlink
        (if s.freep = some p then { s with freep := mm_prev s p } else s) p) j
        = mm_size s j) ∧
      (mm_unlink (if s.freep = some p then { s with freep := mm_prev s p } else s)
        p).hsize = s.hsize ∧
      (mm_unlink (if s.freep = some p then { s with freep := mm_prev s p } else s)
        p).maxUnits = s.maxUnits ∧
      (mm_unlink (if s.freep = some p then { s with freep := mm_prev s p } else s)
        p).pagesize = s.pagesize ∧
      (mm_unlink (if s.freep = some p then { s with freep := mm_prev s p } else s)
        p).errno = s.errno ∧
      (mm_unlink (if s.freep = some p then { s with freep := mm_prev s p } else s)
        p).data = s.data ∧
      (∀ x, x ∈ cyc' ↔ (x ∈ cyc ∧ x ≠ p)) ∧
      (∀ c ∈ bl, c ≠ p → (isFree (mm_unlink
        (if s.freep = some p then { s with freep := mm_prev s p } else s) p).heap c
        ↔ isFree s.heap c)) ∧
      ¬ isFree (mm_unlink
        (if s.freep = some p then { s with freep := mm_prev s p } else s) p).heap p := by
  obtain ⟨hhs, hchain, hfoot, hnadj, hcyc, hcnd, hcsub, hdisc, hfrnone, hfrmem⟩ := hWF
  obtain ⟨cxs, cys, hcdec⟩ := List.append_of_mem hp
  have hcyc_r : cycOk s (p :: cys ++ cxs) := by
    rw [hcdec] at hcyc
    exact cycOk_rotate s cxs p cys hcyc
  have hperm : cyc.Perm (p :: cys ++ cxs) := by
    rw [hcdec]
    exact rotate_perm cxs p cys
  have hnd_r : (p :: cys ++ cxs).Nodup := hperm.nodup_iff.mp hcnd
  have hpnotin : p ∉ cys ++ cxs := (List.nodup_cons.mp hnd_r).1
  have hsub_r : ∀ b ∈ p :: cys ++ cxs, b ∈ bl := fun b hb => hcsub b (hperm.mem_iff.mpr hb)
  set sa := if s.freep = some p then { s with freep := mm_prev s p } else s with hsadef
  have hsaheap : sa.heap = s.heap := by
    rw [hsadef]
    split <;> rfl
  have hchain_sa : chainOk sa.heap bl := by rw [hsaheap]; exact hchain
  have hcyc_sa : cycOk sa (p :: cys ++ cxs) := cycOk_heap_eq s sa hsaheap _ hcyc_r
  obtain ⟨hfr_sb, hlen_sb, hsz_sb, hhs_sb, hmu_sb, hpg_sb, herr_sb, hdata_sb,
    hnextv_sb, hprevv_sb, hcyc_sb⟩ :=
    mm_unlink_spec sa bl p (cys ++ cxs) hchain_sa hcyc_sa hnd_r hsub_r
  set s2 := mm_unlink sa p with hs2def
  have hsz2 : ∀ j, mm_size s2 j = mm_size s j := by
    intro j
    rw [hsz_sb j]
    show (hGet sa.heap j).size = (hGet s.heap j).size
    rw [hsaheap]
  have hlen2 : s2.heap.length = s.heap.length := by rw [hlen_sb, hsaheap]
  have hsa_hsize : sa.hsize = s.hsize := by rw [hsadef]; split <;> rfl
  have hsa_maxUnits : sa.maxUnits = s.maxUnits := by rw [hsadef]; split <;> rfl
  have hsa_pagesize : sa.pagesize = s.pagesize := by rw [hsadef]; split <;> rfl
  have hsa_errno : sa.errno = s.errno := by rw [hsadef]; split <;> rfl
  have hsa_data : sa.data = s.data := by rw [hsadef]; split <;> rfl
  have hnext_sa : ∀ j, mm_next sa j = mm_next s j := by
    intro j
    show (hGet sa.heap j).ptr = (hGet s.heap j).ptr
    rw [hsaheap]
  have hpalloc : ¬ isFree s2.heap p := by
    intro hf
    have := hnextv_sb p (hsub_r p (List.mem_cons_self ..))
    rw [if_pos rfl] at this
    exact hf this
  have hstatus : ∀ c ∈ bl, c ≠ p → (isFree s2.heap c ↔ isFree s.heap c) := by
    intro c hc hcp
    have hv := hnextv_sb c hc
    rw [if_neg hcp] at hv
    show (hGet s2.heap c).ptr ≠ none ↔ (hGet s.heap c).ptr ≠ none
    rw [show (hGet s2.heap c).ptr = mm_next s2 c from rfl, hv]
    by_cases hxl : c = lastD p (cys ++ cxs)
    · rw [if_pos hxl]
      cases hrest : cys ++ cxs with
      | nil =>
        rw [hrest] at hxl
        exact absurd hxl hcp
      | cons c0 crest =>
        have hlmem : lastD p (cys ++ cxs) ∈ cyc := by
          refine hperm.mem_iff.mpr (List.mem_cons_of_mem _ ?_)
          have hfin : lastD p (cys ++ cxs) ∈ cys ++ cxs := by
            rw [hrest]
            exact lastD_mem_cons c0 crest
          exact hfin
        have hcfree : isFree s.heap c := (hdisc c hc).mpr (hxl ▸ hlmem)
        constructor
        · intro _
          exact hcfree
        · intro _
          simp
    · rw [if_neg hxl, hnext_sa c]
      exact Iff.rfl
  have hmem_r : ∀ x, x ∈ cys ++ cxs ↔ (x ∈ cyc ∧ x ≠ p) := by
    intro x
    constructor
    · intro hm
      exact ⟨hperm.mem_iff.mpr (List.mem_cons_of_mem _ hm),
        fun he => hpnotin (he ▸ hm)⟩
    · rintro ⟨hm, hne⟩
      rcases List.mem_cons.mp (hperm.mem_iff.mp hm) with he | hm2
      · exact absurd he hne
      · exact hm2
  refine ⟨cys ++ cxs, ⟨?_, ?_, ?_, ?_, hcyc_sb, (List.nodup_cons.mp hnd_r).2, ?_, ?_,
    ?_, ?_⟩, hlen2, hsz2, ?_, ?_, ?_, ?_, ?_, hmem_r, hstatus, hpalloc⟩
  · show 1 ≤ s2.hsize
    rw [hs2def, hhs_sb, hsa_hsize]
    exact hhs
  · show chainSeg s2.heap 0 bl s2.heap.length
    rw [hlen2]
    exact chainSeg_frame s.heap s2.heap bl 0 s.heap.length
      (fun c _ => hsz2 c) hchain
  · refine footOk_frame s.heap s2.heap bl (fun j => hsz2 j) ?_
    exact hfoot
  · refine noAdjFree_of_pairs s2.heap bl ?_
    rintro xs2 a c ys2 hdec2 ⟨hfa, hfc⟩
    have ha_bl : a ∈ bl := by rw [hdec2]; simp
    have hc_bl : c ∈ bl := by rw [hdec2]; simp
    by_cases haP : a = p
    · rw [haP] at hfa
      exact hpalloc hfa
    · by_cases hcP : c = p
      · rw [hcP] at hfc
        exact hpalloc hfc
      · exact noAdjFree_pairs s.heap bl hnadj xs2 a c ys2 hdec2
          ⟨(hstatus a ha_bl haP).mp hfa, (hstatus c hc_bl hcP).mp hfc⟩
  · intro b hb
    exact hsub_r b (List.mem_cons_of_mem _ hb)
  · intro c hc
    by_cases hcp : c = p
    · subst hcp
      constructor
      · intro hf
        exact absurd hf hpalloc
      · intro hm
        exact absurd hm hpnotin
    · rw [hstatus c hc hcp, hdisc c hc]
      constructor
      · intro hm
        exact (hmem_r c).mpr ⟨hm, hcp⟩
      · intro hm
        exact ((hmem_r c).mp hm).1
  · constructor
    · intro hf2
      rw [hs2def, hfr_sb] at hf2
      by_cases hrest : cys ++ cxs = []
      · exact hrest
      · rw [if_neg hrest] at hf2
        exfalso
        rw [hsadef] at hf2
        by_cases hfq : s.freep = some p
        · rw [if_pos hfq] at hf2
          have hf3 : mm_prev s p = none := hf2
          have harc : (lastD p (cys ++ cxs), p) ∈ arcs (p :: cys ++ cxs) :=
            lastD_arc p (cys ++ cxs) p
          have := (hcyc_r _ harc).2
          rw [hf3] at this
          cases this
        · rw [if_neg hfq] at hf2
          have hf3 : s.freep = none := hf2
          have hcnil : cyc = [] := hfrnone.mp hf3
          rw [hcnil] at hp
          cases hp
    · intro hrest
      rw [hs2def, hfr_sb, if_pos hrest]
  · intro g hg
    rw [hs2def, hfr_sb] at hg
    by_cases hrest : cys ++ cxs = []
    · rw [if_pos hrest] at hg
      cases hg
    · rw [if_neg hrest] at hg
      rw [hsadef] at hg
      by_cases hfq : s.freep = some p
      · rw [if_pos hfq] at hg
        have hg3 : mm_prev s p = some g := hg
        cases hrest2 : cys ++ cxs with
        | nil => exact absurd hrest2 hrest
        | cons c0 crest =>
          have harc : (lastD p (cys ++ cxs), p) ∈ arcs (p :: cys ++ cxs) :=
            lastD_arc p (cys ++ cxs) p
          have hpv := (hcyc_r _ harc).2
          rw [hg3] at hpv
          have hgl : g = lastD p (cys ++ cxs) := Option.some.inj hpv
          rw [hgl, hrest2]
          exact lastD_mem_cons c0 crest
      · rw [if_neg hfq] at hg
        have hg3 : s.freep = some g := hg
        have hgc : g ∈ cyc := hfrmem g hg3
        rcases List.mem_cons.mp (hperm.mem_iff.mp hgc) with he | hm
        · exact absurd (he ▸ hg3) hfq
        · exact hm

  · rw [hs2def, hhs_sb, hsa_hsize]
  · rw [hs2def, hmu_sb, hsa_maxUnits]
  · rw [hs2def, hpg_sb, hsa_pagesize]
  · rw [hs2def, herr_sb, hsa_errno]
  · rw [hs2def, hdata_sb, hsa_data]
/-! ### Split branch of the malloc traversal -/

theorem splitBlock_spec (s : MM) (bl cyc : List Nat) (p nunits : Nat)
    (hWF : WFd s bl cyc) (hp : p ∈ cyc) (hn2 : 2 ≤ nunits)
    (hroom : nunits + 2 ≤ mm_size s p) :
    ∃ bl',
      WFd (splitBlock s p nunits).1 bl' cyc ∧
      (splitBlock s p nunits).2 = p + (mm_size s p - nunits) ∧
      (splitBlock s p nunits).1.heap.length = s.heap.length ∧
      (splitBlock s p nunits).1.hsize = s.hsize ∧
      (splitBlock s p nunits).1.maxUnits = s.maxUnits ∧
      (splitBlock s p nunits).1.pagesize = s.pagesize ∧
      (splitBlock s p nunits).1.errno = s.errno ∧
      (splitBlock s p nunits).1.data = s.data ∧
      (splitBlock s p nunits).2 ∈ bl' ∧
      (¬ isFree (splitBlock s p nunits).1.heap (splitBlock s p nunits).2) ∧
      mm_size (splitBlock s p nunits).1 (splitBlock s p nunits).2 = nunits ∧
      (∀ x ∈ bl, x ∈ bl' ∧
        (isFree (splitBlock s p nunits).1.heap x ↔ isFree s.heap x)) ∧
      (∀ x ∈ bl, x ≠ p → mm_size (splitBlock s p nunits).1 x = mm_size s x) ∧
      (∀ x ∈ bl, x ≠ (splitBlock s p nunits).2) ∧
      (∀ y ∈ bl', y = (splitBlock s p nunits).2 ∨ y ∈ bl) ∧
      mm_size (splitBlock s p nunits).1 p = mm_size s p - nunits ∧
      mm_next (splitBlock s p nunits).1 p = mm_next s p ∧
      mm_prev (splitBlock s p nunits).1 p = mm_prev s p ∧
      mm_next (splitBlock s p nunits).1 (splitBlock s p nunits).2 = none ∧
      mm_prev (splitBlock s p nunits).1 (splitBlock s p nunits).2 = none ∧
      (splitBlock s p nunits).1.freep = mm_prev s p := by
  obtain ⟨hhs, hchain, hfoot, hnadj, hcyc, hcnd, hcsub, hdisc, hfrnone, hfrmem⟩ := hWF
  have hpbl : p ∈ bl := hcsub p hp
  have hpfree : isFree s.heap p := (hdisc p hpbl).mpr hp
  have hpf := chain_mem_facts s bl p hchain hpbl
  obtain ⟨ns, hnsdef⟩ : ∃ v, v = mm_size s p - nunits := ⟨_, rfl⟩
  have hns2 : 2 ≤ ns := by omega
  have hplen : p < s.heap.length := by omega
  obtain ⟨s1, hs1def⟩ : ∃ t, t = mm_setSize s p ns := ⟨_, rfl⟩
  obtain ⟨s2, hs2def⟩ : ∃ t, t = mm_setPrev s1 p (mm_prev s p) := ⟨_, rfl⟩
  obtain ⟨s3, hs3def⟩ : ∃ t, t = mm_setNext s2 p (mm_next s p) := ⟨_, rfl⟩
  obtain ⟨p2, hp2def⟩ : ∃ v, v = p + mm_size s3 p := ⟨_, rfl⟩
  obtain ⟨s4, hs4def⟩ : ∃ t, t = mm_setSize s3 p2 nunits := ⟨_, rfl⟩
  obtain ⟨s5, hs5def⟩ : ∃ t, t = mm_setNext s4 p2 none := ⟨_, rfl⟩
  obtain ⟨s6, hs6def⟩ : ∃ t, t = mm_setPrev s5 p2 none := ⟨_, rfl⟩
  have heq1 : (splitBlock s p nunits).1 = { s6 with freep := mm_prev s p } := by
    rw [hs6def, hs5def, hs4def, hp2def, hs3def, hs2def, hs1def, hnsdef]
    rfl
  have heq2 : (splitBlock s p nunits).2 = p2 := by
    rw [hp2def, hs3def, hs2def, hs1def, hnsdef]
    rfl
  have hfld : s6.hsize = s.hsize ∧ s6.maxUnits = s.maxUnits ∧ s6.pagesize = s.pagesize ∧
      s6.errno = s.errno ∧ s6.data = s.data := by
    rw [hs6def, hs5def, hs4def, hs3def, hs2def, hs1def]
    exact ⟨rfl, rfl, rfl, rfl, rfl⟩
  have hsz1 : ∀ j, mm_size s1 j =
      if j = p ∨ (j = p + ns - 1 ∧ j < s.heap.length) then ns else mm_size s j := by
    intro j
    rw [hs1def]
    exact mm_setSize_size s p ns hplen j
  have hsz3 : ∀ j, mm_size s3 j = mm_size s1 j := by
    intro j
    rw [hs3def, hs2def]
    simp only [mm_setNext_size, mm_setPrev_size]
  have hsz3p : mm_size s3 p = ns := by
    rw [hsz3, hsz1, if_pos (Or.inl rfl)]
  have hp2v : p2 = p + ns := by rw [hp2def, hsz3p]
  have hp2len : p2 < s.heap.length := by omega
  have hlen1 : s1.heap.length = s.heap.length := by
    rw [hs1def]
    simp
  have hlen3 : s3.heap.length = s.heap.length := by
    rw [hs3def, hs2def]
    simp only [mm_setNext_len, mm_setPrev_len]
    exact hlen1
  have hlen6 : s6.heap.length = s.heap.length := by
    rw [hs6def, hs5def, hs4def]
    simp only [mm_setPrev_len, mm_setNext_len, mm_setSize_len]
    exact hlen3
  have hfoot2 : mm_footer s1 p = p + ns - 1 := by
    show p + mm_size s1 p - 1 = p + ns - 1
    rw [hsz1, if_pos (Or.inl rfl)]
  have hszF : ∀ j, mm_size s6 j =
      if j = p2 ∨ (j = p2 + nunits - 1 ∧ j < s.heap.length) then nunits
      else if j = p ∨ (j = p + ns - 1 ∧ j < s.heap.length) then ns
      else mm_size s j := by
    intro j
    rw [hs6def, hs5def]
    simp only [mm_setPrev_size, mm_setNext_size]
    rw [hs4def, mm_setSize_size s3 p2 nunits (by rw [hlen3]; exact hp2len) j, hlen3,
      hsz3, hsz1]
  have hsz6p : mm_size s6 p = ns := by
    rw [hszF, if_neg, if_pos (Or.inl rfl)]
    intro hx
    rcases hx with hx | hx
    · omega
    · omega
  have hsz6p2 : mm_size s6 p2 = nunits := by
    rw [hszF, if_pos (Or.inl rfl)]
  have hfoot6 : mm_footer s5 p2 = p2 + nunits - 1 := by
    show p2 + mm_size s5 p2 - 1 = p2 + nunits - 1
    rw [hs5def]
    simp only [mm_setNext_size]
    rw [hs4def, mm_setSize_size s3 p2 nunits (by rw [hlen3]; exact hp2len) p2,
      if_pos (Or.inl rfl)]
  have hptF : ∀ j, mm_next s6 j =
      if p2 + nunits - 1 = j ∧ j < s.heap.length then none
      else if p2 = j ∧ j < s.heap.length then none
      else if p = j ∧ j < s.heap.length then mm_next s p
      else if p + ns - 1 = j ∧ j < s.heap.length then mm_prev s p
      else mm_next s j := by
    intro j
    rw [hs6def, mm_setPrev_ptr, hfoot6, hs5def, mm_setNext_ptr, hs4def]
    simp only [mm_setNext_len, mm_setPrev_len, mm_setSize_len, mm_setSize_ptr]
    rw [hs3def, mm_setNext_ptr, hs2def, mm_setPrev_ptr, hfoot2, hs1def]
    simp only [mm_setNext_len, mm_setPrev_len, mm_setSize_len, mm_setSize_ptr]
  have hspan : ∀ c ∈ bl, c ≠ p → c + mm_size s c ≤ p ∨ p + mm_size s p ≤ c := by
    intro c hc hcp
    rcases Nat.lt_or_ge c p with hlt | hge
    · exact Or.inl (chainSeg_sorted s.heap bl 0 s.heap.length c p hchain hc hpbl hlt)
    · have hgt : p < c := by omega
      exact Or.inr (chainSeg_sorted s.heap bl 0 s.heap.length p c hchain hpbl hc hgt)
  have hp2notbl : p2 ∉ bl := by
    intro hm
    have hne : p2 ≠ p := by omega
    have := hspan p2 hm hne
    have hszp2 := (chain_mem_facts s bl p2 hchain hm).1
    omega
  have hkeyfp : p2 + nunits - 1 = mm_footer s p := by
    show _ = p + mm_size s p - 1
    omega
  have hnextO : ∀ c ∈ bl, c ≠ p → mm_next s6 c = mm_next s c := by
    intro c hc hcp
    have hsp := hspan c hc hcp
    have hcf := chain_mem_facts s bl c hchain hc
    rw [hptF c,
      if_neg (fun hx => footer_ne_start s bl p c hchain hpbl hc
        hcp (by rw [← hkeyfp]; exact hx.1)),
      if_neg (fun hx => by omega),
      if_neg (fun hx => hcp hx.1.symm),
      if_neg (fun hx => by omega)]
  have hnotwr_foot : ∀ c ∈ bl, c ≠ p →
      (p2 + nunits - 1 ≠ c + mm_size s c - 1) ∧ (p2 ≠ c + mm_size s c - 1) ∧
      (p ≠ c + mm_size s c - 1) ∧ (p + ns - 1 ≠ c + mm_size s c - 1) := by
    intro c hc hcp
    have hsp := hspan c hc hcp
    have hcf := chain_mem_facts s bl c hchain hc
    refine ⟨?_, by omega, ?_, by omega⟩
    · intro he
      refine footer_inj_ne s bl p c hchain hpbl hc (fun h2 => hcp h2.symm) ?_
      show p + mm_size s p - 1 = c + mm_size s c - 1
      omega
    · intro he
      exact footer_ne_start s bl c p hchain hc hpbl (fun h2 => hcp h2.symm) he.symm

  have hsz6O : ∀ c ∈ bl, c ≠ p → mm_size s6 c = mm_size s c := by
    intro c hc hcp
    have hsp := hspan c hc hcp
    have hcf := chain_mem_facts s bl c hchain hc
    rw [hszF c, if_neg (fun hx => by omega), if_neg (fun hx => by
      rcases hx with hx | hx
      · exact hcp hx
      · omega)]
  have hfoot6O : ∀ c ∈ bl, c ≠ p →
      (hGet s6.heap (c + mm_size s c - 1)).size = (hGet s.heap (c + mm_size s c - 1)).size := by
    intro c hc hcp
    obtain ⟨hw1, hw2, hw3, hw4⟩ := hnotwr_foot c hc hcp
    show mm_size s6 (c + mm_size s c - 1) = mm_size s (c + mm_size s c - 1)
    rw [hszF, if_neg (fun hx => by
        rcases hx with hx | hx
        · exact hw2 hx.symm
        · exact hw1 hx.1.symm),
      if_neg (fun hx => by
        rcases hx with hx | hx
        · exact hw3 hx.symm
        · exact hw4 hx.1.symm)]
  have hprevO : ∀ c ∈ bl, c ≠ p → mm_prev s6 c = mm_prev s c := by
    intro c hc hcp
    obtain ⟨hw1, hw2, hw3, hw4⟩ := hnotwr_foot c hc hcp
    have hfl : c + mm_size s c - 1 < s.heap.length := footer_lt_len s bl c hchain hc
    have hf6 : mm_footer s6 c = c + mm_size s c - 1 := by
      show c + mm_size s6 c - 1 = c + mm_size s c - 1
      rw [hsz6O c hc hcp]
    rw [show mm_prev s6 c = mm_next s6 (mm_footer s6 c) from rfl, hf6, hptF,
      if_neg (fun hx => hw1 hx.1), if_neg (fun hx => hw2 hx.1),
      if_neg (fun hx => hw3 hx.1), if_neg (fun hx => hw4 hx.1)]
    rfl
  have hp_next : mm_next s6 p = mm_next s p := by
    rw [hptF p, if_neg (fun hx => by omega), if_neg (fun hx => by omega),
      if_pos ⟨rfl, hplen⟩]
  have hp_prev : mm_prev s6 p = mm_prev s p := by
    have hf6 : mm_footer s6 p = p + ns - 1 := by
      show p + mm_size s6 p - 1 = p + ns - 1
      rw [hsz6p]
    rw [show mm_prev s6 p = mm_next s6 (mm_footer s6 p) from rfl, hf6, hptF,
      if_neg (fun hx => by omega), if_neg (fun hx => by omega),
      if_neg (fun hx => by omega), if_pos ⟨rfl, by omega⟩]
  have hallocp2 : ¬ isFree s6.heap p2 := by
    intro hf
    have : mm_next s6 p2 = none := by
      rw [hptF p2, if_neg (fun hx => by omega), if_pos ⟨rfl, hp2len⟩]
    exact hf this
  have hstatAll : ∀ c ∈ bl, (isFree s6.heap c ↔ isFree s.heap c) := by
    intro c hc
    by_cases hcp : c = p
    · subst hcp
      show (hGet s6.heap c).ptr ≠ none ↔ (hGet s.heap c).ptr ≠ none
      rw [show (hGet s6.heap c).ptr = mm_next s6 c from rfl, hp_next]
      exact Iff.rfl
    · show (hGet s6.heap c).ptr ≠ none ↔ (hGet s.heap c).ptr ≠ none
      rw [show (hGet s6.heap c).ptr = mm_next s6 c from rfl, hnextO c hc hcp]
      exact Iff.rfl
  obtain ⟨xs, ys, hdec⟩ := List.append_of_mem hpbl
  have hmem' : ∀ x, x ∈ xs ++ p :: p2 :: ys ↔ (x ∈ bl ∨ x = p2) := by
    intro x
    rw [hdec]
    simp only [List.mem_append, List.mem_cons]
    tauto
  have hFheap : (splitBlock s p nunits).1.heap = s6.heap := by rw [heq1]
  have hFfreep : (splitBlock s p nunits).1.freep = mm_prev s p := by rw [heq1]
  obtain ⟨cxs, cys, hcdec⟩ := List.append_of_mem hp
  have hcyc_r : cycOk s (p :: cys ++ cxs) := by
    rw [hcdec] at hcyc
    exact cycOk_rotate s cxs p cys hcyc
  have hperm : cyc.Perm (p :: cys ++ cxs) := by
    rw [hcdec]
    exact rotate_perm cxs p cys
  have hprev_val : mm_prev s p = some (lastD p (cys ++ cxs)) :=
    (hcyc_r _ (lastD_arc p (cys ++ cxs) p)).2
  have hlmem : lastD p (cys ++ cxs) ∈ cyc :=
    hperm.mem_iff.mpr (lastD_mem_cons p (cys ++ cxs))
  have hchain6 : chainOk s6.heap (xs ++ p :: p2 :: ys) := by
    show chainSeg s6.heap 0 (xs ++ p :: p2 :: ys) s6.heap.length
    rw [hlen6]
    refine chainSeg_split s.heap s6.heap xs ys 0 s.heap.length p p2
      (by rw [← hdec]; exact hchain) ?_ ?_ ?_ ?_ ?_
    · show p2 = p + mm_size s6 p
      rw [hsz6p]
      exact hp2v
    · show mm_size s6 p + mm_size s6 p2 = mm_size s p
      rw [hsz6p, hsz6p2]
      omega
    · show 2 ≤ mm_size s6 p
      rw [hsz6p]
      exact hns2
    · show 2 ≤ mm_size s6 p2
      rw [hsz6p2]
      exact hn2
    · intro c hcm hcp
      have hcbl : c ∈ bl := by rw [hdec]; exact hcm
      exact hsz6O c hcbl hcp
  refine ⟨xs ++ p :: p2 :: ys,
    ⟨?_, ?_, ?_, ?_, ?_, hcnd, ?_, ?_, ?_, ?_⟩,
    by rw [heq2, hp2v, hnsdef],
    by rw [heq1]; show s6.heap.length = s.heap.length; exact hlen6,
    by rw [heq1]; show s6.hsize = s.hsize; exact hfld.1,
    by rw [heq1]; show s6.maxUnits = s.maxUnits; exact hfld.2.1,
    by rw [heq1]; show s6.pagesize = s.pagesize; exact hfld.2.2.1,
    by rw [heq1]; show s6.errno = s.errno; exact hfld.2.2.2.1,
    by rw [heq1]; show s6.data = s.data; exact hfld.2.2.2.2,
    by rw [heq2]; exact (hmem' p2).mpr (Or.inr rfl),
    by rw [heq1, heq2]; exact hallocp2,
    by rw [heq1, heq2]; exact hsz6p2, ?_, ?_, ?_, ?_, ?_, ?_, ?_, ?_, ?_, ?_⟩
  · show 1 ≤ (splitBlock s p nunits).1.hsize
    rw [heq1]
    show 1 ≤ s6.hsize
    rw [hfld.1]
    exact hhs
  · show chainOk (splitBlock s p nunits).1.heap (xs ++ p :: p2 :: ys)
    rw [hFheap]
    exact hchain6
  · intro c hc
    rw [hFheap]
    rcases (hmem' c).mp hc with hm | hm
    · by_cases hcp : c = p
      · subst hcp
        show (hGet s6.heap (c + (hGet s6.heap c).size - 1)).size = (hGet s6.heap c).size
        rw [show (hGet s6.heap c).size = ns from hsz6p]
        show (hGet s6.heap (c + ns - 1)).size = ns
        have h2 : mm_size s6 (c + ns - 1) = ns := by
          rw [hszF, if_neg (by omega), if_pos (Or.inr ⟨rfl, by omega⟩)]
        exact h2
      · show (hGet s6.heap (c + (hGet s6.heap c).size - 1)).size = (hGet s6.heap c).size
        rw [show (hGet s6.heap c).size = mm_size s c from hsz6O c hm hcp,
          hfoot6O c hm hcp]
        exact hfoot c hm
    · subst hm
      show (hGet s6.heap (c + (hGet s6.heap c).size - 1)).size = (hGet s6.heap c).size
      rw [show (hGet s6.heap c).size = nunits from hsz6p2]
      show (hGet s6.heap (c + nunits - 1)).size = nunits
      have h2 : mm_size s6 (c + nunits - 1) = nunits := by
        rw [hszF, if_pos (Or.inr ⟨rfl, by omega⟩)]
      exact h2
  · show noAdjFree (splitBlock s p nunits).1.heap (xs ++ p :: p2 :: ys)
    rw [hFheap]
    refine noAdjFree_of_pairs s6.heap (xs ++ p :: p2 :: ys) ?_
    rintro xs2 a c ys2 hdec2 ⟨hfa, hfc⟩
    have ha_bl' : a ∈ xs ++ p :: p2 :: ys := by rw [hdec2]; simp
    have hc_bl' : c ∈ xs ++ p :: p2 :: ys := by rw [hdec2]; simp
    have hcv := chain_consec s6.heap (xs ++ p :: p2 :: ys) xs2 ys2 a c hchain6 hdec2
    by_cases hcP2 : c = p2
    · rw [hcP2] at hfc
      exact hallocp2 hfc
    · by_cases haP2 : a = p2
      · have hceq : c = p + mm_size s p := by
          rw [haP2] at hcv
          rw [hcv, show (hGet s6.heap p2).size = nunits from hsz6p2]
          omega
        have hcbl : c ∈ bl := by
          rcases (hmem' c).mp hc_bl' with hm | hm
          · exact hm
          · exact absurd hm hcP2
        have hcys : c ∈ ys := by
          rw [hdec] at hcbl
          rcases List.mem_append.mp hcbl with hm | hm
          · exfalso
            have hord : (xs ++ p :: ys).Pairwise (· < ·) := by
              rw [← hdec]
              exact chainSeg_pairwise s.heap bl 0 s.heap.length hchain
            have := (List.pairwise_append.mp hord).2.2 c hm p (by simp)
            omega
          · rcases List.mem_cons.mp hm with hm2 | hm2
            · exfalso
              omega
            · exact hm2
        obtain ⟨k, hseg1, hseg2⟩ := (chainSeg_append s.heap xs (p :: ys) 0
          s.heap.length).mp (by rw [← hdec]; exact hchain)
        obtain ⟨hpk, hpsz, hys⟩ := hseg2
        cases hys0 : ys with
        | nil =>
          rw [hys0] at hcys
          cases hcys
        | cons y0 ys' =>
          rw [hys0] at hys
          have hy0 : y0 = p + (hGet s.heap p).size := hys.1
          have hcy0 : c = y0 := by
            rw [hy0]
            exact hceq
          have hnp := noAdjFree_pairs s.heap bl hnadj xs p y0 ys'
            (by rw [hdec, hys0])
          refine hnp ⟨hpfree, ?_⟩
          rw [← hcy0]
          exact (hstatAll c hcbl).mp hfc
      · have hane : a ≠ p2 := haP2
        have habl : a ∈ bl := by
          rcases (hmem' a).mp ha_bl' with hm | hm
          · exact hm
          · exact absurd hm haP2
        have hcbl : c ∈ bl := by
          rcases (hmem' c).mp hc_bl' with hm | hm
          · exact hm
          · exact absurd hm hcP2
        have haP : a ≠ p := by
          intro he
          rw [he] at hcv
          rw [show (hGet s6.heap p).size = ns from hsz6p] at hcv
          exact hcP2 (by omega)
        have hceq : c = a + mm_size s a := by
          rw [hcv, show (hGet s6.heap a).size = mm_size s a from hsz6O a habl haP]
        have hclen : c < s.heap.length := chain_mem_lt_len s bl c hchain hcbl
        obtain ⟨xs3, ys3, hdec3⟩ := chain_after_decomp s.heap bl a hchain habl
          (by
            have : mm_size s a = (hGet s.heap a).size := rfl
            omega)
        have hnp := noAdjFree_pairs s.heap bl hnadj xs3 a (a + (hGet s.heap a).size) ys3
          hdec3
        refine hnp ⟨(hstatAll a habl).mp hfa, ?_⟩
        rw [show a + (hGet s.heap a).size = c from by
          have : mm_size s a = (hGet s.heap a).size := rfl
          omega]
        exact (hstatAll c hcbl).mp hfc
  · show cycOk (splitBlock s p nunits).1 cyc
    intro pr hpr
    obtain ⟨hsrc, hdst⟩ := arcs_src_dst cyc pr hpr
    have hv := hcyc pr hpr
    have hsrcbl := hcsub pr.1 hsrc
    have hdstbl := hcsub pr.2 hdst
    constructor
    · show (hGet (splitBlock s p nunits).1.heap pr.1).ptr = some pr.2
      rw [hFheap]
      by_cases hsp : pr.1 = p
      · rw [show (hGet s6.heap pr.1).ptr = mm_next s6 pr.1 from rfl, hsp, hp_next]
        rw [← hsp]
        exact hv.1
      · rw [show (hGet s6.heap pr.1).ptr = mm_next s6 pr.1 from rfl,
          hnextO pr.1 hsrcbl hsp]
        exact hv.1
    · have hmp : mm_prev (splitBlock s p nunits).1 pr.2 = mm_prev s6 pr.2 := by
        rw [heq1]
        rfl
      show mm_prev (splitBlock s p nunits).1 pr.2 = some pr.1
      rw [hmp]
      by_cases hdp : pr.2 = p
      · rw [hdp, hp_prev, ← hdp]
        exact hv.2
      · rw [hprevO pr.2 hdstbl hdp]
        exact hv.2
  · intro b hb
    exact (hmem' b).mpr (Or.inl (hcsub b hb))
  · intro c hc
    rw [hFheap]
    rcases (hmem' c).mp hc with hm | hm
    · rw [hstatAll c hm]
      exact hdisc c hm
    · subst hm
      constructor
      · intro hf
        exact absurd hf hallocp2
      · intro hmc
        exact absurd (hcsub c hmc) hp2notbl
  · rw [hFfreep, hprev_val]
    constructor
    · intro h2
      cases h2
    · intro h2
      rw [h2] at hp
      cases hp
  · intro g hg
    rw [hFfreep, hprev_val] at hg
    rw [← Option.some.inj hg]
    exact hlmem

  · intro x hx
    refine ⟨(hmem' x).mpr (Or.inl hx), ?_⟩
    rw [heq1]
    exact hstatAll x hx
  · intro x hx hxp
    rw [heq1]
    exact hsz6O x hx hxp
  · intro x hx
    rw [heq2]
    intro he
    exact hp2notbl (he ▸ hx)
  · intro y hy
    rw [heq2]
    rcases (hmem' y).mp hy with hm | hm
    · exact Or.inr hm
    · exact Or.inl hm
  · rw [heq1]
    show mm_size s6 p = mm_size s p - nunits
    rw [hsz6p, hnsdef]
  · rw [heq1]
    show mm_next s6 p = mm_next s p
    exact hp_next
  · rw [heq1]
    show mm_prev s6 p = mm_prev s p
    exact hp_prev
  · rw [heq1, heq2]
    show mm_next s6 p2 = none
    rw [hptF p2, if_neg (fun hx => by omega), if_pos ⟨rfl, hp2len⟩]
  · rw [heq1, heq2]
    show mm_prev s6 p2 = none
    have hf6 : mm_footer s6 p2 = p2 + nunits - 1 := by
      show p2 + mm_size s6 p2 - 1 = p2 + nunits - 1
      rw [hsz6p2]
    have hlt : p2 + nunits - 1 < s.heap.length := by
      have h2 := hpf.2
      omega
    rw [show mm_prev s6 p2 = mm_next s6 (mm_footer s6 p2) from rfl, hf6, hptF,
      if_pos ⟨rfl, hlt⟩]
  · exact hFfreep

/-! ### The fit branch of the malloc traversal -/

theorem mallocFit_spec (s : MM) (bl cyc : List Nat) (p nunits fuel : Nat)
    (hWF : WFd s bl cyc) (hp : p ∈ cyc) (hn2 : 2 ≤ nunits)
    (hfit : nunits ≤ mm_size s p) :
    ∃ s' bl' cyc' nb,
      mallocLoop nunits (fuel + 1) s p = some (s', some (nb + 1)) ∧
      WFd s' bl' cyc' ∧
      s'.heap.length = s.heap.length ∧
      s'.hsize = s.hsize ∧
      s'.maxUnits = s.maxUnits ∧
      s'.pagesize = s.pagesize ∧
      s'.errno = s.errno ∧
      s'.data = s.data ∧
      nb ∈ bl' ∧
      (¬ isFree s'.heap nb) ∧
      nunits ≤ mm_size s' nb ∧
      (∀ x ∈ bl, ¬ isFree s.heap x → x ∈ bl' ∧ ¬ isFree s'.heap x ∧
        mm_size s' x = mm_size s x ∧ x ≠ nb) ∧
      (∀ y ∈ bl', ¬ isFree s'.heap y → y = nb ∨ (y ∈ bl ∧ ¬ isFree s.heap y)) := by
  have hpbl : p ∈ bl := hWF.2.2.2.2.2.2.1 p hp
  have hpfree : isFree s.heap p := (hWF.2.2.2.2.2.2.2.1 p hpbl).mpr hp
  by_cases hex : mm_size s p = nunits ∨ mm_size s p = nunits + 1
  · obtain ⟨cyc', hWF', hlen', hsz', hhs', hmu', hpg', herr', hdata', hmemc, hstat,
      hpalloc⟩ := unlinkFree_spec s bl cyc p hWF hp
    refine ⟨_, bl, cyc', p, ?_, hWF', hlen', hhs', hmu', hpg', herr', hdata', hpbl,
      hpalloc, by rw [hsz' p]; exact hfit, ?_, ?_⟩
    · show mallocLoop nunits (fuel + 1) s p = _
      simp only [mallocLoop]
      rw [if_pos hfit, if_pos hex]
      rfl
    · intro x hx hxal
      have hxp : x ≠ p := fun he => hxal (he ▸ hpfree)
      exact ⟨hx, fun hf => hxal ((hstat x hx hxp).mp hf), hsz' x, hxp⟩
    · intro y hy hyal
      by_cases hyp : y = p
      · exact Or.inl hyp
      · exact Or.inr ⟨hy, fun hf => hyal ((hstat y hy hyp).mpr hf)⟩
  · have hroom : nunits + 2 ≤ mm_size s p := by omega
    obtain ⟨bl', hWF', hval, hlen', hhs', hmu', hpg', herr', hdata', hnbmem, hnballoc,
      hnbsz, hkeep, hszo, hnotnb, hconv, _, _, _, _, _, _⟩ :=
      splitBlock_spec s bl cyc p nunits hWF hp hn2 hroom
    refine ⟨_, bl', cyc, (splitBlock s p nunits).2, ?_, hWF', hlen', hhs', hmu', hpg',
      herr', hdata', hnbmem, hnballoc, by rw [hnbsz], ?_, ?_⟩
    · show mallocLoop nunits (fuel + 1) s p = _
      simp only [mallocLoop]
      rw [if_pos hfit, if_neg hex]
      rfl
    · intro x hx hxal
      have hxp : x ≠ p := fun he => hxal (he ▸ hpfree)
      obtain ⟨hxm, hxst⟩ := hkeep x hx
      exact ⟨hxm, fun hf => hxal (hxst.mp hf), hszo x hx hxp, hnotnb x hx⟩
    · intro y hy hyal
      rcases hconv y hy with he | hm
      · exact Or.inl he
      · refine Or.inr ⟨hm, ?_⟩
        intro hf
        exact hyal ((hkeep y hm).2.mpr hf)

/-! ### The malloc traversal -/

theorem arcs_head_mem (a : Nat) (rest : List Nat) :
    (a, rest.headD a) ∈ arcs (a :: rest) := by
  cases rest with
  | nil => exact List.mem_singleton.mpr rfl
  | cons r0 rs => exact List.mem_cons_self ..

theorem headD_mem_cons (a : Nat) (l : List Nat) : l.headD a ∈ a :: l := by
  cases l with
  | nil => exact List.mem_singleton.mpr rfl
  | cons r0 rs => exact List.mem_cons_of_mem _ (List.mem_cons_self ..)

theorem mallocLoop_ok (nunits : Nat) (hn2 : 2 ≤ nunits) :
    ∀ fuel s p bl cyc s' r,
      WFd s bl cyc → p ∈ cyc →
      mallocLoop nunits fuel s p = some (s', r) →
      ∃ bl' cyc',
        WFd s' bl' cyc' ∧
        s.heap.length ≤ s'.heap.length ∧
        s'.hsize = s.hsize ∧
        s'.maxUnits = s.maxUnits ∧
        s'.pagesize = s.pagesize ∧
        s'.data = s.data ∧
        (∀ x ∈ bl, ¬ isFree s.heap x → x ∈ bl' ∧ ¬ isFree s'.heap x ∧
          mm_size s' x = mm_size s x) ∧
        (r = none → s' = { s with errno := true }) ∧
        (∀ a, r = some a → s'.errno = s.errno ∧ ∃ nb, a = nb + 1 ∧ nb ∈ bl' ∧
          (¬ isFree s'.heap nb) ∧ nunits ≤ mm_size s' nb ∧
          (∀ x ∈ bl, ¬ isFree s.heap x → x ≠ nb) ∧
          (∀ y ∈ bl', ¬ isFree s'.heap y → y = nb ∨ (y ∈ bl ∧ ¬ isFree s.heap y))) := by
  intro fuel
  induction fuel with
  | zero =>
    intro s p bl cyc s' r _ _ h
    cases h
  | succ fuel ih =>
    intro s p bl cyc s' r hWF hp h
    by_cases hfit : nunits ≤ mm_size s p
    · obtain ⟨s2, bl2, cyc2, nb, heq, hWF2, hlen2, hhs2, hmu2, hpg2, herr2, hdata2,
        hnbm, hnba, hnbs, hkeep, hconv⟩ :=
        mallocFit_spec s bl cyc p nunits fuel hWF hp hn2 hfit
      rw [heq] at h
      have hpair := Option.some.inj h
      rw [Prod.mk.injEq] at hpair
      obtain ⟨hs, hr⟩ := hpair
      subst hs
      subst hr
      refine ⟨bl2, cyc2, hWF2, Nat.le_of_eq hlen2.symm, hhs2, hmu2, hpg2, hdata2,
        ?_, ?_, ?_⟩
      · intro x hx hxal
        obtain ⟨h1, h2, h3, _⟩ := hkeep x hx hxal
        exact ⟨h1, h2, h3⟩
      · intro h0
        cases h0
      · intro a ha
        refine ⟨herr2, nb, (Option.some.inj ha).symm, hnbm, hnba, hnbs, ?_, hconv⟩
        intro x hx hxal
        exact (hkeep x hx hxal).2.2.2
    · by_cases hwrap : s.freep = some p
      · by_cases hgrow : s.maxUnits < s.heap.length
          + (if nunits < s.pagesize / s.hsize then s.pagesize / s.hsize else nunits)
        · have hmc := morecore_fail s nunits hgrow
          have heval : mallocLoop nunits (fuel + 1) s p
              = some ({ s with errno := true }, none) := by
            simp only [mallocLoop]
            rw [if_neg hfit, if_pos hwrap, hmc]
          rw [heval] at h
          have hpair := Option.some.inj h
          rw [Prod.mk.injEq] at hpair
          obtain ⟨hs, hr⟩ := hpair
          subst hs
          subst hr
          refine ⟨bl, cyc, hWF, Nat.le_refl _, rfl, rfl, rfl, rfl, ?_, fun _ => rfl, ?_⟩
          · intro x hx hxal
            exact ⟨hx, hxal, rfl⟩
          · intro a ha
            cases ha
        · obtain ⟨s3, bl3, cyc3, hmc, hWF3, hlen3, hhs3, hmu3, hpg3, herr3, hdata3,
            hkeep3, hconv3, g, B, hg, hgnext, hBmem, hBfree, hBsz⟩ :=
            morecore_success s bl cyc nunits
              (if nunits < s.pagesize / s.hsize then s.pagesize / s.hsize else nunits)
              hWF hn2 rfl (by omega)
          obtain ⟨a1, a2, a3, a4, a5, a6, a7, a8, a9, a10⟩ := hWF3
          have hgc : g ∈ cyc3 := a10 g hg
          have hBcyc : B ∈ cyc3 := (a8 B hBmem).mp hBfree
          obtain ⟨gxs, gys, hgdec⟩ := List.append_of_mem hgc
          have hcyc3r : cycOk s3 (g :: gys ++ gxs) := by
            rw [hgdec] at a5
            exact cycOk_rotate s3 gxs g gys a5
          have hgperm : cyc3.Perm (g :: gys ++ gxs) := by
            rw [hgdec]
            exact rotate_perm gxs g gys
          have hgprev : mm_prev s3 g = some (lastD g (gys ++ gxs)) :=
            (hcyc3r _ (lastD_arc g (gys ++ gxs) g)).2
          have hpgmem : lastD g (gys ++ gxs) ∈ cyc3 :=
            hgperm.mem_iff.mpr (lastD_mem_cons g (gys ++ gxs))
          have hWF2' : WFd { s3 with freep := mm_prev s3 g } bl3 cyc3 := by
            refine ⟨a1, a2, a3, a4, cycOk_heap_eq s3 _ rfl cyc3 (by
              rw [hgdec]
              rw [hgdec] at a5
              exact a5), a6, a7, a8, ?_, ?_⟩
            · show mm_prev s3 g = none ↔ cyc3 = []
              rw [hgprev]
              constructor
              · intro h0
                cases h0
              · intro h0
                rw [h0] at hgc
                cases hgc
            · intro f2 hf2
              have hf3 : mm_prev s3 g = some f2 := hf2
              rw [hgprev] at hf3
              rw [← Option.some.inj hf3]
              exact hpgmem
          have heval : mallocLoop nunits (fuel + 1) s p
              = mallocLoop nunits fuel { s3 with freep := mm_prev s3 g } B := by
            simp only [mallocLoop]
            rw [if_neg hfit, if_pos hwrap, hmc, hg]
            show (match mm_next { s3 with freep := mm_prev s3 g } g with
              | none => none
              | some q => mallocLoop nunits fuel { s3 with freep := mm_prev s3 g } q)
              = _
            rw [show mm_next { s3 with freep := mm_prev s3 g } g = some B from hgnext]
          rw [heval] at h
          cases fuel with
          | zero => cases h
          | succ k =>
            obtain ⟨s4, bl4, cyc4, nb, heq4, hWF4, hlen4, hhs4, hmu4, hpg4, herr4,
              hdata4, hnbm, hnba, hnbs, hkeep4, hconv4⟩ :=
              mallocFit_spec { s3 with freep := mm_prev s3 g } bl3 cyc3 B nunits k
                hWF2' hBcyc hn2 hBsz
            rw [heq4] at h
            have hpair := Option.some.inj h
            rw [Prod.mk.injEq] at hpair
            obtain ⟨hs, hr⟩ := hpair
            subst hs
            subst hr
            refine ⟨bl4, cyc4, hWF4, ?_, ?_, ?_, ?_, ?_, ?_, ?_, ?_⟩
            · rw [hlen4]
              show s3.heap.length ≥ s.heap.length
              omega
            · rw [hhs4]
              exact hhs3
            · rw [hmu4]
              exact hmu3
            · rw [hpg4]
              exact hpg3
            · rw [hdata4]
              exact hdata3
            · intro x hx hxal
              obtain ⟨h31, h32, h33⟩ := hkeep3 x hx hxal
              obtain ⟨h41, h42, h43, _⟩ := hkeep4 x h31 h32
              exact ⟨h41, h42, by rw [h43]; exact h33⟩
            · intro h0
              cases h0
            · intro a ha
              refine ⟨by rw [herr4]; exact herr3, nb, (Option.some.inj ha).symm,
                hnbm, hnba, hnbs, ?_, ?_⟩
              · intro x hx hxal
                obtain ⟨h31, h32, _⟩ := hkeep3 x hx hxal
                exact (hkeep4 x h31 h32).2.2.2
              · intro y hy hyal
                rcases hconv4 y hy hyal with he | ⟨hm3, hal3⟩
                · exact Or.inl he
                · exact Or.inr (hconv3 y hm3 hal3)
      · obtain ⟨cxs, cys, hcdec⟩ := List.append_of_mem hp
        have hcyc0 : cycOk s cyc := hWF.2.2.2.2.1
        have hcyc_r : cycOk s (p :: cys ++ cxs) := by
          rw [hcdec] at hcyc0
          exact cycOk_rotate s cxs p cys hcyc0
        have hperm : cyc.Perm (p :: cys ++ cxs) := by
          rw [hcdec]
          exact rotate_perm cxs p cys
        have harc : (p, (cys ++ cxs).headD p) ∈ arcs (p :: cys ++ cxs) :=
          arcs_head_mem p (cys ++ cxs)
        have hnq : mm_next s p = some ((cys ++ cxs).headD p) := (hcyc_r _ harc).1
        have hqcyc : (cys ++ cxs).headD p ∈ cyc :=
          hperm.mem_iff.mpr (headD_mem_cons p (cys ++ cxs))
        have heval : mallocLoop nunits (fuel + 1) s p
            = mallocLoop nunits fuel s ((cys ++ cxs).headD p) := by
          simp only [mallocLoop]
          rw [if_neg hfit, if_neg hwrap, hnq]
        rw [heval] at h
        exact ih s ((cys ++ cxs).headD p) bl cyc s' r hWF hqcyc h

/-! ### mm_malloc: full specification -/

theorem mm_malloc_spec (s : MM) (bl cyc : List Nat) (nbytes : Nat) (s' : MM)
    (r : Option Nat) (hWF : WFd s bl cyc) (h : mm_malloc s nbytes = some (s', r)) :
    ∃ bl' cyc',
      WFd s' bl' cyc' ∧
      s.heap.length ≤ s'.heap.length ∧
      s'.hsize = s.hsize ∧
      s'.maxUnits = s.maxUnits ∧
      s'.pagesize = s.pagesize ∧
      s'.data = s.data ∧
      (∀ x ∈ bl, ¬ isFree s.heap x → x ∈ bl' ∧ ¬ isFree s'.heap x ∧
        mm_size s' x = mm_size s x) ∧
      (r = none → s' = { s with errno := true }) ∧
      (∀ a, r = some a → ∃ nb, a = nb + 1 ∧ nb ∈ bl' ∧ (¬ isFree s'.heap nb) ∧
        mm_units s.hsize nbytes ≤ mm_size s' nb ∧
        (∀ x ∈ bl, ¬ isFree s.heap x → x ≠ nb) ∧
        (∀ y ∈ bl', ¬ isFree s'.heap y → y = nb ∨ (y ∈ bl ∧ ¬ isFree s.heap y))) := by
  have hhs1 : 1 ≤ s.hsize := hWF.1
  have hn2 : 2 ≤ mm_units s.hsize nbytes := by
    show 2 ≤ (nbytes + 2 * s.hsize - 1) / s.hsize + 1
    have h1 : 1 ≤ (nbytes + 2 * s.hsize - 1) / s.hsize := by
      rw [Nat.le_div_iff_mul_le (by omega)]
      omega
    omega
  cases hf : s.freep with
  | some f =>
    have hfc : f ∈ cyc := hWF.2.2.2.2.2.2.2.2.2 f hf
    obtain ⟨cxs, cys, hcdec⟩ := List.append_of_mem hfc
    have hcyc0 : cycOk s cyc := hWF.2.2.2.2.1
    have hcyc_r : cycOk s (f :: cys ++ cxs) := by
      rw [hcdec] at hcyc0
      exact cycOk_rotate s cxs f cys hcyc0
    have hperm : cyc.Perm (f :: cys ++ cxs) := by
      rw [hcdec]
      exact rotate_perm cxs f cys
    have hnq : mm_next s f = some ((cys ++ cxs).headD f) :=
      (hcyc_r _ (arcs_head_mem f (cys ++ cxs))).1
    have hqcyc : (cys ++ cxs).headD f ∈ cyc :=
      hperm.mem_iff.mpr (headD_mem_cons f (cys ++ cxs))
    have heval : mm_malloc s nbytes = mallocLoop (mm_units s.hsize nbytes)
        (mallocFuel s) s ((cys ++ cxs).headD f) := by
      simp only [mm_malloc, hf, hnq]
    rw [heval] at h
    obtain ⟨bl', cyc', hWF', hlen, hhs', hmu, hpg, hdata, hkeep, hnone, hsome⟩ :=
      mallocLoop_ok (mm_units s.hsize nbytes) hn2 (mallocFuel s) s
        ((cys ++ cxs).headD f) bl cyc s' r hWF hqcyc h
    refine ⟨bl', cyc', hWF', hlen, hhs', hmu, hpg, hdata, hkeep, ?_,
      fun a ha => (hsome a ha).2⟩
    intro h0
    rw [hnone h0, hf]
  | none =>
    by_cases hgrow : s.maxUnits < s.heap.length
        + (if mm_units s.hsize nbytes < s.pagesize / s.hsize
          then s.pagesize / s.hsize else mm_units s.hsize nbytes)
    · have hmc := morecore_fail s (mm_units s.hsize nbytes) hgrow
      have heval : mm_malloc s nbytes = some ({ s with errno := true }, none) := by
        simp only [mm_malloc, hf, hmc]
      rw [heval] at h
      have hpair := Option.some.inj h
      rw [Prod.mk.injEq] at hpair
      obtain ⟨hs, hr⟩ := hpair
      subst hs
      subst hr
      refine ⟨bl, cyc, hWF, Nat.le_refl _, rfl, rfl, rfl, rfl, ?_, ?_, ?_⟩
      · intro x hx hxal
        exact ⟨hx, hxal, rfl⟩
      · intro _
        rw [hf]
      · intro a ha
        cases ha
    · obtain ⟨s3, bl3, cyc3, hmc, hWF3, hlen3, hhs3, hmu3, hpg3, herr3, hdata3,
        hkeep3, hconv3, g, B, hg, hgnext, hBmem, hBfree, hBsz⟩ :=
        morecore_success s bl cyc (mm_units s.hsize nbytes)
          (if mm_units s.hsize nbytes < s.pagesize / s.hsize
            then s.pagesize / s.hsize else mm_units s.hsize nbytes)
          hWF hn2 rfl (by omega)
      obtain ⟨a1, a2, a3, a4, a5, a6, a7, a8, a9, a10⟩ := hWF3
      have hgc : g ∈ cyc3 := a10 g hg
      have hBcyc : B ∈ cyc3 := (a8 B hBmem).mp hBfree
      have hWF2 : WFd { s3 with freep := some g } bl3 cyc3 := by
        refine ⟨a1, a2, a3, a4, cycOk_heap_eq s3 _ rfl cyc3 a5, a6, a7, a8, ?_, ?_⟩
        · show some g = none ↔ cyc3 = []
          constructor
          · intro h0
            cases h0
          · intro h0
            rw [h0] at hgc
            cases hgc
        · intro f2 hf2
          have hf3 : some g = some f2 := hf2
          rw [← Option.some.inj hf3]
          exact hgc
      have hgnext2 : mm_next { s3 with freep := some g } g = some B := hgnext
      have heval : mm_malloc s nbytes = mallocLoop (mm_units s.hsize nbytes)
          (mallocFuel { s3 with freep := some g }) { s3 with freep := some g } B := by
        simp only [mm_malloc, hf, hmc, hg, hgnext2]
      rw [heval] at h
      have hfe : mallocFuel { s3 with freep := some g }
          = ({ s3 with freep := some g } : MM).maxUnits
            + ({ s3 with freep := some g } : MM).heap.length + 3 + 1 := rfl
      rw [hfe] at h
      obtain ⟨s4, bl4, cyc4, nb, heq4, hWF4, hlen4, hhs4, hmu4, hpg4, herr4,
        hdata4, hnbm, hnba, hnbs, hkeep4, hconv4⟩ :=
        mallocFit_spec { s3 with freep := some g } bl3 cyc3 B
          (mm_units s.hsize nbytes)
          (({ s3 with freep := some g } : MM).maxUnits
            + ({ s3 with freep := some g } : MM).heap.length + 3)
          hWF2 hBcyc hn2 hBsz
      rw [heq4] at h
      have hpair := Option.some.inj h
      rw [Prod.mk.injEq] at hpair
      obtain ⟨hs, hr⟩ := hpair
      subst hs
      subst hr
      refine ⟨bl4, cyc4, hWF4, ?_, ?_, ?_, ?_, ?_, ?_, ?_, ?_⟩
      · rw [hlen4]
        show s.heap.length ≤ s3.heap.length
        omega
      · rw [hhs4]
        exact hhs3
      · rw [hmu4]
        exact hmu3
      · rw [hpg4]
        exact hpg3
      · rw [hdata4]
        exact hdata3
      · intro x hx hxal
        obtain ⟨h31, h32, h33⟩ := hkeep3 x hx hxal
        obtain ⟨h41, h42, h43, _⟩ := hkeep4 x h31 h32
        exact ⟨h41, h42, by rw [h43]; exact h33⟩
      · intro h0
        cases h0
      · intro a ha
        refine ⟨nb, (Option.some.inj ha).symm, hnbm, hnba, hnbs, ?_, ?_⟩
        · intro x hx hxal
          obtain ⟨h31, h32, _⟩ := hkeep3 x hx hxal
          exact (hkeep4 x h31 h32).2.2.2
        · intro y hy hyal
          rcases hconv4 y hy hyal with he | ⟨hm3, hal3⟩
          · exact Or.inl he
          · exact Or.inr (hconv3 y hm3 hal3)

/-! ### The global invariant through call sequences -/

theorem runOps_GInv : ∀ ops s live s2 live2, GInv s live →
    runOps s live ops = some (s2, live2) → GInv s2 live2 := by
  intro ops
  induction ops with
  | nil =>
    intro s live s2 live2 hG h
    have h2 : some (s, live) = some (s2, live2) := h
    have hpair := Option.some.inj h2
    rw [Prod.mk.injEq] at hpair
    obtain ⟨hs, hl⟩ := hpair
    subst hs
    subst hl
    exact hG
  | cons op ops ih =>
    intro s live s2 live2 hG h
    obtain ⟨bl, cyc, hWF, hLive⟩ := hG
    cases op with
    | alloc n =>
      cases hm : mm_malloc s n with
      | none =>
        simp only [runOps, hm] at h
        cases h
      | some pr =>
        obtain ⟨s1, r⟩ := pr
        cases r with
        | none =>
          obtain ⟨bl', cyc', hWF', _, _, _, _, _, _, hnone, _⟩ :=
            mm_malloc_spec s bl cyc n s1 none hWF hm
          have hseq := hnone rfl
          subst hseq
          have h3 : runOps { s with errno := true } live ops = some (s2, live2) := by
            have h4 := h
            simp only [runOps, hm] at h4
            exact h4
          exact ih { s with errno := true } live s2 live2 ⟨bl, cyc, hWF, hLive⟩ h3
        | some a =>
          obtain ⟨bl', cyc', hWF', hlen, hhs, hmu, hpg, hdata, hkeep, _, hsome⟩ :=
            mm_malloc_spec s bl cyc n s1 (some a) hWF hm
          obtain ⟨nb, hanb, hnbm, hnba, hnbsz, hfresh, hconv⟩ := hsome a rfl
          obtain ⟨hnd, hlv, hlb⟩ := hLive
          have h3 : runOps s1 (a :: live) ops = some (s2, live2) := by
            have h4 := h
            simp only [runOps, hm] at h4
            exact h4
          refine ih s1 (a :: live) s2 live2 ⟨bl', cyc', hWF', ?_, ?_, ?_⟩ h3
          · refine List.nodup_cons.mpr ⟨?_, hnd⟩
            intro hmem
            obtain ⟨h1a, h2a, h3a⟩ := hlv a hmem
            have := hfresh (a - 1) h2a h3a
            omega
          · intro a0 hmem
            rcases List.mem_cons.mp hmem with he | hm0
            · subst he
              refine ⟨by omega, ?_, ?_⟩
              · rw [show a0 - 1 = nb from by omega]
                exact hnbm
              · rw [show a0 - 1 = nb from by omega]
                exact hnba
            · obtain ⟨h1a, h2a, h3a⟩ := hlv a0 hm0
              obtain ⟨k1, k2, _⟩ := hkeep (a0 - 1) h2a h3a
              exact ⟨h1a, k1, k2⟩
          · intro b hb hal
            rcases hconv b hb hal with he | ⟨hbbl, hbal⟩
            · rw [he, show nb + 1 = a from hanb.symm]
              exact List.mem_cons_self ..
            · exact List.mem_cons_of_mem _ (hlb b hbbl hbal)
    | release a =>
      by_cases ha : a ∈ live
      · obtain ⟨hnd, hlv, hlb⟩ := hLive
        obtain ⟨h1a, h2a, h3a⟩ := hlv a ha
        obtain ⟨s', bl', cyc', hfeq, hWF', hlen, hhs, hmu, hpg, herr, hdata, hkeep,
          hconv, _⟩ := mm_free_spec s bl cyc (a - 1) hWF h2a h3a
        have hae : a = a - 1 + 1 := by omega
        have hfeq2 : mm_free s (some a) = some s' := by
          rw [hae]
          exact hfeq
        have h3 : runOps s' (live.erase a) ops = some (s2, live2) := by
          have h4 := h
          simp only [runOps, if_pos ha, hfeq2] at h4
          exact h4
        refine ih s' (live.erase a) s2 live2 ⟨bl', cyc', hWF', ?_, ?_, ?_⟩ h3
        · exact hnd.erase a
        · intro a0 hm0
          obtain ⟨hne0, hm1⟩ := (List.Nodup.mem_erase_iff hnd).mp hm0
          obtain ⟨g1, g2, g3⟩ := hlv a0 hm1
          obtain ⟨k1, k2, _⟩ := hkeep (a0 - 1) g2 (by omega) g3
          exact ⟨g1, k1, k2⟩
        · intro b hb hal
          obtain ⟨hbbl, hbal, hbne⟩ := hconv b hb hal
          refine (List.Nodup.mem_erase_iff hnd).mpr ⟨?_, hlb b hbbl hbal⟩
          omega
      · simp only [runOps, if_neg ha] at h
        cases h

/-! ### Initial state -/

theorem GInv_init (hsize pagesize maxUnits : Nat) (d : Nat → Nat) (hh : 1 ≤ hsize) :
    GInv (mm_init hsize pagesize maxUnits d) [] := by
  refine ⟨[], [], ⟨hh, ?_, ?_, ?_, ?_, ?_, ?_, ?_, ?_, ?_⟩, ?_, ?_, ?_⟩
  · exact rfl
  · intro b hb
    cases hb
  · trivial
  · intro pr hpr
    cases hpr
  · exact List.nodup_nil
  · intro b hb
    cases hb
  · intro b hb
    cases hb
  · exact ⟨fun _ => rfl, fun _ => rfl⟩
  · intro f hf
    cases hf
  · exact List.nodup_nil
  · intro a ha
    cases ha
  · intro b hb
    cases hb

/-! ### The specification claims -/

/-- C1: after any run of allocate/release calls from a fresh state, the
segment is partitioned into blocks whose header size is at least 2 and
matches the footer size, the free-list circular order is realised by the
next and prev pointers, and a block is on the free list exactly when its
header next pointer is non-null. -/
theorem claim_C1 (hsize pagesize maxUnits : Nat) (d : Nat → Nat) (ops : List Op)
    (s2 : MM) (live2 : List Nat) (hh : 1 ≤ hsize)
    (h : runOps (mm_init hsize pagesize maxUnits d) [] ops = some (s2, live2)) :
    ∃ bl cyc,
      chainOk s2.heap bl ∧
      footOk s2.heap bl ∧
      (∀ b ∈ bl, 2 ≤ mm_size s2 b ∧
        (hGet s2.heap (mm_footer s2 b)).size = mm_size s2 b) ∧
      cycOk s2 cyc ∧
      (∀ b ∈ bl, (isFree s2.heap b ↔ b ∈ cyc)) := by
  obtain ⟨bl, cyc, hWF, _⟩ :=
    runOps_GInv ops (mm_init hsize pagesize maxUnits d) [] s2 live2
      (GInv_init hsize pagesize maxUnits d hh) h
  refine ⟨bl, cyc, hWF.2.1, hWF.2.2.1, ?_, hWF.2.2.2.2.1, hWF.2.2.2.2.2.2.2.1⟩
  intro b hb
  have hf := chain_mem_facts s2 bl b hWF.2.1 hb
  exact ⟨hf.1, hWF.2.2.1 b hb⟩

/-- Closed run of claim C1 on one allocation from a fresh 16-unit
configuration. -/
theorem claim_C1_test :
    1 ≤ (16 : Nat) ∧
    runOps wInit [] [Op.alloc 1] = some (wRun1.1, wRun1.2) ∧
    ∃ bl cyc,
      chainOk wRun1.1.heap bl ∧
      footOk wRun1.1.heap bl ∧
      (∀ b ∈ bl, 2 ≤ mm_size wRun1.1 b ∧
        (hGet wRun1.1.heap (mm_footer wRun1.1 b)).size = mm_size wRun1.1 b) ∧
      cycOk wRun1.1 cyc ∧
      (∀ b ∈ bl, (isFree wRun1.1.heap b ↔ b ∈ cyc)) :=
  ⟨by decide, by rfl,
    claim_C1 16 256 16 (fun _ => 0) [Op.alloc 1] wRun1.1 wRun1.2 (by decide) (by rfl)⟩

/-- C2 (amended): a run that releases every allocation leaves, on a
nonempty segment, a free list of exactly one self-linked block at 0
covering the whole segment, and getfree then reports heapsize. -/
theorem claim_C2 (hsize pagesize maxUnits : Nat) (d : Nat → Nat) (ops : List Op)
    (s2 : MM) (hh : 1 ≤ hsize)
    (h : runOps (mm_init hsize pagesize maxUnits d) [] ops = some (s2, []))
    (hne : s2.heap ≠ []) :
    s2.freep = some 0 ∧ mm_next s2 0 = some 0 ∧ mm_size s2 0 = s2.heap.length ∧
    mm_getfree s2 = mem_heapsize s2 := by
  obtain ⟨bl, cyc, hWF, hLive⟩ :=
    runOps_GInv ops (mm_init hsize pagesize maxUnits d) [] s2 []
      (GInv_init hsize pagesize maxUnits d hh) h
  obtain ⟨hhs, hchain, hfoot, hnadj, hcyc, hcnd, hcsub, hdisc, hfrnone, hfrmem⟩ := hWF
  obtain ⟨hnd, hlv, hlb⟩ := hLive
  have hallfree : ∀ b ∈ bl, isFree s2.heap b := by
    intro b hb
    by_contra hal
    have h2 := hlb b hb hal
    cases h2
  have hlen0 : s2.heap.length ≠ 0 := by
    intro h0
    exact hne (List.length_eq_zero.mp h0)
  cases hbl : bl with
  | nil =>
    exfalso
    rw [hbl] at hchain
    have h0 : s2.heap.length = 0 := hchain
    exact hlen0 h0
  | cons b0 bt =>
    cases hbt : bt with
    | cons b1 bt2 =>
      exfalso
      rw [hbt] at hbl
      rw [hbl] at hnadj
      have hpair : ¬(isFree s2.heap b0 ∧ isFree s2.heap b1) ∧
          noAdjFree s2.heap (b1 :: bt2) := hnadj
      refine hpair.1 ⟨hallfree b0 ?_, hallfree b1 ?_⟩
      · rw [hbl]
        exact List.mem_cons_self ..
      · rw [hbl]
        exact List.mem_cons_of_mem _ (List.mem_cons_self ..)
    | nil =>
      rw [hbt] at hbl
      rw [hbl] at hchain
      have hch : b0 = 0 ∧ 2 ≤ (hGet s2.heap b0).size ∧
          chainSeg s2.heap (b0 + (hGet s2.heap b0).size) [] s2.heap.length := hchain
      obtain ⟨hb00, hsz2, hrest⟩ := hch
      have hlenv : s2.heap.length = b0 + (hGet s2.heap b0).size := hrest
      subst hb00
      have h0bl : (0 : Nat) ∈ bl := by
        rw [hbl]
        exact List.mem_cons_self ..
      have h0cyc : (0 : Nat) ∈ cyc := (hdisc 0 h0bl).mp (hallfree 0 h0bl)
      have hcycsub : ∀ c ∈ cyc, c = 0 := by
        intro c hc
        have h2 := hcsub c hc
        rw [hbl] at h2
        rcases List.mem_cons.mp h2 with he | he
        · exact he
        · cases he
      have hcyceq : cyc = [0] := by
        cases hcyc0 : cyc with
        | nil =>
          rw [hcyc0] at h0cyc
          cases h0cyc
        | cons c0 ct =>
          have hc00 : c0 = 0 := hcycsub c0 (by
            rw [hcyc0]
            exact List.mem_cons_self ..)
          cases hct : ct with
          | nil =>
            rw [hc00]
          | cons c1 ct2 =>
            exfalso
            have hc10 : c1 = 0 := hcycsub c1 (by
              rw [hcyc0, hct]
              exact List.mem_cons_of_mem _ (List.mem_cons_self ..))
            rw [hcyc0, hct] at hcnd
            have hnd2 := List.nodup_cons.mp hcnd
            refine hnd2.1 ?_
            rw [hc00, ← hc10]
            exact List.mem_cons_self ..
      rw [hcyceq] at hcyc
      have harc := hcyc ((0 : Nat), (0 : Nat))
        (show ((0 : Nat), (0 : Nat)) ∈ [((0 : Nat), (0 : Nat))] from
          List.mem_singleton.mpr rfl)
      have hnext00 : mm_next s2 0 = some 0 := harc.1
      have hfs : s2.freep = some 0 := by
        cases hfp : s2.freep with
        | none =>
          exfalso
          have h2 := hfrnone.mp hfp
          rw [hcyceq] at h2
          cases h2
        | some f =>
          have hf0 : f = 0 := by
            have h2 := hfrmem f hfp
            rw [hcyceq] at h2
            exact List.mem_singleton.mp h2
          rw [hf0]
      have hszlen : mm_size s2 0 = s2.heap.length := by
        have hms : mm_size s2 0 = (hGet s2.heap 0).size := rfl
        omega
      refine ⟨hfs, hnext00, hszlen, ?_⟩
      have hpg : ptrGt (mm_next s2 0) 0 = false := by
        rw [hnext00]
        rfl
      have hloop : getfreeLoop s2 (s2.heap.length + 1) 0 (mm_size s2 0)
          = mm_size s2 0 := by
        show (if ptrGt (mm_next s2 0) 0 then _ else mm_size s2 0) = mm_size s2 0
        rw [hpg]
        simp
      have hgf : mm_getfree s2
          = mm_bytes s2.hsize (getfreeLoop s2 (s2.heap.length + 1) 0 (mm_size s2 0)) := by
        simp only [mm_getfree, hfs]
      rw [hgf, hloop]
      show mm_size s2 0 * s2.hsize = s2.heap.length * s2.hsize
      rw [hszlen]

/-- The empty run refutes the unamended claim C2: with no allocation
ever made the segment is empty and the free list holds zero blocks, not
exactly one. -/
theorem claim_C2_cex :
    runOps wInit [] [] = some (wInit, []) ∧
    wInit.freep = none ∧
    mm_getfree wInit = 0 ∧
    mem_heapsize wInit = 0 :=
  ⟨rfl, rfl, rfl, rfl⟩

/-- Closed run of claim C2: one allocation, then its release. -/
theorem claim_C2_test :
    1 ≤ (16 : Nat) ∧
    runOps wInit [] [Op.alloc 1, Op.release 14] = some (wRunFree.1, []) ∧
    wRunFree.1.heap ≠ [] ∧
    (wRunFree.1.freep = some 0 ∧ mm_next wRunFree.1 0 = some 0 ∧
      mm_size wRunFree.1 0 = wRunFree.1.heap.length ∧
      mm_getfree wRunFree.1 = mem_heapsize wRunFree.1) :=
  ⟨by decide, by rfl,
    fun h2 => absurd (congrArg List.length h2) (by decide),
    claim_C2 16 256 16 (fun _ => 0) [Op.alloc 1, Op.release 14] wRunFree.1
      (by decide) (by rfl)
      (fun h2 => absurd (congrArg List.length h2) (by decide))⟩

/-- C3: at a fitting candidate of the first-fit traversal, an exact or
near fit (size = units or units + 1) takes the whole block off the free
list with no size change, while a larger block is shrunk in place to
size - units (header and footer), keeps its links, and the allocated
piece of exactly units units is carved at the upper end
p + (size - units) with both of its links nulled, and is the one
returned. -/
theorem claim_C3 (s : MM) (bl cyc : List Nat) (p nunits fuel : Nat)
    (hWF : WFd s bl cyc) (hp : p ∈ cyc) (hn2 : 2 ≤ nunits)
    (hfit : nunits ≤ mm_size s p) :
    (mm_size s p = nunits ∨ mm_size s p = nunits + 1 →
      ∃ s', mallocLoop nunits (fuel + 1) s p = some (s', some (mm_payload p)) ∧
        s'.heap.length = s.heap.length ∧
        (∀ j, mm_size s' j = mm_size s j) ∧
        ¬ isFree s'.heap p) ∧
    (¬ (mm_size s p = nunits ∨ mm_size s p = nunits + 1) →
      ∃ s', mallocLoop nunits (fuel + 1) s p
          = some (s', some (mm_payload (p + (mm_size s p - nunits)))) ∧
        s'.heap.length = s.heap.length ∧
        mm_size s' p = mm_size s p - nunits ∧
        (hGet s'.heap (mm_footer s' p)).size = mm_size s' p ∧
        isFree s'.heap p ∧
        mm_next s' p = mm_next s p ∧
        mm_prev s' p = mm_prev s p ∧
        mm_size s' (p + (mm_size s p - nunits)) = nunits ∧
        mm_next s' (p + (mm_size s p - nunits)) = none ∧
        mm_prev s' (p + (mm_size s p - nunits)) = none) := by
  have hpbl : p ∈ bl := hWF.2.2.2.2.2.2.1 p hp
  have hpfree : isFree s.heap p := (hWF.2.2.2.2.2.2.2.1 p hpbl).mpr hp
  constructor
  · intro hex
    obtain ⟨cyc', _, hlen', hsz', _, _, _, _, _, _, _, hpalloc⟩ :=
      unlinkFree_spec s bl cyc p hWF hp
    refine ⟨_, ?_, hlen', hsz', hpalloc⟩
    show mallocLoop nunits (fuel + 1) s p = _
    simp only [mallocLoop]
    rw [if_pos hfit, if_pos hex]
  · intro hex
    have hroom : nunits + 2 ≤ mm_size s p := by
      have h2 := chain_mem_facts s bl p hWF.2.1 hpbl
      omega
    obtain ⟨bl', hWF', hval, hlen', _, _, _, _, _, _, _, hnbsz, hkeep, _, _, _,
      hsizep, hnextp, hprevp, hnext2, hprev2, _⟩ :=
      splitBlock_spec s bl cyc p nunits hWF hp hn2 hroom
    refine ⟨(splitBlock s p nunits).1, ?_, hlen', hsizep, ?_, ?_, hnextp, hprevp,
      ?_, ?_, ?_⟩
    · show mallocLoop nunits (fuel + 1) s p
        = some ((splitBlock s p nunits).1, some (mm_payload (p + (mm_size s p - nunits))))
      rw [← hval]
      simp only [mallocLoop]
      rw [if_pos hfit, if_neg hex]
      rfl
    · exact hWF'.2.2.1 p (hkeep p hpbl).1
    · exact (hkeep p hpbl).2.mpr hpfree
    · rw [← hval]
      exact hnbsz
    · rw [← hval]
      exact hnext2
    · rw [← hval]
      exact hprev2

/-- Closed run of claim C3 on a four-unit self-linked free block with a
two-unit request, which exercises the split branch. -/
theorem claim_C3_test :
    WFd wSplit [0] [0] ∧ (0 : Nat) ∈ ([0] : List Nat) ∧ (2 : Nat) ≤ 2 ∧
    2 ≤ mm_size wSplit 0 ∧
    ((mm_size wSplit 0 = 2 ∨ mm_size wSplit 0 = 2 + 1 →
      ∃ s', mallocLoop 2 (0 + 1) wSplit 0 = some (s', some (mm_payload 0)) ∧
        s'.heap.length = wSplit.heap.length ∧
        (∀ j, mm_size s' j = mm_size wSplit j) ∧
        ¬ isFree s'.heap 0) ∧
    (¬ (mm_size wSplit 0 = 2 ∨ mm_size wSplit 0 = 2 + 1) →
      ∃ s', mallocLoop 2 (0 + 1) wSplit 0
          = some (s', some (mm_payload (0 + (mm_size wSplit 0 - 2)))) ∧
        s'.heap.length = wSplit.heap.length ∧
        mm_size s' 0 = mm_size wSplit 0 - 2 ∧
        (hGet s'.heap (mm_footer s' 0)).size = mm_size s' 0 ∧
        isFree s'.heap 0 ∧
        mm_next s' 0 = mm_next wSplit 0 ∧
        mm_prev s' 0 = mm_prev wSplit 0 ∧
        mm_size s' (0 + (mm_size wSplit 0 - 2)) = 2 ∧
        mm_next s' (0 + (mm_size wSplit 0 - 2)) = none ∧
        mm_prev s' (0 + (mm_size wSplit 0 - 2)) = none)) :=
  ⟨by decide, by decide, by decide, by decide,
    claim_C3 wSplit [0] [0] 0 2 0 (by decide) (by decide) (by decide) (by decide)⟩

/-- C4 (amended): as long as the sizing expression does not overflow
size_t, the wrapping computation reserves (b + 2 hsize - 1) / hsize + 1
units, agrees with the idealized mm_units used by the allocator model,
is at least 2, and leaves at least b bytes of payload beyond the header
and footer units. -/
theorem claim_C4 (hsize nbytes : Nat) (hh : 2 ≤ hsize)
    (hnw : nbytes + 2 * hsize - 1 < USIZE) :
    mm_units_c hsize nbytes = (nbytes + 2 * hsize - 1) / hsize + 1 ∧
    mm_units_c hsize nbytes = mm_units hsize nbytes ∧
    2 ≤ mm_units_c hsize nbytes ∧
    nbytes ≤ (mm_units_c hsize nbytes - 2) * hsize := by
  obtain ⟨q, hq⟩ : ∃ v, v = (nbytes + 2 * hsize - 1) / hsize := ⟨_, rfl⟩
  have hU : USIZE = 2 ^ 64 := rfl
  have hqle : q ≤ (nbytes + 2 * hsize - 1) / 2 := by
    rw [hq]
    exact Nat.div_le_div_left hh (by omega)
  have hlt : q + 1 < USIZE := by omega
  have heq : mm_units_c hsize nbytes = q + 1 := by
    show ((nbytes + 2 * hsize - 1) % USIZE / hsize + 1) % USIZE = q + 1
    rw [Nat.mod_eq_of_lt hnw, ← hq, Nat.mod_eq_of_lt hlt]
  have h2le : 2 ≤ q + 1 := by
    have h1 : 1 ≤ q := by
      rw [hq, Nat.le_div_iff_mul_le (by omega)]
      omega
    omega
  have hpay : nbytes ≤ (q + 1 - 2) * hsize := by
    obtain ⟨r, hr⟩ : ∃ v, v = (nbytes + 2 * hsize - 1) % hsize := ⟨_, rfl⟩
    have hdm : hsize * q + r = nbytes + 2 * hsize - 1 := by
      rw [hq, hr]
      exact Nat.div_add_mod _ _
    have hml : r < hsize := by
      rw [hr]
      exact Nat.mod_lt _ (by omega)
    have hq1 : q + 1 - 2 = q - 1 := by omega
    rw [hq1, Nat.sub_mul, Nat.one_mul, Nat.mul_comm q hsize]
    obtain ⟨A, hA⟩ : ∃ v, v = hsize * q := ⟨_, rfl⟩
    rw [← hA] at hdm ⊢
    omega
  refine ⟨?_, ?_, ?_, ?_⟩
  · rw [heq, hq]
  · rw [heq]
    show q + 1 = (nbytes + 2 * hsize - 1) / hsize + 1
    rw [hq]
  · rw [heq]
    exact h2le
  · rw [heq]
    exact hpay

/-- A request of 2^64 - 31 bytes with 16-byte headers refutes the
original claim C4: the size_t numerator wraps to 0, so the program
reserves a single unit, below the claimed minimum of 2 and with no room
for the requested payload. -/
theorem claim_C4_cex :
    mm_units_c 16 (2 ^ 64 - 31) = 1 ∧
    ¬ 2 ≤ mm_units_c 16 (2 ^ 64 - 31) ∧
    ¬ (2 ^ 64 - 31 ≤ (mm_units_c 16 (2 ^ 64 - 31) - 2) * 16) :=
  ⟨by decide, by decide, by decide⟩

/-- Closed run of claim C4 at a one-byte request with 16-byte headers. -/
theorem claim_C4_test :
    2 ≤ (16 : Nat) ∧ 1 + 2 * 16 - 1 < USIZE ∧
    (mm_units_c 16 1 = (1 + 2 * 16 - 1) / 16 + 1 ∧
      mm_units_c 16 1 = mm_units 16 1 ∧
      2 ≤ mm_units_c 16 1 ∧
      1 ≤ (mm_units_c 16 1 - 2) * 16) :=
  ⟨by decide, by decide, claim_C4 16 1 (by decide) (by decide)⟩

/-- C5: a reachable, well-formed two-block free list on which getfree
reports only the blocks seen before the address order wraps (48 bytes)
although the free list holds 13 units = 208 bytes in total: getfree does
not return the sum over the whole free list. -/
theorem claim_C5 :
    runOps wInit [] [Op.alloc 1, Op.alloc 1, Op.alloc 1, Op.release 14, Op.release 8]
      = some (wRunC5.1, wRunC5.2) ∧
    WF wRunC5.1 ∧
    mm_getfree wRunC5.1 = 48 ∧
    mm_bytes wRunC5.1.hsize (freeTotal wRunC5.1) = 208 ∧
    mm_getfree wRunC5.1 ≠ mm_bytes wRunC5.1.hsize (freeTotal wRunC5.1) :=
  ⟨by rfl, ⟨[0, 10, 13], [0, 13], by decide⟩, by decide, by decide, by decide⟩

/-- C6 (amended): for a positive request that fits the existing block's
unit count, reallocate returns the pointer and state unchanged. -/
theorem claim_C6 (s : MM) (a n : Nat) (h0 : 0 < n)
    (hfit : mm_units s.hsize n ≤ mm_size s (mm_block a)) :
    mm_realloc s (some a) n = some (s, some a) := by
  simp only [mm_realloc]
  rw [if_pos ⟨h0, hfit⟩]

/-- Reallocating to zero bytes refutes the n = 0 case of claim C6: on a
block of 3 units (capacity check 2 ≤ 3 holds) the call moves the
allocation and returns pointer 12, not the original 14. -/
theorem claim_C6_cex :
    mm_units wRun1.1.hsize 0 ≤ mm_size wRun1.1 (mm_block 14) ∧
    mm_realloc wRun1.1 (some 14) 0 = some (wC6.1, wC6.2) ∧
    wC6.2 ≠ some 14 :=
  ⟨by decide, by rfl, by decide⟩

/-- Closed run of claim C6: a one-byte request on the three-unit block
of wRun1. -/
theorem claim_C6_test :
    0 < (1 : Nat) ∧
    mm_units wRun1.1.hsize 1 ≤ mm_size wRun1.1 (mm_block 14) ∧
    mm_realloc wRun1.1 (some 14) 1 = some (wRun1.1, some 14) :=
  ⟨by decide, by decide, claim_C6 wRun1.1 14 1 (by decide) (by decide)⟩

/-- C7: when allocate returns null on a well-formed state, errno is set
and the observable allocator state (the whole segment and freep) is
otherwise unchanged. -/
theorem claim_C7 (s s' : MM) (n : Nat) (hWF : WF s)
    (h : mm_malloc s n = some (s', none)) :
    s' = { s with errno := true } ∧ s'.errno = true ∧ s'.heap = s.heap ∧
    s'.freep = s.freep := by
  obtain ⟨bl, cyc, hWFd⟩ := hWF
  obtain ⟨bl', cyc', _, _, _, _, _, _, _, hnone, _⟩ :=
    mm_malloc_spec s bl cyc n s' none hWFd h
  have he := hnone rfl
  refine ⟨he, ?_, ?_, ?_⟩ <;> rw [he]

/-- Closed run of claim C7: a one-byte request against a provider whose
segment cap is zero. -/
theorem claim_C7_test :
    WF wTiny ∧
    mm_malloc wTiny 1 = some ({ wTiny with errno := true }, none) ∧
    (({ wTiny with errno := true } : MM) = { wTiny with errno := true } ∧
      ({ wTiny with errno := true } : MM).errno = true ∧
      ({ wTiny with errno := true } : MM).heap = wTiny.heap ∧
      ({ wTiny with errno := true } : MM).freep = wTiny.freep) :=
  ⟨⟨[], [], by decide⟩, by rfl,
    claim_C7 wTiny { wTiny with errno := true } 1 ⟨[], [], by decide⟩ (by rfl)⟩

/-- C8 (amended): the assert of release tests bp.size > 0 and the
size_t product bp.size * sizeof(Header) against heapsize; whenever that
product does not wrap, release rejects, before touching any state,
exactly the pointers whose block size is zero or larger in bytes than
the current heapsize, and on a well-formed state every allocated block
passes the assertion and its release succeeds. -/
theorem claim_C8 (s : MM) (bl cyc : List Nat) (a : Nat) (hWF : WFd s bl cyc) :
    (mm_bytes s.hsize (mm_size s (mm_block a)) < USIZE →
      ¬ (0 < mm_size s (mm_block a) ∧
          mm_bytes_c s.hsize (mm_size s (mm_block a)) ≤ mem_heapsize s) →
      mm_free s (some a) = none) ∧
    (∀ bp ∈ bl, ¬ isFree s.heap bp →
      (0 < mm_size s bp ∧ mm_bytes_c s.hsize (mm_size s bp) ≤ mem_heapsize s) ∧
      ∃ s', mm_free s (some (bp + 1)) = some s') := by
  constructor
  · intro hnw hbad
    have he : mm_bytes_c s.hsize (mm_size s (mm_block a))
        = mm_bytes s.hsize (mm_size s (mm_block a)) :=
      Nat.mod_eq_of_lt hnw
    rw [he] at hbad
    simp only [mm_free]
    rw [if_pos hbad]
  · intro bp hbp hal
    have hfacts := chain_mem_facts s bl bp hWF.2.1 hbp
    have hok : 0 < mm_size s bp ∧ mm_bytes s.hsize (mm_size s bp) ≤ mem_heapsize s := by
      constructor
      · omega
      · show mm_size s bp * s.hsize ≤ s.heap.length * s.hsize
        exact Nat.mul_le_mul_right _ (by omega)
    obtain ⟨s', _, _, hfeq, _⟩ := mm_free_spec s bl cyc bp hWF hbp hal
    refine ⟨⟨hok.1, ?_⟩, s', hfeq⟩
    exact Nat.le_trans (Nat.mod_le _ _) hok.2

/-- A corrupt header size of 2^60 units (16-byte headers) refutes the
original claim C8: its true byte size far exceeds the 32-byte heap, yet
the size_t product the assert computes wraps to 0, the assert condition
holds, and release proceeds instead of terminating. -/
theorem claim_C8_cex :
    mem_heapsize sHuge < mm_bytes sHuge.hsize (mm_size sHuge (mm_block 1)) ∧
    0 < mm_size sHuge (mm_block 1) ∧
    mm_bytes_c sHuge.hsize (mm_size sHuge (mm_block 1)) ≤ mem_heapsize sHuge :=
  ⟨by decide, by decide, by decide⟩

/-- Closed run of claim C8 on a two-block segment, at the out-of-segment
pointer 5 whose derived header reads size zero. -/
theorem claim_C8_test :
    WFd wBoth [0, 2] [0] ∧
    ((mm_bytes wBoth.hsize (mm_size wBoth (mm_block 5)) < USIZE →
      ¬ (0 < mm_size wBoth (mm_block 5) ∧
          mm_bytes_c wBoth.hsize (mm_size wBoth (mm_block 5)) ≤ mem_heapsize wBoth) →
      mm_free wBoth (some 5) = none) ∧
    (∀ bp ∈ ([0, 2] : List Nat), ¬ isFree wBoth.heap bp →
      (0 < mm_size wBoth bp ∧
        mm_bytes_c wBoth.hsize (mm_size wBoth bp) ≤ mem_heapsize wBoth) ∧
      ∃ s', mm_free wBoth (some (bp + 1)) = some s')) :=
  ⟨by decide, claim_C8 wBoth [0, 2] [0] 5 (by decide)⟩

/-- C9: allocate_zeroed returns null on count times size overflow with
the state untouched and the provider never consulted; otherwise it
forwards to allocate on count times size bytes and zeroes the first
count times size payload bytes of a successful allocation. -/
theorem claim_C9 (s : MM) (count size : Nat) :
    (USIZE ≤ count * size → mm_calloc s count size = some (s, none)) ∧
    (¬ USIZE ≤ count * size →
      (mm_malloc s (count * size) = none → mm_calloc s count size = none) ∧
      (∀ s1, mm_malloc s (count * size) = some (s1, none) →
        mm_calloc s count size = some (s1, none)) ∧
      (∀ s1 p, mm_malloc s (count * size) = some (s1, some p) →
        mm_calloc s count size =
          some ({ s1 with data := memsetZero s1.data (p * s1.hsize) (count * size) },
            some p) ∧
        ∀ b, b < count * size →
          memsetZero s1.data (p * s1.hsize) (count * size) (p * s1.hsize + b) = 0)) := by
  constructor
  · intro hov
    simp only [mm_calloc]
    rw [if_pos hov]
  · intro hno
    refine ⟨?_, ?_, ?_⟩
    · intro hm
      simp only [mm_calloc, hm]
      rw [if_neg hno]
    · intro s1 hm
      simp only [mm_calloc, hm]
      rw [if_neg hno]
    · intro s1 p hm
      refine ⟨?_, ?_⟩
      · simp only [mm_calloc, hm]
        rw [if_neg hno]
      · intro b hb
        show (if p * s1.hsize ≤ p * s1.hsize + b ∧
            p * s1.hsize + b < p * s1.hsize + count * size then 0
          else s1.data (p * s1.hsize + b)) = 0
        rw [if_pos ⟨Nat.le_add_right _ _, Nat.add_lt_add_left hb _⟩]

/-- C10: a zero-byte request is valid: it reserves the 2-unit minimum
block, and both allocate(0) and allocate_zeroed with a zero factor
return non-null payload pointers on the fresh provider. -/
theorem claim_C10 :
    (∀ h : Nat, 1 ≤ h → mm_units h 0 = 2) ∧
    (mm_malloc wInit 0 = some (wM0.1, some 15) ∧
      mm_size wM0.1 (mm_block 15) = 2) ∧
    mm_calloc wInit 0 5 = some (wC05.1, some 15) ∧
    mm_calloc wInit 7 0 = some (wC70.1, some 15) := by
  refine ⟨?_, ⟨by rfl, by decide⟩, by rfl, by rfl⟩
  intro h hh
  show (0 + 2 * h - 1) / h + 1 = 2
  rw [Nat.zero_add]
  have hlo : 1 ≤ (2 * h - 1) / h := by
    rw [Nat.le_div_iff_mul_le (by omega)]
    omega
  have hhi : (2 * h - 1) / h < 2 := by
    rw [Nat.div_lt_iff_lt_mul (by omega)]
    omega
  obtain ⟨D, hD⟩ : ∃ v, v = (2 * h - 1) / h := ⟨_, rfl⟩
  rw [← hD] at hlo hhi ⊢
  omega
